import Mathlib

/-!
Reference-counted handles: `shared_ptr`, `weak_ptr` and their control blocks.

A shallow embedding of `control_block.h`, `shared_ptr.h` and `weak_ptr.h`.

* Control blocks live in a heap (`State.blocks`); a block pointer is an index
  into it, `none` is `nullptr`.  `delete` marks the block `freed`; touching a
  freed block, or a handle object that is not alive, is undefined behaviour and
  is modelled by the result `none`.
* Handle objects live in two stores (`State.shared`, `State.weak`); a C++
  reference `shared_ptr<T>&` is an index into the store, so `this == &other`
  is equality of indices.  Temporaries and by-value parameters are handle
  objects as well: they are constructed in the store and destroyed when the
  C++ scope ends.
* The counters are `size_t`: `++` and `--` are taken modulo `2 ^ 64`.
* `State.trace` is an instrumentation log: allocations, `destroy()` calls,
  deleter calls, in-place payload destructor calls and deallocations.
-/

/-- An address of a managed object: `nullptr`, an independently allocated
object, the storage embedded in an in-place control block, or the base-class
subobject that lies `k` bytes into the object at `a`. -/
inductive Addr where
  | null : Addr
  | obj (n : Nat) : Addr
  | payloadOf (b : Nat) : Addr
  | baseAt (a : Addr) (k : Nat) : Addr
  deriving DecidableEq, Repr

/-- The implicit pointer conversion `U*` to `T*`, for a base class `T` that
lies `k` bytes into `U`: a null pointer stays null, any other pointer is moved
to the base subobject (the same address when `k = 0`). -/
def Addr.toBase (k : Nat) (a : Addr) : Addr :=
  if a = Addr.null ∨ k = 0 then a else Addr.baseAt a k

/-- The derived part of a control block: `control_block<T, D>` with its `ptr`
and `deleter` members (deleter value `0` is `default_deleter<T>()`), or
`inplace_control_block<T>` whose `object` storage was placement-constructed
from the argument pack `args`. -/
inductive Derived where
  | control_block (ptr : Addr) (deleter : Nat) : Derived
  | inplace_control_block (args : Nat) : Derived
  deriving DecidableEq, Repr

/-- The block `base_control_block_` with its two counters, the derived part and
the heap flag `freed` set by `delete`. -/
structure base_control_block_ where
  shared_ptr_counter : Nat
  weak_ptr_counter : Nat
  derived : Derived
  freed : Bool
  deriving DecidableEq, Repr

/-- The handle `shared_ptr<T>`: members `ptr` and `ptr_manager`. -/
structure shared_ptr where
  ptr : Addr
  ptr_manager : Option Nat
  deriving DecidableEq, Repr

/-- The handle `weak_ptr<T>`: members `ptr` and `ptr_manager`. -/
structure weak_ptr where
  ptr : Addr
  ptr_manager : Option Nat
  deriving DecidableEq, Repr

/-- Instrumentation events. -/
inductive Event where
  | alloc (b : Nat) (d : Derived) : Event
  | destroy (b : Nat) : Event
  | deleter (b : Nat) (d : Nat) (a : Addr) : Event
  | dtorT (b : Nat) : Event
  | dealloc (b : Nat) : Event
  deriving DecidableEq, Repr

/-- The whole memory: control blocks, handle objects, instrumentation. -/
structure State where
  blocks : List base_control_block_
  shared : List (Option shared_ptr)
  weak : List (Option weak_ptr)
  trace : List Event
  deriving DecidableEq, Repr

/-- The increment `++` on a `size_t`. -/
def size_t_inc (c : Nat) : Nat := (c + 1) % 18446744073709551616

/-- The decrement `--` on a `size_t`. -/
def size_t_dec (c : Nat) : Nat := (c + 18446744073709551615) % 18446744073709551616

/-- The implicit conversion `size_t` to `long` (64-bit two's complement). -/
def toLong (c : Nat) : Int :=
  if c % 18446744073709551616 < 9223372036854775808 then
    ((c % 18446744073709551616 : Nat) : Int)
  else ((c % 18446744073709551616 : Nat) : Int) - 18446744073709551616

/-! ## Memory primitives -/

/-- The empty memory. -/
def State.init : State := ⟨[], [], [], []⟩

/-- Dereference of a block pointer: fails on a dangling pointer. -/
def State.deref (s : State) (b : Nat) : Option base_control_block_ :=
  match s.blocks[b]? with
  | some blk => if blk.freed then none else some blk
  | none => none

/-- Write back a block. -/
def State.store (s : State) (b : Nat) (blk : base_control_block_) : State :=
  { s with blocks := s.blocks.set b blk }

/-- Append instrumentation events. -/
def State.emit (s : State) (evs : List Event) : State :=
  { s with trace := s.trace ++ evs }

/-- Allocation with `new` of a control block: counters start at
`shared_ptr_counter = 1`, `weak_ptr_counter = 0`. -/
def State.newBlock (s : State) (d : Derived) : State :=
  { s with blocks := s.blocks ++ [⟨1, 0, d, false⟩],
           trace := s.trace ++ [Event.alloc s.blocks.length d] }

/-- A live `shared_ptr` object. -/
def State.sh (s : State) (i : Nat) : Option shared_ptr := (s.shared[i]?).join

/-- A live `weak_ptr` object. -/
def State.wk (s : State) (i : Nat) : Option weak_ptr := (s.weak[i]?).join

/-- Storage for a new `shared_ptr` object holding `h`; its index is the old
`s.shared.length`. -/
def State.pushShared (s : State) (h : shared_ptr) : State :=
  { s with shared := s.shared ++ [some h] }

/-- Overwrite (`some h`) or end the lifetime of (`none`) a `shared_ptr` object. -/
def State.setShared (s : State) (i : Nat) (v : Option shared_ptr) : State :=
  { s with shared := s.shared.set i v }

/-- Storage for a new `weak_ptr` object holding `w`. -/
def State.pushWeak (s : State) (w : weak_ptr) : State :=
  { s with weak := s.weak ++ [some w] }

/-- Overwrite or end the lifetime of a `weak_ptr` object. -/
def State.setWeak (s : State) (i : Nat) (v : Option weak_ptr) : State :=
  { s with weak := s.weak.set i v }

/-! ## `control_block.h` -/

/-- The virtual `destroy()`: `control_block::destroy` calls `deleter(ptr)` and
clears `ptr`; `inplace_control_block::destroy` runs `~T()` on the storage. -/
def base_control_block_.destroy (b : Nat) (blk : base_control_block_) :
    base_control_block_ × List Event :=
  match blk.derived with
  | Derived.control_block p d =>
    ({ blk with derived := Derived.control_block Addr.null d },
      [Event.destroy b, Event.deleter b d p])
  | Derived.inplace_control_block _ => (blk, [Event.destroy b, Event.dtorT b])

/-- The expression `delete ptr_manager`: the virtual destructor
(`~control_block` calls `deleter(ptr)` when `ptr != nullptr`), then the
storage is released. -/
def base_control_block_.delete (b : Nat) (blk : base_control_block_) :
    base_control_block_ × List Event :=
  match blk.derived with
  | Derived.control_block p d =>
    if p ≠ Addr.null then
      ({ blk with freed := true }, [Event.deleter b d p, Event.dealloc b])
    else ({ blk with freed := true }, [Event.dealloc b])
  | Derived.inplace_control_block _ => ({ blk with freed := true }, [Event.dealloc b])

/-! ## `shared_ptr.h` -/

/-- The default constructor `shared_ptr()`; returns the new object. -/
def shared_ptr.ctor (s : State) : Nat × State :=
  (s.shared.length, s.pushShared ⟨Addr.null, none⟩)

/-- The constructor `shared_ptr(nullptr_t)`. -/
def shared_ptr.ctor_nullptr (s : State) : Nat × State :=
  (s.shared.length, s.pushShared ⟨Addr.null, none⟩)

/-- The constructor `shared_ptr(T* val)`. -/
def shared_ptr.ctor_ptr (val : Addr) (s : State) : Nat × State :=
  (s.shared.length,
    (s.newBlock (Derived.control_block val 0)).pushShared ⟨val, some s.blocks.length⟩)

/-- The constructor `shared_ptr(T* val, D deleter)`. -/
def shared_ptr.ctor_deleter (val : Addr) (deleter : Nat) (s : State) : Nat × State :=
  (s.shared.length,
    (s.newBlock (Derived.control_block val deleter)).pushShared ⟨val, some s.blocks.length⟩)

/-- The private constructor `shared_ptr(T* ptr, base_control_block_* control_block)`. -/
def shared_ptr.ctor_block (p : Addr) (cb : Option Nat) (s : State) : Nat × State :=
  (s.shared.length, s.pushShared ⟨p, cb⟩)

/-- The copy constructor `shared_ptr(const shared_ptr<T>& other)`. -/
def shared_ptr.ctor_copy (other : Nat) (s : State) : Option (Nat × State) :=
  match s.sh other with
  | none => none
  | some o =>
    match o.ptr_manager with
    | none => some (s.shared.length, s.pushShared ⟨o.ptr, none⟩)
    | some b =>
      match s.deref b with
      | none => none
      | some blk =>
        some (s.shared.length,
          (s.store b { blk with shared_ptr_counter := size_t_inc blk.shared_ptr_counter }).pushShared
            ⟨o.ptr, some b⟩)

/-- The covariant copy constructor `shared_ptr(const shared_ptr<U>& other)`,
for `U` derived from `T`: the member initialiser `ptr(other.ptr)` converts the
`U*` to `T*`; `k` is the byte offset of the base `T` inside `U`. -/
def shared_ptr.ctor_copy_cov (k : Nat) (other : Nat) (s : State) : Option (Nat × State) :=
  match s.sh other with
  | none => none
  | some o =>
    match o.ptr_manager with
    | none => some (s.shared.length, s.pushShared ⟨Addr.toBase k o.ptr, none⟩)
    | some b =>
      match s.deref b with
      | none => none
      | some blk =>
        some (s.shared.length,
          (s.store b { blk with shared_ptr_counter := size_t_inc blk.shared_ptr_counter }).pushShared
            ⟨Addr.toBase k o.ptr, some b⟩)

/-- The constructor `shared_ptr(const weak_ptr<T>& other)`. -/
def shared_ptr.ctor_weak (other : Nat) (s : State) : Option (Nat × State) :=
  match s.wk other with
  | none => none
  | some o =>
    match o.ptr_manager with
    | none => some (s.shared.length, s.pushShared ⟨o.ptr, none⟩)
    | some b =>
      match s.deref b with
      | none => none
      | some blk =>
        some (s.shared.length,
          (s.store b { blk with shared_ptr_counter := size_t_inc blk.shared_ptr_counter }).pushShared
            ⟨o.ptr, some b⟩)

/-- The member `swap(shared_ptr<T>& other)`. -/
def shared_ptr.swap (self other : Nat) (s : State) : Option State :=
  match s.sh self, s.sh other with
  | some a, some o => some ((s.setShared self (some o)).setShared other (some a))
  | _, _ => none

/-- The destructor `~shared_ptr()` for a payload whose destruction performs
no handle operation: `destroy()` then touches this block only, and the weak
count tested after it is the one the block had before.  (The destructor for
any payload is `shared_ptr.dtor_reentrant`, of which this is the case of an
empty teardown.)  Afterwards the object is gone (the assignment
`ptr = nullptr` inside it is to a member of the dying object). -/
def shared_ptr.dtor (self : Nat) (s : State) : Option State :=
  match s.sh self with
  | none => none
  | some h =>
    match h.ptr_manager with
    | none => some (s.setShared self none)
    | some b =>
      match s.deref b with
      | none => none
      | some blk =>
        if size_t_dec blk.shared_ptr_counter = 0 then
          if blk.weak_ptr_counter = 0 then
            some ((((s.store b
              (base_control_block_.delete b (base_control_block_.destroy b
                { blk with shared_ptr_counter := size_t_dec blk.shared_ptr_counter }).1).1).emit
              ((base_control_block_.destroy b
                { blk with shared_ptr_counter := size_t_dec blk.shared_ptr_counter }).2 ++
               (base_control_block_.delete b (base_control_block_.destroy b
                { blk with shared_ptr_counter := size_t_dec blk.shared_ptr_counter }).1).2)).setShared
              self none))
          else
            some (((s.store b (base_control_block_.destroy b
                { blk with shared_ptr_counter := size_t_dec blk.shared_ptr_counter }).1).emit
              (base_control_block_.destroy b
                { blk with shared_ptr_counter := size_t_dec blk.shared_ptr_counter }).2).setShared
              self none)
        else
          some ((s.store b
            { blk with shared_ptr_counter := size_t_dec blk.shared_ptr_counter }).setShared self none)

/-- The virtual `destroy()` on block `b` for any payload.  The call
`deleter(ptr)`, respectively `~T()`, runs user code: `teardown` is what that
code does to the memory, for instance the destructors of handles that are
members of the payload.  It runs after the call has been logged;
`control_block::destroy` then writes `ptr = nullptr` into the block. -/
def base_control_block_.destroy_reentrant (teardown : State → Option State) (b : Nat)
    (s : State) : Option State :=
  match s.deref b with
  | none => none
  | some blk =>
    match teardown (s.emit (base_control_block_.destroy b blk).2) with
    | none => none
    | some s1 =>
      match blk.derived with
      | Derived.control_block _ _ =>
        match s1.deref b with
        | none => none
        | some blk1 => some (s1.store b (base_control_block_.destroy b blk1).1)
      | Derived.inplace_control_block _ => some s1

/-- The destructor `~shared_ptr()` for any payload: decrement
`shared_ptr_counter`; when it is zero, `ptr = nullptr`, then `destroy()`, which
runs the payload's `teardown`, and then `weak_ptr_counter` is read from the
block as `destroy()` has left it; when that is zero, `delete ptr_manager`. -/
def shared_ptr.dtor_reentrant (teardown : State → Option State) (self : Nat) (s : State) :
    Option State :=
  match s.sh self with
  | none => none
  | some h =>
    match h.ptr_manager with
    | none => some (s.setShared self none)
    | some b =>
      match s.deref b with
      | none => none
      | some blk =>
        if size_t_dec blk.shared_ptr_counter = 0 then
          match base_control_block_.destroy_reentrant teardown b
              ((s.store b { blk with shared_ptr_counter := size_t_dec blk.shared_ptr_counter
                }).setShared self (some ⟨Addr.null, some b⟩)) with
          | none => none
          | some s1 =>
            match s1.deref b with
            | none => none
            | some blk1 =>
              if blk1.weak_ptr_counter = 0 then
                some (((s1.store b (base_control_block_.delete b blk1).1).emit
                  (base_control_block_.delete b blk1).2).setShared self none)
              else some (s1.setShared self none)
        else
          some ((s.store b
            { blk with shared_ptr_counter := size_t_dec blk.shared_ptr_counter }).setShared self none)

/-- The memory in which the destructor of the last owner of block `b` hands
control to the payload's teardown: the strong count of the block (`blk` on
entry) is zero, `ptr = nullptr` has been done in the dying handle, and the
`destroy()` call with its deleter or `~T()` call is logged. -/
def shared_ptr.dtor_entered (self b : Nat) (blk : base_control_block_) (s : State) : State :=
  ((s.store b { blk with shared_ptr_counter := 0 }).setShared self
    (some ⟨Addr.null, some b⟩)).emit (base_control_block_.destroy b blk).2

/-- The move constructor `shared_ptr(shared_ptr<T>&& other)`: delegate to
`shared_ptr()`, then `swap(other)`. -/
def shared_ptr.ctor_move (other : Nat) (s : State) : Option (Nat × State) :=
  match shared_ptr.swap (shared_ptr.ctor s).1 other (shared_ptr.ctor s).2 with
  | none => none
  | some s1 => some ((shared_ptr.ctor s).1, s1)

/-- The body of the aliasing constructor `shared_ptr(const shared_ptr<U> other,
T* member)` run on the parameter object `other`: the increment is not guarded
by a null check. -/
def shared_ptr.ctor_alias_body (other : Nat) (member : Addr) (s : State) :
    Option (Nat × State) :=
  match s.sh other with
  | none => none
  | some o =>
    match o.ptr_manager with
    | none => none
    | some b =>
      match s.deref b with
      | none => none
      | some blk =>
        some (s.shared.length,
          (s.store b { blk with shared_ptr_counter := size_t_inc blk.shared_ptr_counter }).pushShared
            ⟨member, some b⟩)

/-- A call of the aliasing constructor with the argument `arg`: the by-value
parameter is copy-constructed from `arg`, the body runs, the parameter is
destroyed. -/
def shared_ptr.ctor_alias (arg : Nat) (member : Addr) (s : State) : Option (Nat × State) :=
  match shared_ptr.ctor_copy arg s with
  | none => none
  | some (param, s1) =>
    match shared_ptr.ctor_alias_body param member s1 with
    | none => none
    | some (r, s2) =>
      match shared_ptr.dtor param s2 with
      | none => none
      | some s3 => some (r, s3)

/-- The copy assignment `operator=(const shared_ptr<T>& other)`. -/
def shared_ptr.assign (self other : Nat) (s : State) : Option State :=
  match s.sh self, s.sh other with
  | some _, some _ =>
    if self = other then some s
    else
      match shared_ptr.ctor_copy other s with
      | none => none
      | some (tmp, s1) =>
        match shared_ptr.swap self tmp s1 with
        | none => none
        | some s2 => shared_ptr.dtor tmp s2
  | _, _ => none

/-- The covariant copy assignment `operator=(const shared_ptr<U>& other)`.
Its local `auto sh_ptr = other;` is a `shared_ptr<U>` made by the copy
constructor of `shared_ptr<U>`, and `this == &other` and `swap(sh_ptr)` demand
a `shared_ptr<T>`: the body is well-typed for `U = T` only, so no pointer
conversion takes place in it. -/
def shared_ptr.assign_cov (self other : Nat) (s : State) : Option State :=
  match s.sh self, s.sh other with
  | some _, some _ =>
    if self = other then some s
    else
      match shared_ptr.ctor_copy other s with
      | none => none
      | some (tmp, s1) =>
        match shared_ptr.swap self tmp s1 with
        | none => none
        | some s2 => shared_ptr.dtor tmp s2
  | _, _ => none

/-- The move assignment `operator=(shared_ptr<T>&& other)`. -/
def shared_ptr.assign_move (self other : Nat) (s : State) : Option State :=
  match s.sh self, s.sh other with
  | some _, some _ =>
    if self = other then some s
    else
      match shared_ptr.swap self other s with
      | none => none
      | some s1 =>
        match shared_ptr.swap (shared_ptr.ctor s1).1 other (shared_ptr.ctor s1).2 with
        | none => none
        | some s2 => shared_ptr.dtor (shared_ptr.ctor s1).1 s2
  | _, _ => none

/-- The member `reset()`. -/
def shared_ptr.reset (self : Nat) (s : State) : Option State :=
  match shared_ptr.swap (shared_ptr.ctor s).1 self (shared_ptr.ctor s).2 with
  | none => none
  | some s1 => shared_ptr.dtor (shared_ptr.ctor s).1 s1

/-- The member `reset(T* val)`. -/
def shared_ptr.reset_ptr (self : Nat) (val : Addr) (s : State) : Option State :=
  match shared_ptr.swap (shared_ptr.ctor_ptr val s).1 self (shared_ptr.ctor_ptr val s).2 with
  | none => none
  | some s1 => shared_ptr.dtor (shared_ptr.ctor_ptr val s).1 s1

/-- The member `reset(T* val, D deleter)`. -/
def shared_ptr.reset_deleter (self : Nat) (val : Addr) (deleter : Nat) (s : State) :
    Option State :=
  match shared_ptr.swap (shared_ptr.ctor_deleter val deleter s).1 self
      (shared_ptr.ctor_deleter val deleter s).2 with
  | none => none
  | some s1 => shared_ptr.dtor (shared_ptr.ctor_deleter val deleter s).1 s1

/-- The observer `get()`. -/
def shared_ptr.get (self : Nat) (s : State) : Option Addr :=
  match s.sh self with
  | none => none
  | some h => some h.ptr

/-- The observer `use_count()`, of type `long`. -/
def shared_ptr.use_count (self : Nat) (s : State) : Option Int :=
  match s.sh self with
  | none => none
  | some h =>
    match h.ptr_manager with
    | none => some 0
    | some b =>
      match s.deref b with
      | none => none
      | some blk => some (toLong blk.shared_ptr_counter)

/-- The conversion `operator bool()`. -/
def shared_ptr.toBool (self : Nat) (s : State) : Option Bool :=
  match s.sh self with
  | none => none
  | some h => some (h.ptr != Addr.null)

/-- The factory `make_shared<T>(args...)`: one `new inplace_control_block<T>`,
then the private constructor on the embedded storage; the local `sh_ptr` is
the returned object. -/
def make_shared (args : Nat) (s : State) : Nat × State :=
  shared_ptr.ctor_block (Addr.payloadOf s.blocks.length) (some s.blocks.length)
    (s.newBlock (Derived.inplace_control_block args))

/-! ## `weak_ptr.h` -/

/-- The default constructor `weak_ptr()`. -/
def weak_ptr.ctor (s : State) : Nat × State :=
  (s.weak.length, s.pushWeak ⟨Addr.null, none⟩)

/-- The copy constructor `weak_ptr(const weak_ptr<T>& other)`. -/
def weak_ptr.ctor_copy (other : Nat) (s : State) : Option (Nat × State) :=
  match s.wk other with
  | none => none
  | some o =>
    match o.ptr_manager with
    | none => some (s.weak.length, s.pushWeak ⟨o.ptr, none⟩)
    | some b =>
      match s.deref b with
      | none => none
      | some blk =>
        some (s.weak.length,
          (s.store b { blk with weak_ptr_counter := size_t_inc blk.weak_ptr_counter }).pushWeak
            ⟨o.ptr, some b⟩)

/-- The constructor `weak_ptr(const shared_ptr<T>& other)`. -/
def weak_ptr.ctor_shared (other : Nat) (s : State) : Option (Nat × State) :=
  match s.sh other with
  | none => none
  | some o =>
    match o.ptr_manager with
    | none => some (s.weak.length, s.pushWeak ⟨o.ptr, none⟩)
    | some b =>
      match s.deref b with
      | none => none
      | some blk =>
        some (s.weak.length,
          (s.store b { blk with weak_ptr_counter := size_t_inc blk.weak_ptr_counter }).pushWeak
            ⟨o.ptr, some b⟩)

/-- The member `swap(weak_ptr<T>& other)`. -/
def weak_ptr.swap (self other : Nat) (s : State) : Option State :=
  match s.wk self, s.wk other with
  | some a, some o => some ((s.setWeak self (some o)).setWeak other (some a))
  | _, _ => none

/-- The destructor `~weak_ptr()`: it only decrements `weak_ptr_counter`. -/
def weak_ptr.dtor (self : Nat) (s : State) : Option State :=
  match s.wk self with
  | none => none
  | some w =>
    match w.ptr_manager with
    | none => some (s.setWeak self none)
    | some b =>
      match s.deref b with
      | none => none
      | some blk =>
        some ((s.store b
          { blk with weak_ptr_counter := size_t_dec blk.weak_ptr_counter }).setWeak self none)

/-- The move constructor `weak_ptr(weak_ptr<T>&& other)`. -/
def weak_ptr.ctor_move (other : Nat) (s : State) : Option (Nat × State) :=
  match weak_ptr.swap (weak_ptr.ctor s).1 other (weak_ptr.ctor s).2 with
  | none => none
  | some s1 => some ((weak_ptr.ctor s).1, s1)

/-- The member `reset()`. -/
def weak_ptr.reset (self : Nat) (s : State) : Option State :=
  match weak_ptr.swap (weak_ptr.ctor s).1 self (weak_ptr.ctor s).2 with
  | none => none
  | some s1 => weak_ptr.dtor (weak_ptr.ctor s).1 s1

/-- The copy assignment `operator=(const weak_ptr<T>& other)`. -/
def weak_ptr.assign (self other : Nat) (s : State) : Option State :=
  match s.wk self, s.wk other with
  | some _, some _ =>
    if self = other then some s
    else
      match weak_ptr.ctor_copy other s with
      | none => none
      | some (tmp, s1) =>
        match weak_ptr.swap self tmp s1 with
        | none => none
        | some s2 => weak_ptr.dtor tmp s2
  | _, _ => none

/-- The move assignment `operator=(weak_ptr<T>&& other)`. -/
def weak_ptr.assign_move (self other : Nat) (s : State) : Option State :=
  match s.wk self, s.wk other with
  | some _, some _ =>
    if self = other then some s
    else
      match weak_ptr.swap self other s with
      | none => none
      | some s1 => weak_ptr.reset other s1
  | _, _ => none

/-- The assignment `operator=(const shared_ptr<T>& other)`. -/
def weak_ptr.assign_shared (self other : Nat) (s : State) : Option State :=
  match s.wk self with
  | none => none
  | some _ =>
    match weak_ptr.ctor_shared other s with
    | none => none
    | some (tmp, s1) =>
      match weak_ptr.swap self tmp s1 with
      | none => none
      | some s2 => weak_ptr.dtor tmp s2

/-- The observer `use_count()` of a `weak_ptr`. -/
def weak_ptr.use_count (self : Nat) (s : State) : Option Int :=
  match s.wk self with
  | none => none
  | some w =>
    match w.ptr_manager with
    | none => some 0
    | some b =>
      match s.deref b with
      | none => none
      | some blk => some (toLong blk.shared_ptr_counter)

/-- The observer `expired()`. -/
def weak_ptr.expired (self : Nat) (s : State) : Option Bool :=
  match weak_ptr.use_count self s with
  | none => none
  | some n => some (n == 0)

/-- The member `lock()`: `expired() ? shared_ptr<T>() : shared_ptr<T>(*this)`. -/
def weak_ptr.lock (self : Nat) (s : State) : Option (Nat × State) :=
  match weak_ptr.expired self s with
  | none => none
  | some true => some (shared_ptr.ctor s)
  | some false => shared_ptr.ctor_weak self s

/-! ## The handle operations as a transition system -/

/-- The public operations on handle objects. -/
inductive Op where
  | shared_ctor : Op
  | shared_ctor_nullptr : Op
  | shared_ctor_ptr (val : Addr) : Op
  | shared_ctor_deleter (val : Addr) (deleter : Nat) : Op
  | shared_ctor_copy (other : Nat) : Op
  | shared_ctor_copy_cov (offset : Nat) (other : Nat) : Op
  | shared_ctor_weak (other : Nat) : Op
  | shared_ctor_move (other : Nat) : Op
  | shared_ctor_alias (arg : Nat) (member : Addr) : Op
  | shared_assign (self other : Nat) : Op
  | shared_assign_cov (self other : Nat) : Op
  | shared_assign_move (self other : Nat) : Op
  | shared_dtor (self : Nat) : Op
  | shared_reset (self : Nat) : Op
  | shared_reset_ptr (self : Nat) (val : Addr) : Op
  | shared_reset_deleter (self : Nat) (val : Addr) (deleter : Nat) : Op
  | shared_swap (self other : Nat) : Op
  | make_shared (args : Nat) : Op
  | weak_ctor : Op
  | weak_ctor_copy (other : Nat) : Op
  | weak_ctor_move (other : Nat) : Op
  | weak_ctor_shared (other : Nat) : Op
  | weak_assign (self other : Nat) : Op
  | weak_assign_move (self other : Nat) : Op
  | weak_assign_shared (self other : Nat) : Op
  | weak_dtor (self : Nat) : Op
  | weak_reset (self : Nat) : Op
  | weak_swap (self other : Nat) : Op
  | weak_lock (self : Nat) : Op
  deriving DecidableEq, Repr

/-- One operation; `none` is undefined behaviour. -/
def step (op : Op) (s : State) : Option State :=
  match op with
  | Op.shared_ctor => some (shared_ptr.ctor s).2
  | Op.shared_ctor_nullptr => some (shared_ptr.ctor_nullptr s).2
  | Op.shared_ctor_ptr val => some (shared_ptr.ctor_ptr val s).2
  | Op.shared_ctor_deleter val d => some (shared_ptr.ctor_deleter val d s).2
  | Op.shared_ctor_copy o => (shared_ptr.ctor_copy o s).map Prod.snd
  | Op.shared_ctor_copy_cov k o => (shared_ptr.ctor_copy_cov k o s).map Prod.snd
  | Op.shared_ctor_weak o => (shared_ptr.ctor_weak o s).map Prod.snd
  | Op.shared_ctor_move o => (shared_ptr.ctor_move o s).map Prod.snd
  | Op.shared_ctor_alias a m => (shared_ptr.ctor_alias a m s).map Prod.snd
  | Op.shared_assign a o => shared_ptr.assign a o s
  | Op.shared_assign_cov a o => shared_ptr.assign_cov a o s
  | Op.shared_assign_move a o => shared_ptr.assign_move a o s
  | Op.shared_dtor a => shared_ptr.dtor a s
  | Op.shared_reset a => shared_ptr.reset a s
  | Op.shared_reset_ptr a val => shared_ptr.reset_ptr a val s
  | Op.shared_reset_deleter a val d => shared_ptr.reset_deleter a val d s
  | Op.shared_swap a o => shared_ptr.swap a o s
  | Op.make_shared args => some (make_shared args s).2
  | Op.weak_ctor => some (weak_ptr.ctor s).2
  | Op.weak_ctor_copy o => (weak_ptr.ctor_copy o s).map Prod.snd
  | Op.weak_ctor_move o => (weak_ptr.ctor_move o s).map Prod.snd
  | Op.weak_ctor_shared o => (weak_ptr.ctor_shared o s).map Prod.snd
  | Op.weak_assign a o => weak_ptr.assign a o s
  | Op.weak_assign_move a o => weak_ptr.assign_move a o s
  | Op.weak_assign_shared a o => weak_ptr.assign_shared a o s
  | Op.weak_dtor a => weak_ptr.dtor a s
  | Op.weak_reset a => weak_ptr.reset a s
  | Op.weak_swap a o => weak_ptr.swap a o s
  | Op.weak_lock a => (weak_ptr.lock a s).map Prod.snd

/-- A run of operations from a state. -/
def run (ops : List Op) (s : State) : Option State :=
  match ops with
  | [] => some s
  | op :: rest =>
    match step op s with
    | none => none
    | some s1 => run rest s1

/-- The stated precondition of an operation: a `shared_ptr` is constructed
directly from a `weak_ptr` only after the caller has checked `!expired()`. -/
def Op.respects (op : Op) (s : State) : Prop :=
  match op with
  | Op.shared_ctor_weak o => weak_ptr.expired o s = some false
  | _ => True

/-- The operations of a `weak_ptr` other than `lock()`. -/
def Op.isWeakNonLock (op : Op) : Bool :=
  match op with
  | Op.weak_ctor => true
  | Op.weak_ctor_copy _ => true
  | Op.weak_ctor_move _ => true
  | Op.weak_ctor_shared _ => true
  | Op.weak_assign _ _ => true
  | Op.weak_assign_move _ _ => true
  | Op.weak_assign_shared _ _ => true
  | Op.weak_dtor _ => true
  | Op.weak_reset _ => true
  | Op.weak_swap _ _ => true
  | _ => false

/-- Whether a `shared_ptr` slot holds a live handle linked to block `b`. -/
def refsShared (b : Nat) (h : Option shared_ptr) : Bool :=
  match h with
  | some x => x.ptr_manager == some b
  | none => false

/-- Whether a `weak_ptr` slot holds a live handle linked to block `b`. -/
def refsWeak (b : Nat) (h : Option weak_ptr) : Bool :=
  match h with
  | some x => x.ptr_manager == some b
  | none => false

/-- Number of live `shared_ptr` objects whose `ptr_manager` is block `b`. -/
def State.strongRefs (s : State) (b : Nat) : Nat := s.shared.countP (refsShared b)

/-- Number of live `weak_ptr` objects whose `ptr_manager` is block `b`. -/
def State.weakRefs (s : State) (b : Nat) : Nat := s.weak.countP (refsWeak b)

/-- Number of live handle objects of both kinds. -/
def State.liveHandles (s : State) : Nat :=
  s.shared.countP Option.isSome + s.weak.countP Option.isSome

/-- A handle object occupies two pointers (16 bytes), so a 64-bit address space
holds at most `2 ^ 60` of them. -/
def handleCapacity : Nat := 1152921504606846976

/-- States reachable from the empty memory by the public operations, each
started while there is storage left for handle objects. -/
inductive Reachable : State → Prop where
  | init : Reachable State.init
  | step (s s' : State) (op : Op) : Reachable s → s.liveHandles < handleCapacity →
      step op s = some s' → Reachable s'

/-- States reachable by operations that respect the stated preconditions. -/
inductive ReachableChecked : State → Prop where
  | init : ReachableChecked State.init
  | step (s s' : State) (op : Op) : ReachableChecked s → s.liveHandles < handleCapacity →
      op.respects s → step op s = some s' → ReachableChecked s'

/-- Number of `destroy()` calls made on block `b`. -/
def State.destroyCalls (s : State) (b : Nat) : Nat := s.trace.count (Event.destroy b)

/-- Number of deallocations of block `b`. -/
def State.deallocs (s : State) (b : Nat) : Nat := s.trace.count (Event.dealloc b)

/-- Whether an event is a deleter call made by block `b`. -/
def isDeleterOf (b : Nat) (e : Event) : Bool :=
  match e with
  | Event.deleter b' _ _ => b' == b
  | _ => false

/-- The deleter calls made by block `b`, in order. -/
def State.deleterCalls (s : State) (b : Nat) : List Event := s.trace.filter (isDeleterOf b)

/-- The counting invariant: every live block's counters equal the numbers of
live handles linked to it, and no live handle is linked to a block that is
not live. -/
def State.Counted (s : State) : Prop :=
  ∀ b, (∀ blk, s.deref b = some blk →
          blk.shared_ptr_counter = s.strongRefs b ∧ blk.weak_ptr_counter = s.weakRefs b) ∧
       (s.deref b = none → s.strongRefs b = 0 ∧ s.weakRefs b = 0)

/-- The block an instrumentation event is about. -/
def Event.block (e : Event) : Nat :=
  match e with
  | Event.alloc b _ => b
  | Event.destroy b => b
  | Event.deleter b _ _ => b
  | Event.dtorT b => b
  | Event.dealloc b => b

/-- Number of in-place payload destructor calls made by block `b`. -/
def State.payloadDtors (s : State) (b : Nat) : Nat := s.trace.count (Event.dtorT b)

/-- How the payload of a block allocated as `dv` stands, given the block as it
is now and the calls logged for it: untouched while the strong count is not
zero, torn down exactly once when it is zero. -/
def payloadTracked (s : State) (b : Nat) (blk : base_control_block_) (dv : Derived) : Prop :=
  match dv with
  | Derived.control_block a d =>
    s.payloadDtors b = 0 ∧
    (if blk.shared_ptr_counter = 0 then
      blk.derived = Derived.control_block Addr.null d ∧ s.deleterCalls b = [Event.deleter b d a]
    else blk.derived = Derived.control_block a d ∧ s.deleterCalls b = [])
  | Derived.inplace_control_block args =>
    blk.derived = Derived.inplace_control_block args ∧ s.deleterCalls b = [] ∧
    s.payloadDtors b = (if blk.shared_ptr_counter = 0 then 1 else 0)

/-- The lifetime invariant relating each block to the instrumentation log. -/
def State.Tracked (s : State) : Prop :=
  (∀ e, e ∈ s.trace → e.block < s.blocks.length) ∧
  ∀ b blk, s.blocks[b]? = some blk →
    (blk.freed = true → blk.shared_ptr_counter = 0 ∧ blk.weak_ptr_counter = 0) ∧
    s.destroyCalls b = (if blk.shared_ptr_counter = 0 then 1 else 0) ∧
    s.deallocs b = (if blk.freed = true then 1 else 0) ∧
    (∃ dv, Event.alloc b dv ∈ s.trace) ∧
    (∀ dv, Event.alloc b dv ∈ s.trace → payloadTracked s b blk dv)

instance Op.decRespects (op : Op) (s : State) : Decidable (op.respects s) := by
  cases op <;> unfold Op.respects <;> infer_instance

/-- A run in which every operation starts with storage left for handle
objects and respects its precondition. -/
def runChecked (ops : List Op) (s : State) : Option State :=
  match ops with
  | [] => some s
  | op :: rest =>
    if s.liveHandles < handleCapacity ∧ op.respects s then
      match step op s with
      | none => none
      | some s1 => runChecked rest s1
    else none

/-- Scenario: an owner of object 7, then a copy of it. -/
def ownerAndCopy : List Op := [Op.shared_ctor_ptr (Addr.obj 7), Op.shared_ctor_copy 0]

/-- Scenario: an owner of object 7 and an observer of it. -/
def ownerAndObserver : List Op := [Op.shared_ctor_ptr (Addr.obj 7), Op.weak_ctor_shared 0]

/-- Scenario: an owner and an observer; the owner is destroyed first. -/
def observerOutlives : List Op :=
  [Op.shared_ctor_ptr (Addr.obj 7), Op.weak_ctor_shared 0, Op.shared_dtor 0]

/-- Scenario: an owner and an observer; the owner is destroyed, then the
observer. -/
def observerDestroyedLast : List Op :=
  [Op.shared_ctor_ptr (Addr.obj 7), Op.weak_ctor_shared 0, Op.shared_dtor 0, Op.weak_dtor 0]

/-- The memory with a single owner of object 7. -/
def soleOwner : State := (shared_ptr.ctor_ptr (Addr.obj 7) State.init).2

/-- What the owning side of a block consists of: the strong count, the derived
part and the heap flag. -/
def base_control_block_.strongSide (blk : base_control_block_) : Nat × Derived × Bool :=
  (blk.shared_ptr_counter, blk.derived, blk.freed)

/-- The owning side of the memory: the owning side of every block, the
`shared_ptr` objects and the instrumentation log. -/
def State.strongSide (s : State) :
    List (Nat × Derived × Bool) × List (Option shared_ptr) × List Event :=
  (s.blocks.map base_control_block_.strongSide, s.shared, s.trace)

/-- Scenario result: the memory with an owner of object 7 and an observer. -/
def ownerObserved : State :=
  (((shared_ptr.ctor_ptr (Addr.obj 7) State.init).2.store 0
      ⟨1, 1, Derived.control_block (Addr.obj 7) 0, false⟩).pushWeak ⟨Addr.obj 7, some 0⟩)

/-- Scenario result: the memory with two owners of object 7. -/
def twoOwners : State :=
  (((shared_ptr.ctor_ptr (Addr.obj 7) State.init).2.store 0
      ⟨2, 0, Derived.control_block (Addr.obj 7) 0, false⟩).pushShared ⟨Addr.obj 7, some 0⟩)

/-- Scenario: two owners of two different objects. -/
def twoBlocks : List Op := [Op.shared_ctor_ptr (Addr.obj 7), Op.shared_ctor_ptr (Addr.obj 8)]

/-- A property `Q` of (observed address, block link) pairs holds of every live
handle of either kind. -/
def State.AllPairs (Q : Addr → Option Nat → Prop) (s : State) : Prop :=
  (∀ h : shared_ptr, some h ∈ s.shared → Q h.ptr h.ptr_manager) ∧
  (∀ w : weak_ptr, some w ∈ s.weak → Q w.ptr w.ptr_manager)

/-- The aliasing constructor. -/
def Op.isAliasing (op : Op) : Bool :=
  match op with
  | Op.shared_ctor_alias _ _ => true
  | _ => false

/-- The operations other than the aliasing constructor. -/
def Op.notAliasing (op : Op) : Bool := !op.isAliasing

/-- The derived part of the block an operation allocates with `new`. -/
def Op.allocates (op : Op) : Option Derived :=
  match op with
  | Op.shared_ctor_ptr val => some (Derived.control_block val 0)
  | Op.shared_ctor_deleter val d => some (Derived.control_block val d)
  | Op.shared_reset_ptr _ val => some (Derived.control_block val 0)
  | Op.shared_reset_deleter _ val d => some (Derived.control_block val d)
  | Op.make_shared args => some (Derived.inplace_control_block args)
  | _ => none

/-- Whether an event is an allocation. -/
def Event.isAlloc (e : Event) : Bool :=
  match e with
  | Event.alloc _ _ => true
  | _ => false

/-- The allocation record of the memory: the number of blocks and the
allocations logged, in order. -/
def State.allocLog (s : State) : Nat × List Event :=
  (s.blocks.length, s.trace.filter Event.isAlloc)

/-- The events an allocation of a block with derived part `d` adds to the
allocation record of a memory with `n` blocks. -/
def allocEvents (n : Nat) (d : Option Derived) : List Event :=
  match d with
  | some dv => [Event.alloc n dv]
  | none => []

/-- Whether an event is the allocation of block `b` as a `control_block` for a
null address. -/
def isNullAllocOf (b : Nat) (e : Event) : Bool :=
  match e with
  | Event.alloc b' (Derived.control_block a _) => b' == b && a == Addr.null
  | _ => false

/-- Whether block `b` was allocated for a null raw address, that is by
`shared_ptr((T*)nullptr)`, `shared_ptr((T*)nullptr, d)` or the matching
`reset`. -/
def State.allocatedFromNull (s : State) (b : Nat) : Bool := s.trace.any (isNullAllocOf b)

/-- What holds of the (observed address, block link) pair of a handle made
without the aliasing constructor: without a block the address is null, and
with a block the address is null exactly when the block was allocated for a
null raw address. -/
def State.nullLinked (s : State) (p : Addr) (m : Option Nat) : Prop :=
  (m = none → p = Addr.null) ∧
  ∀ b, m = some b → b < s.blocks.length ∧ (p = Addr.null ↔ s.allocatedFromNull b = true)

/-- The raw address an operation hands to a new block, or the member address
of an aliasing construction. -/
def Op.givenAddress (op : Op) : Option Addr :=
  match op with
  | Op.shared_ctor_ptr val => some val
  | Op.shared_ctor_deleter val _ => some val
  | Op.shared_reset_ptr _ val => some val
  | Op.shared_reset_deleter _ val _ => some val
  | Op.shared_ctor_alias _ m => some m
  | _ => none

/-- States reachable by the operations that `allowed` admits. -/
inductive ReachableVia (allowed : Op → Bool) : State → Prop where
  | init : ReachableVia allowed State.init
  | step (s s' : State) (op : Op) : ReachableVia allowed s →
      s.liveHandles < handleCapacity → allowed op = true → step op s = some s' →
      ReachableVia allowed s'

/-- Scenario result: the memory with a handle made from a null raw address and
an owner of object 7. -/
def nullAndOwner : State :=
  (shared_ptr.ctor_ptr (Addr.obj 7) (shared_ptr.ctor_ptr Addr.null State.init).2).2

/-- The memory after constructing a `shared_ptr` from a null raw address. -/
def nullOwner : State := (shared_ptr.ctor_ptr Addr.null State.init).2

/-- The reference behaviour the specification gives for `reset()`: destroy the
handle, then construct an empty handle in its place. -/
def destroy_then_construct (self : Nat) (s : State) : Option State :=
  match shared_ptr.dtor self s with
  | none => none
  | some s1 => some (s1.setShared self (some ⟨Addr.null, none⟩))

/-- The reference behaviour the specification gives for `reset(addr)`: destroy
the handle, then construct in its place a handle from `val` (a new
`control_block` with the default deleter). -/
def destroy_then_construct_ptr (self : Nat) (val : Addr) (s : State) : Option State :=
  match shared_ptr.dtor self s with
  | none => none
  | some s1 =>
    some ((s1.newBlock (Derived.control_block val 0)).setShared self
      (some ⟨val, some s1.blocks.length⟩))

/-- The reference behaviour the specification gives for `reset(addr,
strategy)`: destroy the handle, then construct in its place a handle from
`val` with the deleter. -/
def destroy_then_construct_deleter (self : Nat) (val : Addr) (deleter : Nat) (s : State) :
    Option State :=
  match shared_ptr.dtor self s with
  | none => none
  | some s1 =>
    some ((s1.newBlock (Derived.control_block val deleter)).setShared self
      (some ⟨val, some s1.blocks.length⟩))

/-- The comparison of two final states that the specification makes for
`reset`: the same value in every handle object that existed before (`n` of
them), the same blocks (strong and weak counts, derived part, heap flag), the
same `weak_ptr` objects, and the same payload teardowns and deallocations: the
logs agree up to the order of entries, and the deleter calls of every block
agree in order as well. -/
def State.sameOutcome (n : Nat) (a b : State) : Prop :=
  a.blocks = b.blocks ∧ a.weak = b.weak ∧ (∀ i, i < n → a.sh i = b.sh i) ∧
  a.trace.Perm b.trace ∧
  (∀ k, a.destroyCalls k = b.destroyCalls k ∧ a.deallocs k = b.deallocs k ∧
    a.payloadDtors k = b.payloadDtors k ∧ a.deleterCalls k = b.deleterCalls k)

/-! ## Arithmetic of the counters -/

theorem size_t_dec_of_pos (c : Nat) (h1 : 1 ≤ c) (h2 : c < 18446744073709551616) :
    size_t_dec c = c - 1 := by
  unfold size_t_dec; omega

theorem size_t_inc_of_lt (c : Nat) (h : c + 1 < 18446744073709551616) :
    size_t_inc c = c + 1 := by
  unfold size_t_inc; omega

theorem size_t_dec_eq_zero (c : Nat) (h2 : c < 18446744073709551616) :
    size_t_dec c = 0 ↔ c = 1 := by
  unfold size_t_dec; omega

theorem toLong_of_lt (c : Nat) (h : c < 9223372036854775808) : toLong c = (c : Int) := by
  unfold toLong
  have h1 : c % 18446744073709551616 = c := Nat.mod_eq_of_lt (by omega)
  rw [h1, if_pos h]


/-! ## Memory primitives: frame lemmas -/

theorem countP_set_add {α : Type} (p : α → Bool) (l : List α) (i : Nat) (a old : α)
    (h : l[i]? = some old) :
    (l.set i a).countP p + (if p old then 1 else 0) = l.countP p + (if p a then 1 else 0) := by
  induction l generalizing i with
  | nil => simp at h
  | cons x xs ih =>
    cases i with
    | zero =>
      simp at h
      subst h
      simp [List.countP_cons]
      omega
    | succ j =>
      simp at h
      have := ih j h
      simp [List.countP_cons]
      omega

theorem getElem?_lt_of_eq_some {α : Type} (l : List α) (i : Nat) (a : α) (h : l[i]? = some a) :
    i < l.length := by
  by_contra hc
  rw [List.getElem?_eq_none (by omega)] at h
  simp at h

theorem State.sh_eq_some (s : State) (i : Nat) (h : shared_ptr) :
    s.sh i = some h ↔ s.shared[i]? = some (some h) := by
  unfold State.sh
  cases s.shared[i]? with
  | none => simp
  | some x => cases x <;> simp

theorem State.wk_eq_some (s : State) (i : Nat) (h : weak_ptr) :
    s.wk i = some h ↔ s.weak[i]? = some (some h) := by
  unfold State.wk
  cases s.weak[i]? with
  | none => simp
  | some x => cases x <;> simp

theorem State.deref_eq_some (s : State) (b : Nat) (blk : base_control_block_) :
    s.deref b = some blk ↔ s.blocks[b]? = some blk ∧ blk.freed = false := by
  unfold State.deref
  cases hq : s.blocks[b]? with
  | none => simp
  | some x =>
    by_cases hf : x.freed = true
    · simp [hf]
      intro hx; subst hx; simp [hf]
    · simp [hf]
      intro hx; subst hx; simpa using hf

theorem State.deref_store (s : State) (b b' : Nat) (blk : base_control_block_) :
    (s.store b blk).deref b' =
      if b' = b then
        (if b < s.blocks.length then (if blk.freed then none else some blk) else none)
      else s.deref b' := by
  unfold State.deref State.store
  by_cases hb : b' = b
  · subst hb
    by_cases hl : b' < s.blocks.length
    · simp [List.getElem?_set, hl]
    · simp [List.getElem?_set, hl]
  · simp [hb, List.getElem?_set, Ne.symm hb]

theorem State.deref_newBlock (s : State) (d : Derived) (b' : Nat) :
    (s.newBlock d).deref b' =
      if b' = s.blocks.length then some ⟨1, 0, d, false⟩ else s.deref b' := by
  unfold State.deref State.newBlock
  by_cases hb : b' = s.blocks.length
  · subst hb
    simp
  · simp only [hb, if_false]
    by_cases hl : b' < s.blocks.length
    · rw [List.getElem?_append_left hl]
    · have h1 : s.blocks[b']? = none := List.getElem?_eq_none (by omega)
      have h2 : (s.blocks ++ [(⟨1, 0, d, false⟩ : base_control_block_)])[b']? = none :=
        List.getElem?_eq_none (by simp; omega)
      rw [h1, h2]

theorem State.deref_length (s : State) : s.deref s.blocks.length = none := by
  unfold State.deref
  simp

@[simp] theorem State.deref_pushShared (s : State) (h : shared_ptr) (b : Nat) :
    (s.pushShared h).deref b = s.deref b := rfl

@[simp] theorem State.deref_setShared (s : State) (i : Nat) (v : Option shared_ptr) (b : Nat) :
    (s.setShared i v).deref b = s.deref b := rfl

@[simp] theorem State.deref_pushWeak (s : State) (h : weak_ptr) (b : Nat) :
    (s.pushWeak h).deref b = s.deref b := rfl

@[simp] theorem State.deref_setWeak (s : State) (i : Nat) (v : Option weak_ptr) (b : Nat) :
    (s.setWeak i v).deref b = s.deref b := rfl

@[simp] theorem State.deref_emit (s : State) (evs : List Event) (b : Nat) :
    (s.emit evs).deref b = s.deref b := rfl

@[simp] theorem State.strongRefs_store (s : State) (b : Nat) (blk : base_control_block_)
    (b' : Nat) : (s.store b blk).strongRefs b' = s.strongRefs b' := rfl

@[simp] theorem State.strongRefs_emit (s : State) (evs : List Event) (b' : Nat) :
    (s.emit evs).strongRefs b' = s.strongRefs b' := rfl

@[simp] theorem State.strongRefs_newBlock (s : State) (d : Derived) (b' : Nat) :
    (s.newBlock d).strongRefs b' = s.strongRefs b' := rfl

@[simp] theorem State.strongRefs_pushWeak (s : State) (h : weak_ptr) (b' : Nat) :
    (s.pushWeak h).strongRefs b' = s.strongRefs b' := rfl

@[simp] theorem State.strongRefs_setWeak (s : State) (i : Nat) (v : Option weak_ptr) (b' : Nat) :
    (s.setWeak i v).strongRefs b' = s.strongRefs b' := rfl

@[simp] theorem State.weakRefs_store (s : State) (b : Nat) (blk : base_control_block_)
    (b' : Nat) : (s.store b blk).weakRefs b' = s.weakRefs b' := rfl

@[simp] theorem State.weakRefs_emit (s : State) (evs : List Event) (b' : Nat) :
    (s.emit evs).weakRefs b' = s.weakRefs b' := rfl

@[simp] theorem State.weakRefs_newBlock (s : State) (d : Derived) (b' : Nat) :
    (s.newBlock d).weakRefs b' = s.weakRefs b' := rfl

@[simp] theorem State.weakRefs_pushShared (s : State) (h : shared_ptr) (b' : Nat) :
    (s.pushShared h).weakRefs b' = s.weakRefs b' := rfl

@[simp] theorem State.weakRefs_setShared (s : State) (i : Nat) (v : Option shared_ptr)
    (b' : Nat) : (s.setShared i v).weakRefs b' = s.weakRefs b' := rfl

theorem State.strongRefs_pushShared (s : State) (h : shared_ptr) (b' : Nat) :
    (s.pushShared h).strongRefs b' =
      s.strongRefs b' + (if h.ptr_manager = some b' then 1 else 0) := by
  unfold State.strongRefs State.pushShared
  simp [List.countP_append, List.countP_cons, refsShared]

theorem State.weakRefs_pushWeak (s : State) (h : weak_ptr) (b' : Nat) :
    (s.pushWeak h).weakRefs b' =
      s.weakRefs b' + (if h.ptr_manager = some b' then 1 else 0) := by
  unfold State.weakRefs State.pushWeak
  simp [List.countP_append, List.countP_cons, refsWeak]

theorem State.strongRefs_setShared (s : State) (i : Nat) (v old : Option shared_ptr) (b' : Nat)
    (h : s.shared[i]? = some old) :
    (s.setShared i v).strongRefs b' + (if refsShared b' old then 1 else 0) =
      s.strongRefs b' + (if refsShared b' v then 1 else 0) := by
  unfold State.strongRefs State.setShared
  exact countP_set_add (refsShared b') s.shared i v old h

theorem State.weakRefs_setWeak (s : State) (i : Nat) (v old : Option weak_ptr) (b' : Nat)
    (h : s.weak[i]? = some old) :
    (s.setWeak i v).weakRefs b' + (if refsWeak b' old then 1 else 0) =
      s.weakRefs b' + (if refsWeak b' v then 1 else 0) := by
  unfold State.weakRefs State.setWeak
  exact countP_set_add (refsWeak b') s.weak i v old h

theorem State.strongRefs_le_live (s : State) (b : Nat) : s.strongRefs b ≤ s.liveHandles := by
  unfold State.strongRefs State.liveHandles
  have : s.shared.countP (refsShared b) ≤ s.shared.countP Option.isSome := by
    apply List.countP_mono_left
    intro x _ hx
    cases x with
    | none => simp [refsShared] at hx
    | some y => rfl
  omega

theorem State.weakRefs_le_live (s : State) (b : Nat) : s.weakRefs b ≤ s.liveHandles := by
  unfold State.weakRefs State.liveHandles
  have : s.weak.countP (refsWeak b) ≤ s.weak.countP Option.isSome := by
    apply List.countP_mono_left
    intro x _ hx
    cases x with
    | none => simp [refsWeak] at hx
    | some y => rfl
  omega

theorem State.strongRefs_pos (s : State) (i b : Nat) (h : shared_ptr)
    (hh : s.sh i = some h) (hb : h.ptr_manager = some b) : 1 ≤ s.strongRefs b := by
  rw [State.sh_eq_some] at hh
  unfold State.strongRefs
  apply List.countP_pos_iff.mpr
  exact ⟨some h, List.getElem?_mem hh, by simp [refsShared, hb]⟩

theorem State.weakRefs_pos (s : State) (i b : Nat) (h : weak_ptr)
    (hh : s.wk i = some h) (hb : h.ptr_manager = some b) : 1 ≤ s.weakRefs b := by
  rw [State.wk_eq_some] at hh
  unfold State.weakRefs
  apply List.countP_pos_iff.mpr
  exact ⟨some h, List.getElem?_mem hh, by simp [refsWeak, hb]⟩

/-! ## The counting invariant under the primitive effects -/

theorem State.liveHandles_pushShared (s : State) (h : shared_ptr) :
    (s.pushShared h).liveHandles = s.liveHandles + 1 := by
  unfold State.liveHandles State.pushShared
  simp [List.countP_append, List.countP_cons]
  omega

theorem State.liveHandles_pushWeak (s : State) (h : weak_ptr) :
    (s.pushWeak h).liveHandles = s.liveHandles + 1 := by
  unfold State.liveHandles State.pushWeak
  simp [List.countP_append, List.countP_cons]
  omega

theorem State.liveHandles_setShared (s : State) (i : Nat) (v old : Option shared_ptr)
    (h : s.shared[i]? = some old) :
    (s.setShared i v).liveHandles + (if old.isSome then 1 else 0) =
      s.liveHandles + (if v.isSome then 1 else 0) := by
  unfold State.liveHandles State.setShared
  have := countP_set_add Option.isSome s.shared i v old h
  simp only []
  omega

theorem State.liveHandles_setWeak (s : State) (i : Nat) (v old : Option weak_ptr)
    (h : s.weak[i]? = some old) :
    (s.setWeak i v).liveHandles + (if old.isSome then 1 else 0) =
      s.liveHandles + (if v.isSome then 1 else 0) := by
  unfold State.liveHandles State.setWeak
  have := countP_set_add Option.isSome s.weak i v old h
  simp only []
  omega

@[simp] theorem State.liveHandles_store (s : State) (b : Nat) (blk : base_control_block_) :
    (s.store b blk).liveHandles = s.liveHandles := rfl

@[simp] theorem State.liveHandles_emit (s : State) (evs : List Event) :
    (s.emit evs).liveHandles = s.liveHandles := rfl

@[simp] theorem State.liveHandles_newBlock (s : State) (d : Derived) :
    (s.newBlock d).liveHandles = s.liveHandles := rfl

theorem Counted_init : State.init.Counted := by
  intro b
  constructor
  · intro blk h
    simp [State.deref, State.init] at h
  · intro _
    simp [State.strongRefs, State.weakRefs, State.init]

theorem Counted_pushShared_none (s : State) (p : Addr) (hc : s.Counted) :
    (s.pushShared ⟨p, none⟩).Counted := by
  intro b
  have := hc b
  simpa [State.strongRefs_pushShared] using this

theorem Counted_pushWeak_none (s : State) (p : Addr) (hc : s.Counted) :
    (s.pushWeak ⟨p, none⟩).Counted := by
  intro b
  have := hc b
  simpa [State.weakRefs_pushWeak] using this

theorem Counted_incStrong_push (s : State) (p : Addr) (b : Nat) (blk : base_control_block_)
    (hc : s.Counted) (hd : s.deref b = some blk) (hbound : s.liveHandles < 9223372036854775808) :
    ((s.store b { blk with shared_ptr_counter := size_t_inc blk.shared_ptr_counter }).pushShared
      ⟨p, some b⟩).Counted := by
  have hlt : b < s.blocks.length :=
    getElem?_lt_of_eq_some _ _ _ ((State.deref_eq_some s b blk).1 hd).1
  have hfr : blk.freed = false := ((State.deref_eq_some s b blk).1 hd).2
  have hcnt := ((hc b).1 blk hd).1
  have hle := s.strongRefs_le_live b
  have hinc : size_t_inc blk.shared_ptr_counter = blk.shared_ptr_counter + 1 :=
    size_t_inc_of_lt _ (by omega)
  intro b'
  obtain ⟨h1, h2⟩ := hc b'
  by_cases hb : b' = b
  · subst hb
    simp only [State.deref_pushShared, State.deref_store, State.strongRefs_pushShared,
      State.weakRefs_pushShared, State.strongRefs_store, State.weakRefs_store, if_true, hlt, hfr]
    simp
    have := h1 blk hd
    omega
  · simp only [State.deref_pushShared, State.deref_store, State.strongRefs_pushShared,
      State.weakRefs_pushShared, State.strongRefs_store, State.weakRefs_store, hb, if_false]
    have hne : ¬ (some b = some b') := by
      intro h; exact hb (Option.some.inj h).symm
    simp only [hne, if_false, Nat.add_zero]
    exact ⟨h1, h2⟩

theorem Counted_incWeak_push (s : State) (p : Addr) (b : Nat) (blk : base_control_block_)
    (hc : s.Counted) (hd : s.deref b = some blk) (hbound : s.liveHandles < 9223372036854775808) :
    ((s.store b { blk with weak_ptr_counter := size_t_inc blk.weak_ptr_counter }).pushWeak
      ⟨p, some b⟩).Counted := by
  have hlt : b < s.blocks.length :=
    getElem?_lt_of_eq_some _ _ _ ((State.deref_eq_some s b blk).1 hd).1
  have hfr : blk.freed = false := ((State.deref_eq_some s b blk).1 hd).2
  have hcnt := ((hc b).1 blk hd).2
  have hle := s.weakRefs_le_live b
  have hinc : size_t_inc blk.weak_ptr_counter = blk.weak_ptr_counter + 1 :=
    size_t_inc_of_lt _ (by omega)
  intro b'
  obtain ⟨h1, h2⟩ := hc b'
  by_cases hb : b' = b
  · subst hb
    simp only [State.deref_pushWeak, State.deref_store, State.weakRefs_pushWeak,
      State.strongRefs_pushWeak, State.strongRefs_store, State.weakRefs_store, if_true, hlt, hfr]
    simp
    have := h1 blk hd
    omega
  · simp only [State.deref_pushWeak, State.deref_store, State.weakRefs_pushWeak,
      State.strongRefs_pushWeak, State.strongRefs_store, State.weakRefs_store, hb, if_false]
    have hne : ¬ (some b = some b') := by
      intro h; exact hb (Option.some.inj h).symm
    simp only [hne, if_false, Nat.add_zero]
    exact ⟨h1, h2⟩

theorem Counted_newBlock_push (s : State) (p : Addr) (d : Derived) (hc : s.Counted) :
    ((s.newBlock d).pushShared ⟨p, some s.blocks.length⟩).Counted := by
  intro b'
  obtain ⟨h1, h2⟩ := hc b'
  have hfresh := hc s.blocks.length
  have hz := hfresh.2 s.deref_length
  by_cases hb : b' = s.blocks.length
  · subst hb
    simp only [State.deref_pushShared, State.deref_newBlock, State.strongRefs_pushShared,
      State.weakRefs_pushShared, State.strongRefs_newBlock, State.weakRefs_newBlock, if_true]
    simp
    omega
  · have hne : ¬ (some s.blocks.length = some b') := by
      intro h; exact hb (Option.some.inj h).symm
    simp only [State.deref_pushShared, State.deref_newBlock, State.strongRefs_pushShared,
      State.weakRefs_pushShared, State.strongRefs_newBlock, State.weakRefs_newBlock, hb, hne,
      if_false, Nat.add_zero]
    exact ⟨h1, h2⟩

theorem Counted_swapShared (s : State) (i j : Nat) (a o : shared_ptr) (hc : s.Counted)
    (hi : s.sh i = some a) (hj : s.sh j = some o) :
    ((s.setShared i (some o)).setShared j (some a)).Counted := by
  rw [State.sh_eq_some] at hi hj
  have hj' : (s.setShared i (some o)).shared[j]? = some (some o) := by
    simp only [State.setShared, List.getElem?_set]
    by_cases hij : i = j
    · subst hij
      simp [getElem?_lt_of_eq_some _ _ _ hi]
    · simp [hij, hj]
  intro b'
  have e1 := State.strongRefs_setShared s i (some o) (some a) b' hi
  have e2 := State.strongRefs_setShared (s.setShared i (some o)) j (some a) (some o) b' hj'
  have hs : ((s.setShared i (some o)).setShared j (some a)).strongRefs b' = s.strongRefs b' := by
    omega
  simp only [State.deref_setShared, State.weakRefs_setShared, hs]
  exact hc b'

theorem Counted_swapWeak (s : State) (i j : Nat) (a o : weak_ptr) (hc : s.Counted)
    (hi : s.wk i = some a) (hj : s.wk j = some o) :
    ((s.setWeak i (some o)).setWeak j (some a)).Counted := by
  rw [State.wk_eq_some] at hi hj
  have hj' : (s.setWeak i (some o)).weak[j]? = some (some o) := by
    simp only [State.setWeak, List.getElem?_set]
    by_cases hij : i = j
    · subst hij
      simp [getElem?_lt_of_eq_some _ _ _ hi]
    · simp [hij, hj]
  intro b'
  have e1 := State.weakRefs_setWeak s i (some o) (some a) b' hi
  have e2 := State.weakRefs_setWeak (s.setWeak i (some o)) j (some a) (some o) b' hj'
  have hs : ((s.setWeak i (some o)).setWeak j (some a)).weakRefs b' = s.weakRefs b' := by
    omega
  simp only [State.deref_setWeak, State.strongRefs_setWeak, hs]
  exact hc b'

theorem Counted_dropShared_none (s : State) (i : Nat) (h : shared_ptr) (hc : s.Counted)
    (hi : s.sh i = some h) (hn : h.ptr_manager = none) : (s.setShared i none).Counted := by
  rw [State.sh_eq_some] at hi
  intro b'
  have e1 := State.strongRefs_setShared s i none (some h) b' hi
  simp only [refsShared, hn] at e1
  simp at e1
  simp only [State.deref_setShared, State.weakRefs_setShared, e1]
  exact hc b'

theorem Counted_dropWeak_none (s : State) (i : Nat) (h : weak_ptr) (hc : s.Counted)
    (hi : s.wk i = some h) (hn : h.ptr_manager = none) : (s.setWeak i none).Counted := by
  rw [State.wk_eq_some] at hi
  intro b'
  have e1 := State.weakRefs_setWeak s i none (some h) b' hi
  simp only [refsWeak, hn] at e1
  simp at e1
  simp only [State.deref_setWeak, State.strongRefs_setWeak, e1]
  exact hc b'

/-- Letting go of one `shared_ptr` link to `b`: the block is written back with
the strong count one lower, and is freed only with both counts zero. -/
theorem Counted_releaseShared (s : State) (i b : Nat) (h : shared_ptr)
    (blk blk' : base_control_block_) (evs : List Event) (hc : s.Counted)
    (hi : s.sh i = some h) (hb : h.ptr_manager = some b) (hd : s.deref b = some blk)
    (h1 : blk'.shared_ptr_counter + 1 = blk.shared_ptr_counter)
    (h2 : blk'.weak_ptr_counter = blk.weak_ptr_counter)
    (h3 : blk'.freed = true → blk'.shared_ptr_counter = 0 ∧ blk'.weak_ptr_counter = 0) :
    (((s.store b blk').emit evs).setShared i none).Counted := by
  have hlt : b < s.blocks.length :=
    getElem?_lt_of_eq_some _ _ _ ((State.deref_eq_some s b blk).1 hd).1
  rw [State.sh_eq_some] at hi
  intro b'
  have e1 := State.strongRefs_setShared ((s.store b blk').emit evs) i none (some h) b' hi
  obtain ⟨c1, c2⟩ := hc b'
  simp only [State.deref_setShared, State.deref_emit, State.deref_store,
    State.weakRefs_setShared, State.weakRefs_emit, State.weakRefs_store]
  generalize (((s.store b blk').emit evs).setShared i none).strongRefs b' = n at e1 ⊢
  simp only [refsShared, hb, State.strongRefs_emit, State.strongRefs_store] at e1
  by_cases hbb : b' = b
  · subst hbb
    have hcnt := c1 blk hd
    simp at e1
    simp only [if_true, hlt]
    by_cases hf : blk'.freed = true
    · have := h3 hf
      simp only [hf, if_true]
      constructor
      · intro x hx; cases hx
      · intro _; omega
    · simp only [hf]
      constructor
      · intro x hx
        simp at hx
        subst hx
        omega
      · intro hx; simp at hx
  · have hne : ¬ (b = b') := fun hq => hbb hq.symm
    simp [hne] at e1
    subst e1
    simp only [hbb, if_false]
    exact ⟨c1, c2⟩

theorem Counted_releaseWeak (s : State) (i b : Nat) (h : weak_ptr)
    (blk : base_control_block_) (hc : s.Counted)
    (hi : s.wk i = some h) (hb : h.ptr_manager = some b) (hd : s.deref b = some blk)
    (hbound : s.liveHandles < 9223372036854775808) :
    ((s.store b { blk with weak_ptr_counter := size_t_dec blk.weak_ptr_counter }).setWeak
      i none).Counted := by
  have hlt : b < s.blocks.length :=
    getElem?_lt_of_eq_some _ _ _ ((State.deref_eq_some s b blk).1 hd).1
  have hfr : blk.freed = false := ((State.deref_eq_some s b blk).1 hd).2
  have hpos := s.weakRefs_pos i b h hi hb
  have hle := s.weakRefs_le_live b
  have hcnt := (hc b).1 blk hd
  have hdec : size_t_dec blk.weak_ptr_counter = blk.weak_ptr_counter - 1 :=
    size_t_dec_of_pos _ (by omega) (by omega)
  rw [State.wk_eq_some] at hi
  intro b'
  have e1 := State.weakRefs_setWeak
    (s.store b { blk with weak_ptr_counter := size_t_dec blk.weak_ptr_counter }) i none
    (some h) b' hi
  obtain ⟨c1, c2⟩ := hc b'
  simp only [State.deref_setWeak, State.deref_store, State.strongRefs_setWeak,
    State.strongRefs_store]
  generalize ((s.store b { blk with weak_ptr_counter := size_t_dec blk.weak_ptr_counter }).setWeak
    i none).weakRefs b' = n at e1 ⊢
  simp only [refsWeak, hb, State.weakRefs_store] at e1
  by_cases hbb : b' = b
  · subst hbb
    simp at e1
    simp only [if_true, hlt, hfr]
    simp
    omega
  · have hne : ¬ (b = b') := fun hq => hbb hq.symm
    simp [hne] at e1
    subst e1
    simp only [hbb, if_false]
    exact ⟨c1, c2⟩

/-! ## The lifetime invariant under the primitive effects -/

theorem Tracked_init : State.init.Tracked := by
  constructor
  · intro e he
    simp [State.init] at he
  · intro b blk h
    simp [State.init] at h

theorem Tracked_congr (s s' : State) (hb : s'.blocks = s.blocks) (ht : s'.trace = s.trace)
    (h : s.Tracked) : s'.Tracked := by
  unfold State.Tracked payloadTracked State.destroyCalls State.deallocs State.deleterCalls
    State.payloadDtors at *
  rw [hb, ht]
  exact h

theorem payloadTracked_congr (s s' : State) (b : Nat) (blk blk' : base_control_block_)
    (dv : Derived) (ht : s'.trace = s.trace) (hd : blk'.derived = blk.derived)
    (hz : blk'.shared_ptr_counter = 0 ↔ blk.shared_ptr_counter = 0)
    (h : payloadTracked s b blk dv) : payloadTracked s' b blk' dv := by
  unfold payloadTracked State.deleterCalls State.payloadDtors at *
  rw [ht, hd]
  cases dv with
  | control_block a d =>
    simp only at h ⊢
    by_cases hc : blk.shared_ptr_counter = 0
    · simp only [hc, hz.2 hc, if_true] at h ⊢
      exact h
    · have hc' : ¬ blk'.shared_ptr_counter = 0 := fun hq => hc (hz.1 hq)
      simp only [hc, hc', if_false] at h ⊢
      exact h
  | inplace_control_block args =>
    simp only at h ⊢
    by_cases hc : blk.shared_ptr_counter = 0
    · simp only [hc, hz.2 hc, if_true] at h ⊢
      exact h
    · have hc' : ¬ blk'.shared_ptr_counter = 0 := fun hq => hc (hz.1 hq)
      simp only [hc, hc', if_false] at h ⊢
      exact h

/-- Writing back a live block with the same derived part, still live, and a
strong count that is zero exactly when it was. -/
theorem Tracked_store_keep (s : State) (b : Nat) (blk blk' : base_control_block_)
    (hd : s.deref b = some blk) (hder : blk'.derived = blk.derived)
    (hfr : blk'.freed = false)
    (hz : blk'.shared_ptr_counter = 0 ↔ blk.shared_ptr_counter = 0)
    (h : s.Tracked) : (s.store b blk').Tracked := by
  obtain ⟨hget, hfree⟩ := (State.deref_eq_some s b blk).1 hd
  obtain ⟨t1, t2⟩ := h
  constructor
  · intro e he
    have := t1 e he
    simpa [State.store] using this
  · intro b' x hx
    simp only [State.store, List.getElem?_set] at hx
    by_cases hbb : b = b'
    · subst hbb
      have hlt := getElem?_lt_of_eq_some _ _ _ hget
      simp [hlt] at hx
      subst hx
      obtain ⟨u1, u2, u3, u4, u5⟩ := t2 b blk hget
      refine ⟨?_, ?_, ?_, u4, ?_⟩
      · intro hf; rw [hfr] at hf; cases hf
      · have : (s.store b blk').destroyCalls b = s.destroyCalls b := rfl
        rw [this, u2]
        by_cases hc : blk.shared_ptr_counter = 0
        · simp [hc, hz.2 hc]
        · have hc' : ¬ blk'.shared_ptr_counter = 0 := fun hq => hc (hz.1 hq)
          simp [hc, hc']
      · have : (s.store b blk').deallocs b = s.deallocs b := rfl
        rw [this, u3, hfr, hfree]
      · intro dv hdv
        exact payloadTracked_congr s _ b blk blk' dv rfl hder hz (u5 dv hdv)
    · simp only [hbb, if_false] at hx
      obtain ⟨u1, u2, u3, u4, u5⟩ := t2 b' x hx
      refine ⟨u1, u2, u3, u4, ?_⟩
      intro dv hdv
      exact payloadTracked_congr s _ b' x x dv rfl rfl Iff.rfl (u5 dv hdv)

theorem Tracked_fresh (s : State) (h : s.Tracked) (b : Nat) (hb : s.blocks.length ≤ b) :
    s.destroyCalls b = 0 ∧ s.deallocs b = 0 ∧ s.deleterCalls b = [] ∧ s.payloadDtors b = 0 ∧
      ∀ dv, Event.alloc b dv ∉ s.trace := by
  have key : ∀ e, e.block = b → e ∉ s.trace := by
    intro e he hmem
    have := h.1 e hmem
    omega
  refine ⟨?_, ?_, ?_, ?_, ?_⟩
  · exact List.count_eq_zero.mpr (key _ rfl)
  · exact List.count_eq_zero.mpr (key _ rfl)
  · unfold State.deleterCalls
    rw [List.filter_eq_nil_iff]
    intro e he hd
    cases e with
    | deleter b' d a =>
      simp [isDeleterOf] at hd
      exact key _ (by simp [Event.block, hd]) he
    | alloc _ _ => simp [isDeleterOf] at hd
    | destroy _ => simp [isDeleterOf] at hd
    | dtorT _ => simp [isDeleterOf] at hd
    | dealloc _ => simp [isDeleterOf] at hd
  · exact List.count_eq_zero.mpr (key _ rfl)
  · intro dv
    exact key _ rfl

theorem Tracked_newBlock (s : State) (d : Derived) (h : s.Tracked) : (s.newBlock d).Tracked := by
  obtain ⟨f1, f2, f3, f4, f5⟩ := Tracked_fresh s h s.blocks.length (Nat.le_refl _)
  obtain ⟨t1, t2⟩ := h
  constructor
  · intro e he
    simp only [State.newBlock, List.mem_append, List.mem_singleton] at he
    simp only [State.newBlock, List.length_append, List.length_singleton]
    rcases he with he | he
    · have := t1 e he
      omega
    · subst he
      simp [Event.block]
  · intro b' x hx
    by_cases hbb : b' = s.blocks.length
    · subst hbb
      simp [State.newBlock] at hx
      subst hx
      unfold State.destroyCalls State.deallocs State.deleterCalls State.payloadDtors at *
      refine ⟨?_, ?_, ?_, ?_, ?_⟩
      · intro hf; cases hf
      · simp [State.newBlock, List.count_append, f1]
      · simp [State.newBlock, List.count_append, f2]
      · exact ⟨d, by simp [State.newBlock]⟩
      · intro dv hdv
        simp only [State.newBlock, List.mem_append, List.mem_singleton] at hdv
        rcases hdv with hdv | hdv
        · exact absurd hdv (f5 dv)
        · injection hdv with _ hdv
          subst hdv
          unfold payloadTracked State.deleterCalls State.payloadDtors
          cases dv with
          | control_block a dd =>
            simp [State.newBlock, List.count_append, List.filter_append, f3, f4, isDeleterOf]
          | inplace_control_block args =>
            simp [State.newBlock, List.count_append, List.filter_append, f3, f4, isDeleterOf]
    · have hlt : b' < s.blocks.length := by
        have := getElem?_lt_of_eq_some _ _ _ hx
        simp [State.newBlock] at this
        omega
      have hx' : s.blocks[b']? = some x := by
        simp only [State.newBlock] at hx
        rwa [List.getElem?_append_left hlt] at hx
      obtain ⟨u1, u2, u3, u4, u5⟩ := t2 b' x hx'
      unfold State.destroyCalls State.deallocs at *
      refine ⟨u1, ?_, ?_, ?_, ?_⟩
      · simp [State.newBlock, List.count_append, u2]
      · simp [State.newBlock, List.count_append, u3]
      · obtain ⟨dv, hdv⟩ := u4
        exact ⟨dv, by simp [State.newBlock, hdv]⟩
      · intro dv hdv
        simp only [State.newBlock, List.mem_append, List.mem_singleton] at hdv
        rcases hdv with hdv | hdv
        · have := u5 dv hdv
          unfold payloadTracked State.deleterCalls State.payloadDtors at *
          simpa [State.newBlock, List.count_append, List.filter_append, isDeleterOf] using this
        · injection hdv with hq _
          exact absurd hq hbb

theorem count_append_other (t evs : List Event) (b : Nat) (e : Event)
    (hev : ∀ x, x ∈ evs → x.block = b) (he : e.block ≠ b) :
    (t ++ evs).count e = t.count e := by
  have : evs.count e = 0 := by
    apply List.count_eq_zero.mpr
    intro hmem
    exact he (hev e hmem)
  rw [List.count_append, this, Nat.add_zero]

theorem filter_deleter_append_other (t evs : List Event) (b b' : Nat)
    (hev : ∀ x, x ∈ evs → x.block = b) (hne : b' ≠ b) :
    (t ++ evs).filter (isDeleterOf b') = t.filter (isDeleterOf b') := by
  have : evs.filter (isDeleterOf b') = [] := by
    rw [List.filter_eq_nil_iff]
    intro e he hd
    have hb := hev e he
    cases e with
    | deleter b2 d a =>
      simp [isDeleterOf] at hd
      simp [Event.block] at hb
      omega
    | alloc _ _ => simp [isDeleterOf] at hd
    | destroy _ => simp [isDeleterOf] at hd
    | dtorT _ => simp [isDeleterOf] at hd
    | dealloc _ => simp [isDeleterOf] at hd
  rw [List.filter_append, this, List.append_nil]

/-- Writing back block `b` together with events that are all about `b` and are
not allocations: the invariant has to be re-established for `b` only. -/
theorem Tracked_store_emit (s : State) (b : Nat) (blk blk' : base_control_block_)
    (evs : List Event) (hd : s.deref b = some blk) (h : s.Tracked)
    (hev : ∀ x, x ∈ evs → x.block = b ∧ ∀ b2 dv, x ≠ Event.alloc b2 dv)
    (hb1 : blk'.freed = true → blk'.shared_ptr_counter = 0 ∧ blk'.weak_ptr_counter = 0)
    (hb2 : ((s.store b blk').emit evs).destroyCalls b =
      (if blk'.shared_ptr_counter = 0 then 1 else 0))
    (hb3 : ((s.store b blk').emit evs).deallocs b = (if blk'.freed = true then 1 else 0))
    (hb5 : ∀ dv, Event.alloc b dv ∈ s.trace →
      payloadTracked ((s.store b blk').emit evs) b blk' dv) :
    ((s.store b blk').emit evs).Tracked := by
  obtain ⟨hget, hfree⟩ := (State.deref_eq_some s b blk).1 hd
  have hlt := getElem?_lt_of_eq_some _ _ _ hget
  have hmem : ∀ b2 dv, Event.alloc b2 dv ∈ s.trace ++ evs ↔ Event.alloc b2 dv ∈ s.trace := by
    intro b2 dv
    rw [List.mem_append]
    constructor
    · intro hq
      rcases hq with hq | hq
      · exact hq
      · exact absurd rfl ((hev _ hq).2 b2 dv)
    · intro hq; exact Or.inl hq
  have hev' : ∀ x, x ∈ evs → x.block = b := fun x hx => (hev x hx).1
  obtain ⟨t1, t2⟩ := h
  constructor
  · intro e he
    simp only [State.emit, State.store, List.mem_append, List.length_set] at he ⊢
    rcases he with he | he
    · exact t1 e he
    · rw [hev' e he]; exact hlt
  · intro b' x hx
    simp only [State.emit, State.store, List.getElem?_set] at hx
    by_cases hbb : b = b'
    · subst hbb
      simp [hlt] at hx
      subst hx
      obtain ⟨u1, u2, u3, u4, u5⟩ := t2 b blk hget
      refine ⟨hb1, hb2, hb3, ?_, ?_⟩
      · obtain ⟨dv, hdv⟩ := u4
        exact ⟨dv, (hmem b dv).2 hdv⟩
      · intro dv hdv
        exact hb5 dv ((hmem b dv).1 hdv)
    · simp only [hbb, if_false] at hx
      have hne : b' ≠ b := fun hq => hbb hq.symm
      obtain ⟨u1, u2, u3, u4, u5⟩ := t2 b' x hx
      have c1 : ((s.store b blk').emit evs).destroyCalls b' = s.destroyCalls b' :=
        count_append_other s.trace evs b _ hev' (by simpa [Event.block] using hne)
      have c2 : ((s.store b blk').emit evs).deallocs b' = s.deallocs b' :=
        count_append_other s.trace evs b _ hev' (by simpa [Event.block] using hne)
      have c3 : ((s.store b blk').emit evs).payloadDtors b' = s.payloadDtors b' :=
        count_append_other s.trace evs b _ hev' (by simpa [Event.block] using hne)
      have c4 : ((s.store b blk').emit evs).deleterCalls b' = s.deleterCalls b' :=
        filter_deleter_append_other s.trace evs b b' hev' hne
      refine ⟨u1, by rw [c1]; exact u2, by rw [c2]; exact u3, ?_, ?_⟩
      · obtain ⟨dv, hdv⟩ := u4
        exact ⟨dv, (hmem b' dv).2 hdv⟩
      · intro dv hdv
        have := u5 dv ((hmem b' dv).1 hdv)
        unfold payloadTracked at this ⊢
        rw [c3, c4]
        exact this

theorem Tracked_destroy_keep (s : State) (b : Nat) (blk : base_control_block_)
    (hd : s.deref b = some blk) (hnz : blk.shared_ptr_counter ≠ 0)
    (h : s.Tracked) :
    ((s.store b (base_control_block_.destroy b { blk with shared_ptr_counter := 0 }).1).emit
      (base_control_block_.destroy b { blk with shared_ptr_counter := 0 }).2).Tracked := by
  obtain ⟨hget, hfree⟩ := (State.deref_eq_some s b blk).1 hd
  obtain ⟨u1, u2, u3, u4, u5⟩ := h.2 b blk hget
  simp only [hnz, if_false] at u2
  simp only [hfree] at u3
  unfold State.destroyCalls at u2
  unfold State.deallocs at u3
  cases hder : blk.derived with
  | control_block p d =>
    apply Tracked_store_emit s b blk _ _ hd h
    · intro x hx
      simp [base_control_block_.destroy, hder] at hx
      rcases hx with hx | hx <;> subst hx <;> simp [Event.block]
    · simp [base_control_block_.destroy, hder, hfree]
    · simp [base_control_block_.destroy, hder, State.destroyCalls, State.emit, State.store,
        List.count_append, u2]
    · simp [base_control_block_.destroy, hder, State.deallocs, State.emit, State.store,
        List.count_append, hfree]
      simpa using u3
    · intro dv hdv
      have hp := u5 dv hdv
      unfold payloadTracked State.deleterCalls State.payloadDtors at *
      cases dv with
      | control_block a dd =>
        simp only [hnz, if_false, hder] at hp
        obtain ⟨hp1, hp2, hp3⟩ := hp
        injection hp2 with hp2a hp2b
        subst hp2a; subst hp2b
        simp [base_control_block_.destroy, hder, State.emit, State.store, List.count_append,
          List.filter_append, hp1, hp3, isDeleterOf]
      | inplace_control_block args =>
        simp [hder] at hp
  | inplace_control_block args =>
    apply Tracked_store_emit s b blk _ _ hd h
    · intro x hx
      simp [base_control_block_.destroy, hder] at hx
      rcases hx with hx | hx <;> subst hx <;> simp [Event.block]
    · simp [base_control_block_.destroy, hder, hfree]
    · simp [base_control_block_.destroy, hder, State.destroyCalls, State.emit, State.store,
        List.count_append, u2]
    · simp [base_control_block_.destroy, hder, State.deallocs, State.emit, State.store,
        List.count_append, hfree]
      simpa using u3
    · intro dv hdv
      have hp := u5 dv hdv
      unfold payloadTracked State.deleterCalls State.payloadDtors at *
      cases dv with
      | control_block a dd =>
        simp [hder, hnz] at hp
      | inplace_control_block args2 =>
        simp only [hnz, if_false, hder] at hp
        obtain ⟨hp1, hp2, hp3⟩ := hp
        injection hp1 with hp1
        subst hp1
        simp [base_control_block_.destroy, hder, State.emit, State.store, List.count_append,
          List.filter_append, hp2, hp3, isDeleterOf]

theorem Tracked_destroy_free (s : State) (b : Nat) (blk : base_control_block_)
    (hd : s.deref b = some blk) (hnz : blk.shared_ptr_counter ≠ 0)
    (hw : blk.weak_ptr_counter = 0) (h : s.Tracked) :
    ((s.store b (base_control_block_.delete b
        (base_control_block_.destroy b { blk with shared_ptr_counter := 0 }).1).1).emit
      ((base_control_block_.destroy b { blk with shared_ptr_counter := 0 }).2 ++
        (base_control_block_.delete b
          (base_control_block_.destroy b { blk with shared_ptr_counter := 0 }).1).2)).Tracked := by
  obtain ⟨hget, hfree⟩ := (State.deref_eq_some s b blk).1 hd
  obtain ⟨u1, u2, u3, u4, u5⟩ := h.2 b blk hget
  simp only [hnz, if_false] at u2
  simp only [hfree] at u3
  unfold State.destroyCalls at u2
  unfold State.deallocs at u3
  have u3' : List.count (Event.dealloc b) s.trace = 0 := by simpa using u3
  cases hder : blk.derived with
  | control_block p d =>
    apply Tracked_store_emit s b blk _ _ hd h
    · intro x hx
      simp [base_control_block_.destroy, base_control_block_.delete, hder] at hx
      rcases hx with hx | hx | hx <;> subst hx <;> simp [Event.block]
    · simp [base_control_block_.destroy, base_control_block_.delete, hder, hw]
    · simp [base_control_block_.destroy, base_control_block_.delete, hder, State.destroyCalls,
        State.emit, State.store, List.count_append, u2]
    · simp [base_control_block_.destroy, base_control_block_.delete, hder, State.deallocs,
        State.emit, State.store, List.count_append, u3']
    · intro dv hdv
      have hp := u5 dv hdv
      unfold payloadTracked State.deleterCalls State.payloadDtors at *
      cases dv with
      | control_block a dd =>
        simp only [hnz, if_false, hder] at hp
        obtain ⟨hp1, hp2, hp3⟩ := hp
        injection hp2 with hp2a hp2b
        subst hp2a; subst hp2b
        simp [base_control_block_.destroy, base_control_block_.delete, hder, State.emit,
          State.store, List.count_append, List.filter_append, hp1, hp3, isDeleterOf]
      | inplace_control_block args =>
        simp [hder] at hp
  | inplace_control_block args =>
    apply Tracked_store_emit s b blk _ _ hd h
    · intro x hx
      simp [base_control_block_.destroy, base_control_block_.delete, hder] at hx
      rcases hx with hx | hx | hx <;> subst hx <;> simp [Event.block]
    · simp [base_control_block_.destroy, base_control_block_.delete, hder, hw]
    · simp [base_control_block_.destroy, base_control_block_.delete, hder, State.destroyCalls,
        State.emit, State.store, List.count_append, u2]
    · simp [base_control_block_.destroy, base_control_block_.delete, hder, State.deallocs,
        State.emit, State.store, List.count_append, u3']
    · intro dv hdv
      have hp := u5 dv hdv
      unfold payloadTracked State.deleterCalls State.payloadDtors at *
      cases dv with
      | control_block a dd =>
        simp [hder, hnz] at hp
      | inplace_control_block args2 =>
        simp only [hnz, if_false, hder] at hp
        obtain ⟨hp1, hp2, hp3⟩ := hp
        injection hp1 with hp1
        subst hp1
        simp [base_control_block_.destroy, base_control_block_.delete, hder, State.emit,
          State.store, List.count_append, List.filter_append, hp2, hp3, isDeleterOf]

/-! ## Every member function preserves the invariants -/

theorem Tracked_incStrong_push (s : State) (p : shared_ptr) (b : Nat) (blk : base_control_block_)
    (hd : s.deref b = some blk) (hnz : blk.shared_ptr_counter ≠ 0)
    (hinc : size_t_inc blk.shared_ptr_counter ≠ 0) (h : s.Tracked) :
    ((s.store b { blk with shared_ptr_counter := size_t_inc blk.shared_ptr_counter }).pushShared
      p).Tracked := by
  have hfr := ((State.deref_eq_some s b blk).1 hd).2
  exact Tracked_congr _ _ rfl rfl
    (Tracked_store_keep s b blk
      { blk with shared_ptr_counter := size_t_inc blk.shared_ptr_counter } hd rfl hfr
      ⟨fun hq => absurd hq hinc, fun hq => absurd hq hnz⟩ h)

theorem Tracked_incWeak_push (s : State) (p : weak_ptr) (b : Nat) (blk : base_control_block_)
    (hd : s.deref b = some blk) (h : s.Tracked) :
    ((s.store b { blk with weak_ptr_counter := size_t_inc blk.weak_ptr_counter }).pushWeak
      p).Tracked := by
  have hfr := ((State.deref_eq_some s b blk).1 hd).2
  exact Tracked_congr _ _ rfl rfl
    (Tracked_store_keep s b blk
      { blk with weak_ptr_counter := size_t_inc blk.weak_ptr_counter } hd rfl hfr Iff.rfl h)

theorem shared_ctor_pres (s : State) (hc : s.Counted) :
    (shared_ptr.ctor s).2.Counted ∧ (shared_ptr.ctor s).2.liveHandles = s.liveHandles + 1 ∧
      (s.Tracked → (shared_ptr.ctor s).2.Tracked) :=
  ⟨Counted_pushShared_none s _ hc, State.liveHandles_pushShared s _,
    fun h => Tracked_congr _ _ rfl rfl h⟩

theorem shared_ctor_nullptr_pres (s : State) (hc : s.Counted) :
    (shared_ptr.ctor_nullptr s).2.Counted ∧
      (shared_ptr.ctor_nullptr s).2.liveHandles = s.liveHandles + 1 ∧
      (s.Tracked → (shared_ptr.ctor_nullptr s).2.Tracked) :=
  ⟨Counted_pushShared_none s _ hc, State.liveHandles_pushShared s _,
    fun h => Tracked_congr _ _ rfl rfl h⟩

theorem shared_ctor_ptr_pres (s : State) (val : Addr) (hc : s.Counted) :
    (shared_ptr.ctor_ptr val s).2.Counted ∧
      (shared_ptr.ctor_ptr val s).2.liveHandles = s.liveHandles + 1 ∧
      (s.Tracked → (shared_ptr.ctor_ptr val s).2.Tracked) :=
  ⟨Counted_newBlock_push s _ _ hc, State.liveHandles_pushShared _ _,
    fun h => Tracked_congr _ _ rfl rfl (Tracked_newBlock s _ h)⟩

theorem shared_ctor_deleter_pres (s : State) (val : Addr) (d : Nat) (hc : s.Counted) :
    (shared_ptr.ctor_deleter val d s).2.Counted ∧
      (shared_ptr.ctor_deleter val d s).2.liveHandles = s.liveHandles + 1 ∧
      (s.Tracked → (shared_ptr.ctor_deleter val d s).2.Tracked) :=
  ⟨Counted_newBlock_push s _ _ hc, State.liveHandles_pushShared _ _,
    fun h => Tracked_congr _ _ rfl rfl (Tracked_newBlock s _ h)⟩

theorem make_shared_pres (s : State) (args : Nat) (hc : s.Counted) :
    (make_shared args s).2.Counted ∧ (make_shared args s).2.liveHandles = s.liveHandles + 1 ∧
      (s.Tracked → (make_shared args s).2.Tracked) :=
  ⟨Counted_newBlock_push s _ _ hc, State.liveHandles_pushShared _ _,
    fun h => Tracked_congr _ _ rfl rfl (Tracked_newBlock s _ h)⟩

theorem shared_ctor_copy_pres (s s' : State) (o r : Nat)
    (h : shared_ptr.ctor_copy o s = some (r, s')) (hc : s.Counted)
    (hb : s.liveHandles < 9223372036854775808) :
    s'.Counted ∧ s'.liveHandles = s.liveHandles + 1 ∧ (s.Tracked → s'.Tracked) := by
  unfold shared_ptr.ctor_copy at h
  cases ho : s.sh o with
  | none => simp [ho] at h
  | some x =>
    cases hm : x.ptr_manager with
    | none =>
      simp [ho, hm] at h
      obtain ⟨_, h⟩ := h
      subst h
      exact ⟨Counted_pushShared_none s _ hc, State.liveHandles_pushShared s _,
        fun h => Tracked_congr _ _ rfl rfl h⟩
    | some b =>
      cases hd : s.deref b with
      | none => simp [ho, hm, hd] at h
      | some blk =>
        simp [ho, hm, hd] at h
        obtain ⟨_, h⟩ := h
        subst h
        have hpos := s.strongRefs_pos o b x ho hm
        have hle := s.strongRefs_le_live b
        have hcnt := ((hc b).1 blk hd).1
        refine ⟨Counted_incStrong_push s _ b blk hc hd hb, State.liveHandles_pushShared _ _, ?_⟩
        intro ht
        apply Tracked_incStrong_push s _ b blk hd (by omega) _ ht
        rw [size_t_inc_of_lt _ (by omega)]
        omega

theorem shared_ctor_copy_cov_pres (s s' : State) (k o r : Nat)
    (h : shared_ptr.ctor_copy_cov k o s = some (r, s')) (hc : s.Counted)
    (hb : s.liveHandles < 9223372036854775808) :
    s'.Counted ∧ s'.liveHandles = s.liveHandles + 1 ∧ (s.Tracked → s'.Tracked) := by
  unfold shared_ptr.ctor_copy_cov at h
  cases ho : s.sh o with
  | none => simp [ho] at h
  | some x =>
    cases hm : x.ptr_manager with
    | none =>
      simp [ho, hm] at h
      obtain ⟨_, h⟩ := h
      subst h
      exact ⟨Counted_pushShared_none s _ hc, State.liveHandles_pushShared s _,
        fun h => Tracked_congr _ _ rfl rfl h⟩
    | some b =>
      cases hd : s.deref b with
      | none => simp [ho, hm, hd] at h
      | some blk =>
        simp [ho, hm, hd] at h
        obtain ⟨_, h⟩ := h
        subst h
        have hpos := s.strongRefs_pos o b x ho hm
        have hle := s.strongRefs_le_live b
        have hcnt := ((hc b).1 blk hd).1
        refine ⟨Counted_incStrong_push s _ b blk hc hd hb, State.liveHandles_pushShared _ _, ?_⟩
        intro ht
        apply Tracked_incStrong_push s _ b blk hd (by omega) _ ht
        rw [size_t_inc_of_lt _ (by omega)]
        omega

theorem toLong_zero : toLong 0 = 0 := by decide

theorem weak_ptr.expired_false (s : State) (o b : Nat) (x : weak_ptr)
    (blk : base_control_block_) (ho : s.wk o = some x) (hm : x.ptr_manager = some b)
    (hd : s.deref b = some blk) (he : weak_ptr.expired o s = some false) :
    blk.shared_ptr_counter ≠ 0 := by
  intro hz
  simp [weak_ptr.expired, weak_ptr.use_count, ho, hm, hd, hz, toLong_zero] at he

theorem shared_ctor_weak_pres (s s' : State) (o r : Nat)
    (h : shared_ptr.ctor_weak o s = some (r, s')) (hc : s.Counted)
    (hb : s.liveHandles < 9223372036854775808) :
    s'.Counted ∧ s'.liveHandles = s.liveHandles + 1 ∧
      (weak_ptr.expired o s = some false → s.Tracked → s'.Tracked) := by
  unfold shared_ptr.ctor_weak at h
  cases ho : s.wk o with
  | none => simp [ho] at h
  | some x =>
    cases hm : x.ptr_manager with
    | none =>
      simp [ho, hm] at h
      obtain ⟨_, h⟩ := h
      subst h
      exact ⟨Counted_pushShared_none s _ hc, State.liveHandles_pushShared s _,
        fun _ h => Tracked_congr _ _ rfl rfl h⟩
    | some b =>
      cases hd : s.deref b with
      | none => simp [ho, hm, hd] at h
      | some blk =>
        simp [ho, hm, hd] at h
        obtain ⟨_, h⟩ := h
        subst h
        have hle := s.strongRefs_le_live b
        have hcnt := ((hc b).1 blk hd).1
        refine ⟨Counted_incStrong_push s _ b blk hc hd hb, State.liveHandles_pushShared _ _, ?_⟩
        intro he ht
        have hnz := weak_ptr.expired_false s o b x blk ho hm hd he
        apply Tracked_incStrong_push s _ b blk hd hnz _ ht
        rw [size_t_inc_of_lt _ (by omega)]
        omega

theorem shared_ctor_alias_body_pres (s s' : State) (o r : Nat) (m : Addr)
    (h : shared_ptr.ctor_alias_body o m s = some (r, s')) (hc : s.Counted)
    (hb : s.liveHandles < 9223372036854775808) :
    s'.Counted ∧ s'.liveHandles = s.liveHandles + 1 ∧ (s.Tracked → s'.Tracked) := by
  unfold shared_ptr.ctor_alias_body at h
  cases ho : s.sh o with
  | none => simp [ho] at h
  | some x =>
    cases hm : x.ptr_manager with
    | none => simp [ho, hm] at h
    | some b =>
      cases hd : s.deref b with
      | none => simp [ho, hm, hd] at h
      | some blk =>
        simp [ho, hm, hd] at h
        obtain ⟨_, h⟩ := h
        subst h
        have hpos := s.strongRefs_pos o b x ho hm
        have hle := s.strongRefs_le_live b
        have hcnt := ((hc b).1 blk hd).1
        refine ⟨Counted_incStrong_push s _ b blk hc hd hb, State.liveHandles_pushShared _ _, ?_⟩
        intro ht
        apply Tracked_incStrong_push s _ b blk hd (by omega) _ ht
        rw [size_t_inc_of_lt _ (by omega)]
        omega

theorem State.liveHandles_swapShared (s : State) (i j : Nat) (a o : shared_ptr)
    (hi : s.sh i = some a) (hj : s.sh j = some o) :
    ((s.setShared i (some o)).setShared j (some a)).liveHandles = s.liveHandles := by
  rw [State.sh_eq_some] at hi hj
  have hj' : (s.setShared i (some o)).shared[j]? = some (some o) := by
    simp only [State.setShared, List.getElem?_set]
    by_cases hij : i = j
    · subst hij
      simp [getElem?_lt_of_eq_some _ _ _ hi]
    · simp [hij, hj]
  have e1 := State.liveHandles_setShared s i (some o) (some a) hi
  have e2 := State.liveHandles_setShared (s.setShared i (some o)) j (some a) (some o) hj'
  simp at e1 e2
  omega

theorem State.liveHandles_swapWeak (s : State) (i j : Nat) (a o : weak_ptr)
    (hi : s.wk i = some a) (hj : s.wk j = some o) :
    ((s.setWeak i (some o)).setWeak j (some a)).liveHandles = s.liveHandles := by
  rw [State.wk_eq_some] at hi hj
  have hj' : (s.setWeak i (some o)).weak[j]? = some (some o) := by
    simp only [State.setWeak, List.getElem?_set]
    by_cases hij : i = j
    · subst hij
      simp [getElem?_lt_of_eq_some _ _ _ hi]
    · simp [hij, hj]
  have e1 := State.liveHandles_setWeak s i (some o) (some a) hi
  have e2 := State.liveHandles_setWeak (s.setWeak i (some o)) j (some a) (some o) hj'
  simp at e1 e2
  omega

theorem shared_swap_pres (s s' : State) (i j : Nat)
    (h : shared_ptr.swap i j s = some s') (hc : s.Counted) :
    s'.Counted ∧ s'.liveHandles = s.liveHandles ∧ (s.Tracked → s'.Tracked) := by
  unfold shared_ptr.swap at h
  cases hi : s.sh i with
  | none => simp [hi] at h
  | some a =>
    cases hj : s.sh j with
    | none => simp [hi, hj] at h
    | some o =>
      simp [hi, hj] at h
      subst h
      exact ⟨Counted_swapShared s i j a o hc hi hj, State.liveHandles_swapShared s i j a o hi hj,
        fun h => Tracked_congr _ _ rfl rfl h⟩

theorem weak_swap_pres (s s' : State) (i j : Nat)
    (h : weak_ptr.swap i j s = some s') (hc : s.Counted) :
    s'.Counted ∧ s'.liveHandles = s.liveHandles ∧ (s.Tracked → s'.Tracked) := by
  unfold weak_ptr.swap at h
  cases hi : s.wk i with
  | none => simp [hi] at h
  | some a =>
    cases hj : s.wk j with
    | none => simp [hi, hj] at h
    | some o =>
      simp [hi, hj] at h
      subst h
      exact ⟨Counted_swapWeak s i j a o hc hi hj, State.liveHandles_swapWeak s i j a o hi hj,
        fun h => Tracked_congr _ _ rfl rfl h⟩

@[simp] theorem base_control_block_.destroy_counter (b : Nat) (blk : base_control_block_) :
    (base_control_block_.destroy b blk).1.shared_ptr_counter = blk.shared_ptr_counter := by
  unfold base_control_block_.destroy; cases blk.derived <;> rfl

@[simp] theorem base_control_block_.destroy_weak (b : Nat) (blk : base_control_block_) :
    (base_control_block_.destroy b blk).1.weak_ptr_counter = blk.weak_ptr_counter := by
  unfold base_control_block_.destroy; cases blk.derived <;> rfl

@[simp] theorem base_control_block_.destroy_freed (b : Nat) (blk : base_control_block_) :
    (base_control_block_.destroy b blk).1.freed = blk.freed := by
  unfold base_control_block_.destroy; cases blk.derived <;> rfl

@[simp] theorem base_control_block_.delete_counter (b : Nat) (blk : base_control_block_) :
    (base_control_block_.delete b blk).1.shared_ptr_counter = blk.shared_ptr_counter := by
  unfold base_control_block_.delete
  cases blk.derived with
  | control_block p d => by_cases hp : p = Addr.null <;> simp [hp]
  | inplace_control_block a => rfl

@[simp] theorem base_control_block_.delete_weak (b : Nat) (blk : base_control_block_) :
    (base_control_block_.delete b blk).1.weak_ptr_counter = blk.weak_ptr_counter := by
  unfold base_control_block_.delete
  cases blk.derived with
  | control_block p d => by_cases hp : p = Addr.null <;> simp [hp]
  | inplace_control_block a => rfl

@[simp] theorem base_control_block_.delete_freed (b : Nat) (blk : base_control_block_) :
    (base_control_block_.delete b blk).1.freed = true := by
  unfold base_control_block_.delete
  cases blk.derived with
  | control_block p d => by_cases hp : p = Addr.null <;> simp [hp]
  | inplace_control_block a => rfl

theorem State.liveHandles_dropShared (s t : State) (i : Nat) (h : shared_ptr)
    (hi : s.sh i = some h) (hs : t.shared = s.shared) (hw : t.weak = s.weak) :
    (t.setShared i none).liveHandles + 1 = s.liveHandles := by
  rw [State.sh_eq_some] at hi
  rw [← hs] at hi
  have e1 := State.liveHandles_setShared t i none (some h) hi
  have : t.liveHandles = s.liveHandles := by
    unfold State.liveHandles; rw [hs, hw]
  simp at e1
  omega

theorem State.liveHandles_dropWeak (s t : State) (i : Nat) (h : weak_ptr)
    (hi : s.wk i = some h) (hs : t.shared = s.shared) (hw : t.weak = s.weak) :
    (t.setWeak i none).liveHandles + 1 = s.liveHandles := by
  rw [State.wk_eq_some] at hi
  rw [← hw] at hi
  have e1 := State.liveHandles_setWeak t i none (some h) hi
  have : t.liveHandles = s.liveHandles := by
    unfold State.liveHandles; rw [hs, hw]
  simp at e1
  omega

theorem shared_dtor_pres (s s' : State) (i : Nat)
    (h : shared_ptr.dtor i s = some s') (hc : s.Counted)
    (hb : s.liveHandles < 9223372036854775808) :
    s'.Counted ∧ s'.liveHandles + 1 = s.liveHandles ∧ (s.Tracked → s'.Tracked) := by
  unfold shared_ptr.dtor at h
  cases hi : s.sh i with
  | none => simp [hi] at h
  | some x =>
    cases hm : x.ptr_manager with
    | none =>
      simp [hi, hm] at h
      subst h
      exact ⟨Counted_dropShared_none s i x hc hi hm,
        State.liveHandles_dropShared s s i x hi rfl rfl, fun h => Tracked_congr _ _ rfl rfl h⟩
    | some b =>
      cases hd : s.deref b with
      | none => simp [hi, hm, hd] at h
      | some blk =>
        have hpos := s.strongRefs_pos i b x hi hm
        have hle := s.strongRefs_le_live b
        have hcnt := ((hc b).1 blk hd).1
        have hfr := ((State.deref_eq_some s b blk).1 hd).2
        have hdec : size_t_dec blk.shared_ptr_counter = blk.shared_ptr_counter - 1 :=
          size_t_dec_of_pos _ (by omega) (by omega)
        simp only [hi, hm, hd] at h
        by_cases hz : size_t_dec blk.shared_ptr_counter = 0
        · simp only [hz, if_true] at h
          by_cases hw : blk.weak_ptr_counter = 0
          · simp only [hw, if_true] at h
            injection h with h
            subst h
            refine ⟨?_, State.liveHandles_dropShared s _ i x hi rfl rfl, ?_⟩
            · apply Counted_releaseShared s i b x blk _ _ hc hi hm hd
              · simp; omega
              · simp [hw]
              · intro _; simp [hw]
            · intro ht
              apply Tracked_congr _ _ rfl rfl
              have := Tracked_destroy_free s b blk hd (by omega) hw ht
              simpa [hw] using this
          · simp only [hw, if_false] at h
            injection h with h
            subst h
            refine ⟨?_, State.liveHandles_dropShared s _ i x hi rfl rfl, ?_⟩
            · apply Counted_releaseShared s i b x blk _ _ hc hi hm hd
              · simp; omega
              · simp
              · intro hq; simp [hfr] at hq
            · intro ht
              apply Tracked_congr _ _ rfl rfl
              exact Tracked_destroy_keep s b blk hd (by omega) ht
        · simp only [hz, if_false] at h
          injection h with h
          subst h
          refine ⟨?_, State.liveHandles_dropShared s _ i x hi rfl rfl, ?_⟩
          · have := Counted_releaseShared s i b x blk
              { blk with shared_ptr_counter := size_t_dec blk.shared_ptr_counter } [] hc hi hm hd
              (by simp; omega) rfl (by intro hq; simp [hfr] at hq)
            exact this
          · intro ht
            apply Tracked_congr _ _ rfl rfl
            exact Tracked_store_keep s b blk
              { blk with shared_ptr_counter := size_t_dec blk.shared_ptr_counter } hd rfl hfr
              ⟨fun hq => absurd hq hz, fun hq => by omega⟩ ht

theorem weak_ctor_pres (s : State) (hc : s.Counted) :
    (weak_ptr.ctor s).2.Counted ∧ (weak_ptr.ctor s).2.liveHandles = s.liveHandles + 1 ∧
      (s.Tracked → (weak_ptr.ctor s).2.Tracked) :=
  ⟨Counted_pushWeak_none s _ hc, State.liveHandles_pushWeak s _,
    fun h => Tracked_congr _ _ rfl rfl h⟩

theorem weak_ctor_copy_pres (s s' : State) (o r : Nat)
    (h : weak_ptr.ctor_copy o s = some (r, s')) (hc : s.Counted)
    (hb : s.liveHandles < 9223372036854775808) :
    s'.Counted ∧ s'.liveHandles = s.liveHandles + 1 ∧ (s.Tracked → s'.Tracked) := by
  unfold weak_ptr.ctor_copy at h
  cases ho : s.wk o with
  | none => simp [ho] at h
  | some x =>
    cases hm : x.ptr_manager with
    | none =>
      simp [ho, hm] at h
      obtain ⟨_, h⟩ := h
      subst h
      exact ⟨Counted_pushWeak_none s _ hc, State.liveHandles_pushWeak s _,
        fun h => Tracked_congr _ _ rfl rfl h⟩
    | some b =>
      cases hd : s.deref b with
      | none => simp [ho, hm, hd] at h
      | some blk =>
        simp [ho, hm, hd] at h
        obtain ⟨_, h⟩ := h
        subst h
        exact ⟨Counted_incWeak_push s _ b blk hc hd hb, State.liveHandles_pushWeak _ _,
          fun ht => Tracked_incWeak_push s _ b blk hd ht⟩

theorem weak_ctor_shared_pres (s s' : State) (o r : Nat)
    (h : weak_ptr.ctor_shared o s = some (r, s')) (hc : s.Counted)
    (hb : s.liveHandles < 9223372036854775808) :
    s'.Counted ∧ s'.liveHandles = s.liveHandles + 1 ∧ (s.Tracked → s'.Tracked) := by
  unfold weak_ptr.ctor_shared at h
  cases ho : s.sh o with
  | none => simp [ho] at h
  | some x =>
    cases hm : x.ptr_manager with
    | none =>
      simp [ho, hm] at h
      obtain ⟨_, h⟩ := h
      subst h
      exact ⟨Counted_pushWeak_none s _ hc, State.liveHandles_pushWeak s _,
        fun h => Tracked_congr _ _ rfl rfl h⟩
    | some b =>
      cases hd : s.deref b with
      | none => simp [ho, hm, hd] at h
      | some blk =>
        simp [ho, hm, hd] at h
        obtain ⟨_, h⟩ := h
        subst h
        exact ⟨Counted_incWeak_push s _ b blk hc hd hb, State.liveHandles_pushWeak _ _,
          fun ht => Tracked_incWeak_push s _ b blk hd ht⟩

theorem weak_dtor_pres (s s' : State) (i : Nat)
    (h : weak_ptr.dtor i s = some s') (hc : s.Counted)
    (hb : s.liveHandles < 9223372036854775808) :
    s'.Counted ∧ s'.liveHandles + 1 = s.liveHandles ∧ (s.Tracked → s'.Tracked) := by
  unfold weak_ptr.dtor at h
  cases hi : s.wk i with
  | none => simp [hi] at h
  | some x =>
    cases hm : x.ptr_manager with
    | none =>
      simp [hi, hm] at h
      subst h
      exact ⟨Counted_dropWeak_none s i x hc hi hm,
        State.liveHandles_dropWeak s s i x hi rfl rfl, fun h => Tracked_congr _ _ rfl rfl h⟩
    | some b =>
      cases hd : s.deref b with
      | none => simp [hi, hm, hd] at h
      | some blk =>
        have hfr := ((State.deref_eq_some s b blk).1 hd).2
        simp only [hi, hm, hd] at h
        injection h with h
        subst h
        refine ⟨Counted_releaseWeak s i b x blk hc hi hm hd hb,
          State.liveHandles_dropWeak s _ i x hi rfl rfl, ?_⟩
        intro ht
        apply Tracked_congr _ _ rfl rfl
        exact Tracked_store_keep s b blk
          { blk with weak_ptr_counter := size_t_dec blk.weak_ptr_counter } hd rfl hfr Iff.rfl ht

theorem shared_ctor_move_pres (s s' : State) (o r : Nat)
    (h : shared_ptr.ctor_move o s = some (r, s')) (hc : s.Counted) :
    s'.Counted ∧ s'.liveHandles = s.liveHandles + 1 ∧ (s.Tracked → s'.Tracked) := by
  unfold shared_ptr.ctor_move at h
  obtain ⟨c0, l0, t0⟩ := shared_ctor_pres s hc
  cases h1 : shared_ptr.swap (shared_ptr.ctor s).1 o (shared_ptr.ctor s).2 with
  | none => simp [h1] at h
  | some s1 =>
    simp [h1] at h
    obtain ⟨_, h⟩ := h
    subst h
    obtain ⟨c1, l1, t1⟩ := shared_swap_pres _ _ _ _ h1 c0
    exact ⟨c1, by omega, fun ht => t1 (t0 ht)⟩

theorem shared_ctor_alias_pres (s s' : State) (o r : Nat) (m : Addr)
    (h : shared_ptr.ctor_alias o m s = some (r, s')) (hc : s.Counted)
    (hb : s.liveHandles < 4611686018427387904) :
    s'.Counted ∧ s'.liveHandles = s.liveHandles + 1 ∧ (s.Tracked → s'.Tracked) := by
  unfold shared_ptr.ctor_alias at h
  cases h1 : shared_ptr.ctor_copy o s with
  | none => simp [h1] at h
  | some p1 =>
    obtain ⟨param, s1⟩ := p1
    obtain ⟨c1, l1, t1⟩ := shared_ctor_copy_pres s s1 o param h1 hc (by omega)
    simp only [h1] at h
    cases h2 : shared_ptr.ctor_alias_body param m s1 with
    | none => simp [h2] at h
    | some p2 =>
      obtain ⟨r2, s2⟩ := p2
      obtain ⟨c2, l2, t2⟩ := shared_ctor_alias_body_pres s1 s2 param r2 m h2 c1 (by omega)
      simp only [h2] at h
      cases h3 : shared_ptr.dtor param s2 with
      | none => simp [h3] at h
      | some s3 =>
        obtain ⟨c3, l3, t3⟩ := shared_dtor_pres s2 s3 param h3 c2 (by omega)
        simp [h3] at h
        obtain ⟨_, h⟩ := h
        subst h
        exact ⟨c3, by omega, fun ht => t3 (t2 (t1 ht))⟩

theorem shared_assign_pres (s s' : State) (i o : Nat)
    (h : shared_ptr.assign i o s = some s') (hc : s.Counted)
    (hb : s.liveHandles < 4611686018427387904) :
    s'.Counted ∧ s'.liveHandles = s.liveHandles ∧ (s.Tracked → s'.Tracked) := by
  unfold shared_ptr.assign at h
  cases hi : s.sh i with
  | none => simp [hi] at h
  | some a =>
    cases ho : s.sh o with
    | none => simp [hi, ho] at h
    | some x =>
      simp only [hi, ho] at h
      by_cases hio : i = o
      · simp [hio] at h
        subst h
        exact ⟨hc, rfl, fun ht => ht⟩
      · simp only [hio, if_false] at h
        cases h1 : shared_ptr.ctor_copy o s with
        | none => simp [h1] at h
        | some p1 =>
          obtain ⟨tmp, s1⟩ := p1
          obtain ⟨c1, l1, t1⟩ := shared_ctor_copy_pres s s1 o tmp h1 hc (by omega)
          simp only [h1] at h
          cases h2 : shared_ptr.swap i tmp s1 with
          | none => simp [h2] at h
          | some s2 =>
            obtain ⟨c2, l2, t2⟩ := shared_swap_pres s1 s2 i tmp h2 c1
            simp only [h2] at h
            obtain ⟨c3, l3, t3⟩ := shared_dtor_pres s2 s' tmp h c2 (by omega)
            exact ⟨c3, by omega, fun ht => t3 (t2 (t1 ht))⟩

theorem shared_assign_cov_pres (s s' : State) (i o : Nat)
    (h : shared_ptr.assign_cov i o s = some s') (hc : s.Counted)
    (hb : s.liveHandles < 4611686018427387904) :
    s'.Counted ∧ s'.liveHandles = s.liveHandles ∧ (s.Tracked → s'.Tracked) :=
  shared_assign_pres s s' i o h hc hb

theorem shared_assign_move_pres (s s' : State) (i o : Nat)
    (h : shared_ptr.assign_move i o s = some s') (hc : s.Counted)
    (hb : s.liveHandles < 4611686018427387904) :
    s'.Counted ∧ s'.liveHandles = s.liveHandles ∧ (s.Tracked → s'.Tracked) := by
  unfold shared_ptr.assign_move at h
  cases hi : s.sh i with
  | none => simp [hi] at h
  | some a =>
    cases ho : s.sh o with
    | none => simp [hi, ho] at h
    | some x =>
      simp only [hi, ho] at h
      by_cases hio : i = o
      · simp [hio] at h
        subst h
        exact ⟨hc, rfl, fun ht => ht⟩
      · simp only [hio, if_false] at h
        cases h1 : shared_ptr.swap i o s with
        | none => simp [h1] at h
        | some s1 =>
          obtain ⟨c1, l1, t1⟩ := shared_swap_pres s s1 i o h1 hc
          simp only [h1] at h
          obtain ⟨c0, l0, t0⟩ := shared_ctor_pres s1 c1
          cases h2 : shared_ptr.swap (shared_ptr.ctor s1).1 o (shared_ptr.ctor s1).2 with
          | none => simp [h2] at h
          | some s2 =>
            obtain ⟨c2, l2, t2⟩ := shared_swap_pres _ s2 _ o h2 c0
            simp only [h2] at h
            obtain ⟨c3, l3, t3⟩ := shared_dtor_pres s2 s' _ h c2 (by omega)
            exact ⟨c3, by omega, fun ht => t3 (t2 (t0 (t1 ht)))⟩

theorem shared_reset_pres (s s' : State) (i : Nat)
    (h : shared_ptr.reset i s = some s') (hc : s.Counted)
    (hb : s.liveHandles < 4611686018427387904) :
    s'.Counted ∧ s'.liveHandles = s.liveHandles ∧ (s.Tracked → s'.Tracked) := by
  unfold shared_ptr.reset at h
  obtain ⟨c0, l0, t0⟩ := shared_ctor_pres s hc
  cases h2 : shared_ptr.swap (shared_ptr.ctor s).1 i (shared_ptr.ctor s).2 with
  | none => simp [h2] at h
  | some s2 =>
    obtain ⟨c2, l2, t2⟩ := shared_swap_pres _ s2 _ i h2 c0
    simp only [h2] at h
    obtain ⟨c3, l3, t3⟩ := shared_dtor_pres s2 s' _ h c2 (by omega)
    exact ⟨c3, by omega, fun ht => t3 (t2 (t0 ht))⟩

theorem shared_reset_ptr_pres (s s' : State) (i : Nat) (val : Addr)
    (h : shared_ptr.reset_ptr i val s = some s') (hc : s.Counted)
    (hb : s.liveHandles < 4611686018427387904) :
    s'.Counted ∧ s'.liveHandles = s.liveHandles ∧ (s.Tracked → s'.Tracked) := by
  unfold shared_ptr.reset_ptr at h
  obtain ⟨c0, l0, t0⟩ := shared_ctor_ptr_pres s val hc
  cases h2 : shared_ptr.swap (shared_ptr.ctor_ptr val s).1 i (shared_ptr.ctor_ptr val s).2 with
  | none => simp [h2] at h
  | some s2 =>
    obtain ⟨c2, l2, t2⟩ := shared_swap_pres _ s2 _ i h2 c0
    simp only [h2] at h
    obtain ⟨c3, l3, t3⟩ := shared_dtor_pres s2 s' _ h c2 (by omega)
    exact ⟨c3, by omega, fun ht => t3 (t2 (t0 ht))⟩

theorem shared_reset_deleter_pres (s s' : State) (i : Nat) (val : Addr) (d : Nat)
    (h : shared_ptr.reset_deleter i val d s = some s') (hc : s.Counted)
    (hb : s.liveHandles < 4611686018427387904) :
    s'.Counted ∧ s'.liveHandles = s.liveHandles ∧ (s.Tracked → s'.Tracked) := by
  unfold shared_ptr.reset_deleter at h
  obtain ⟨c0, l0, t0⟩ := shared_ctor_deleter_pres s val d hc
  cases h2 : shared_ptr.swap (shared_ptr.ctor_deleter val d s).1 i
      (shared_ptr.ctor_deleter val d s).2 with
  | none => simp [h2] at h
  | some s2 =>
    obtain ⟨c2, l2, t2⟩ := shared_swap_pres _ s2 _ i h2 c0
    simp only [h2] at h
    obtain ⟨c3, l3, t3⟩ := shared_dtor_pres s2 s' _ h c2 (by omega)
    exact ⟨c3, by omega, fun ht => t3 (t2 (t0 ht))⟩

theorem weak_ctor_move_pres (s s' : State) (o r : Nat)
    (h : weak_ptr.ctor_move o s = some (r, s')) (hc : s.Counted) :
    s'.Counted ∧ s'.liveHandles = s.liveHandles + 1 ∧ (s.Tracked → s'.Tracked) := by
  unfold weak_ptr.ctor_move at h
  obtain ⟨c0, l0, t0⟩ := weak_ctor_pres s hc
  cases h1 : weak_ptr.swap (weak_ptr.ctor s).1 o (weak_ptr.ctor s).2 with
  | none => simp [h1] at h
  | some s1 =>
    simp [h1] at h
    obtain ⟨_, h⟩ := h
    subst h
    obtain ⟨c1, l1, t1⟩ := weak_swap_pres _ _ _ _ h1 c0
    exact ⟨c1, by omega, fun ht => t1 (t0 ht)⟩

theorem weak_reset_pres (s s' : State) (i : Nat)
    (h : weak_ptr.reset i s = some s') (hc : s.Counted)
    (hb : s.liveHandles < 4611686018427387904) :
    s'.Counted ∧ s'.liveHandles = s.liveHandles ∧ (s.Tracked → s'.Tracked) := by
  unfold weak_ptr.reset at h
  obtain ⟨c0, l0, t0⟩ := weak_ctor_pres s hc
  cases h2 : weak_ptr.swap (weak_ptr.ctor s).1 i (weak_ptr.ctor s).2 with
  | none => simp [h2] at h
  | some s2 =>
    obtain ⟨c2, l2, t2⟩ := weak_swap_pres _ s2 _ i h2 c0
    simp only [h2] at h
    obtain ⟨c3, l3, t3⟩ := weak_dtor_pres s2 s' _ h c2 (by omega)
    exact ⟨c3, by omega, fun ht => t3 (t2 (t0 ht))⟩

theorem weak_assign_pres (s s' : State) (i o : Nat)
    (h : weak_ptr.assign i o s = some s') (hc : s.Counted)
    (hb : s.liveHandles < 4611686018427387904) :
    s'.Counted ∧ s'.liveHandles = s.liveHandles ∧ (s.Tracked → s'.Tracked) := by
  unfold weak_ptr.assign at h
  cases hi : s.wk i with
  | none => simp [hi] at h
  | some a =>
    cases ho : s.wk o with
    | none => simp [hi, ho] at h
    | some x =>
      simp only [hi, ho] at h
      by_cases hio : i = o
      · simp [hio] at h
        subst h
        exact ⟨hc, rfl, fun ht => ht⟩
      · simp only [hio, if_false] at h
        cases h1 : weak_ptr.ctor_copy o s with
        | none => simp [h1] at h
        | some p1 =>
          obtain ⟨tmp, s1⟩ := p1
          obtain ⟨c1, l1, t1⟩ := weak_ctor_copy_pres s s1 o tmp h1 hc (by omega)
          simp only [h1] at h
          cases h2 : weak_ptr.swap i tmp s1 with
          | none => simp [h2] at h
          | some s2 =>
            obtain ⟨c2, l2, t2⟩ := weak_swap_pres s1 s2 i tmp h2 c1
            simp only [h2] at h
            obtain ⟨c3, l3, t3⟩ := weak_dtor_pres s2 s' tmp h c2 (by omega)
            exact ⟨c3, by omega, fun ht => t3 (t2 (t1 ht))⟩

theorem weak_assign_move_pres (s s' : State) (i o : Nat)
    (h : weak_ptr.assign_move i o s = some s') (hc : s.Counted)
    (hb : s.liveHandles < 4611686018427387904) :
    s'.Counted ∧ s'.liveHandles = s.liveHandles ∧ (s.Tracked → s'.Tracked) := by
  unfold weak_ptr.assign_move at h
  cases hi : s.wk i with
  | none => simp [hi] at h
  | some a =>
    cases ho : s.wk o with
    | none => simp [hi, ho] at h
    | some x =>
      simp only [hi, ho] at h
      by_cases hio : i = o
      · simp [hio] at h
        subst h
        exact ⟨hc, rfl, fun ht => ht⟩
      · simp only [hio, if_false] at h
        cases h1 : weak_ptr.swap i o s with
        | none => simp [h1] at h
        | some s1 =>
          obtain ⟨c1, l1, t1⟩ := weak_swap_pres s s1 i o h1 hc
          simp only [h1] at h
          obtain ⟨c3, l3, t3⟩ := weak_reset_pres s1 s' o h c1 (by omega)
          exact ⟨c3, by omega, fun ht => t3 (t1 ht)⟩

theorem weak_assign_shared_pres (s s' : State) (i o : Nat)
    (h : weak_ptr.assign_shared i o s = some s') (hc : s.Counted)
    (hb : s.liveHandles < 4611686018427387904) :
    s'.Counted ∧ s'.liveHandles = s.liveHandles ∧ (s.Tracked → s'.Tracked) := by
  unfold weak_ptr.assign_shared at h
  cases hi : s.wk i with
  | none => simp [hi] at h
  | some a =>
    simp only [hi] at h
    cases h1 : weak_ptr.ctor_shared o s with
    | none => simp [h1] at h
    | some p1 =>
      obtain ⟨tmp, s1⟩ := p1
      obtain ⟨c1, l1, t1⟩ := weak_ctor_shared_pres s s1 o tmp h1 hc (by omega)
      simp only [h1] at h
      cases h2 : weak_ptr.swap i tmp s1 with
      | none => simp [h2] at h
      | some s2 =>
        obtain ⟨c2, l2, t2⟩ := weak_swap_pres s1 s2 i tmp h2 c1
        simp only [h2] at h
        obtain ⟨c3, l3, t3⟩ := weak_dtor_pres s2 s' tmp h c2 (by omega)
        exact ⟨c3, by omega, fun ht => t3 (t2 (t1 ht))⟩

theorem weak_lock_pres (s s' : State) (i r : Nat)
    (h : weak_ptr.lock i s = some (r, s')) (hc : s.Counted)
    (hb : s.liveHandles < 4611686018427387904) :
    s'.Counted ∧ s'.liveHandles = s.liveHandles + 1 ∧ (s.Tracked → s'.Tracked) := by
  unfold weak_ptr.lock at h
  cases he : weak_ptr.expired i s with
  | none => simp [he] at h
  | some e =>
    cases e with
    | true =>
      simp [he] at h
      have := shared_ctor_pres s hc
      rw [h] at this
      exact this
    | false =>
      simp only [he] at h
      obtain ⟨c1, l1, t1⟩ := shared_ctor_weak_pres s s' i r h hc (by omega)
      exact ⟨c1, l1, t1 he⟩

/-! ## Invariants of the reachable states -/

theorem step_pres (op : Op) (s s' : State) (h : step op s = some s') (hc : s.Counted)
    (hb : s.liveHandles < 4611686018427387904) :
    s'.Counted ∧ s'.liveHandles ≤ s.liveHandles + 1 ∧ (op.respects s → s.Tracked → s'.Tracked) := by
  cases op with
  | shared_ctor =>
    simp only [step, Option.some.injEq] at h; subst h
    obtain ⟨c, l, t⟩ := shared_ctor_pres s hc
    exact ⟨c, by omega, fun _ => t⟩
  | shared_ctor_nullptr =>
    simp only [step, Option.some.injEq] at h; subst h
    obtain ⟨c, l, t⟩ := shared_ctor_nullptr_pres s hc
    exact ⟨c, by omega, fun _ => t⟩
  | shared_ctor_ptr val =>
    simp only [step, Option.some.injEq] at h; subst h
    obtain ⟨c, l, t⟩ := shared_ctor_ptr_pres s val hc
    exact ⟨c, by omega, fun _ => t⟩
  | shared_ctor_deleter val d =>
    simp only [step, Option.some.injEq] at h; subst h
    obtain ⟨c, l, t⟩ := shared_ctor_deleter_pres s val d hc
    exact ⟨c, by omega, fun _ => t⟩
  | shared_ctor_copy o =>
    simp only [step, Option.map_eq_some'] at h
    obtain ⟨⟨r, s1⟩, h, rfl⟩ := h
    obtain ⟨c, l, t⟩ := shared_ctor_copy_pres s s1 o r h hc (by omega)
    exact ⟨c, (by omega : s1.liveHandles ≤ _), fun _ => t⟩
  | shared_ctor_copy_cov k o =>
    simp only [step, Option.map_eq_some'] at h
    obtain ⟨⟨r, s1⟩, h, rfl⟩ := h
    obtain ⟨c, l, t⟩ := shared_ctor_copy_cov_pres s s1 k o r h hc (by omega)
    exact ⟨c, (by omega : s1.liveHandles ≤ _), fun _ => t⟩
  | shared_ctor_weak o =>
    simp only [step, Option.map_eq_some'] at h
    obtain ⟨⟨r, s1⟩, h, rfl⟩ := h
    obtain ⟨c, l, t⟩ := shared_ctor_weak_pres s s1 o r h hc (by omega)
    exact ⟨c, (by omega : s1.liveHandles ≤ _), fun hr => t hr⟩
  | shared_ctor_move o =>
    simp only [step, Option.map_eq_some'] at h
    obtain ⟨⟨r, s1⟩, h, rfl⟩ := h
    obtain ⟨c, l, t⟩ := shared_ctor_move_pres s s1 o r h hc
    exact ⟨c, (by omega : s1.liveHandles ≤ _), fun _ => t⟩
  | shared_ctor_alias a m =>
    simp only [step, Option.map_eq_some'] at h
    obtain ⟨⟨r, s1⟩, h, rfl⟩ := h
    obtain ⟨c, l, t⟩ := shared_ctor_alias_pres s s1 a r m h hc hb
    exact ⟨c, (by omega : s1.liveHandles ≤ _), fun _ => t⟩
  | shared_assign a o =>
    obtain ⟨c, l, t⟩ := shared_assign_pres s s' a o h hc hb
    exact ⟨c, by omega, fun _ => t⟩
  | shared_assign_cov a o =>
    obtain ⟨c, l, t⟩ := shared_assign_cov_pres s s' a o h hc hb
    exact ⟨c, by omega, fun _ => t⟩
  | shared_assign_move a o =>
    obtain ⟨c, l, t⟩ := shared_assign_move_pres s s' a o h hc hb
    exact ⟨c, by omega, fun _ => t⟩
  | shared_dtor a =>
    obtain ⟨c, l, t⟩ := shared_dtor_pres s s' a h hc (by omega)
    exact ⟨c, by omega, fun _ => t⟩
  | shared_reset a =>
    obtain ⟨c, l, t⟩ := shared_reset_pres s s' a h hc hb
    exact ⟨c, by omega, fun _ => t⟩
  | shared_reset_ptr a val =>
    obtain ⟨c, l, t⟩ := shared_reset_ptr_pres s s' a val h hc hb
    exact ⟨c, by omega, fun _ => t⟩
  | shared_reset_deleter a val d =>
    obtain ⟨c, l, t⟩ := shared_reset_deleter_pres s s' a val d h hc hb
    exact ⟨c, by omega, fun _ => t⟩
  | shared_swap a o =>
    obtain ⟨c, l, t⟩ := shared_swap_pres s s' a o h hc
    exact ⟨c, by omega, fun _ => t⟩
  | make_shared args =>
    simp only [step, Option.some.injEq] at h; subst h
    obtain ⟨c, l, t⟩ := make_shared_pres s args hc
    exact ⟨c, by omega, fun _ => t⟩
  | weak_ctor =>
    simp only [step, Option.some.injEq] at h; subst h
    obtain ⟨c, l, t⟩ := weak_ctor_pres s hc
    exact ⟨c, by omega, fun _ => t⟩
  | weak_ctor_copy o =>
    simp only [step, Option.map_eq_some'] at h
    obtain ⟨⟨r, s1⟩, h, rfl⟩ := h
    obtain ⟨c, l, t⟩ := weak_ctor_copy_pres s s1 o r h hc (by omega)
    exact ⟨c, (by omega : s1.liveHandles ≤ _), fun _ => t⟩
  | weak_ctor_move o =>
    simp only [step, Option.map_eq_some'] at h
    obtain ⟨⟨r, s1⟩, h, rfl⟩ := h
    obtain ⟨c, l, t⟩ := weak_ctor_move_pres s s1 o r h hc
    exact ⟨c, (by omega : s1.liveHandles ≤ _), fun _ => t⟩
  | weak_ctor_shared o =>
    simp only [step, Option.map_eq_some'] at h
    obtain ⟨⟨r, s1⟩, h, rfl⟩ := h
    obtain ⟨c, l, t⟩ := weak_ctor_shared_pres s s1 o r h hc (by omega)
    exact ⟨c, (by omega : s1.liveHandles ≤ _), fun _ => t⟩
  | weak_assign a o =>
    obtain ⟨c, l, t⟩ := weak_assign_pres s s' a o h hc hb
    exact ⟨c, by omega, fun _ => t⟩
  | weak_assign_move a o =>
    obtain ⟨c, l, t⟩ := weak_assign_move_pres s s' a o h hc hb
    exact ⟨c, by omega, fun _ => t⟩
  | weak_assign_shared a o =>
    obtain ⟨c, l, t⟩ := weak_assign_shared_pres s s' a o h hc hb
    exact ⟨c, by omega, fun _ => t⟩
  | weak_dtor a =>
    obtain ⟨c, l, t⟩ := weak_dtor_pres s s' a h hc (by omega)
    exact ⟨c, by omega, fun _ => t⟩
  | weak_reset a =>
    obtain ⟨c, l, t⟩ := weak_reset_pres s s' a h hc hb
    exact ⟨c, by omega, fun _ => t⟩
  | weak_swap a o =>
    obtain ⟨c, l, t⟩ := weak_swap_pres s s' a o h hc
    exact ⟨c, by omega, fun _ => t⟩
  | weak_lock a =>
    simp only [step, Option.map_eq_some'] at h
    obtain ⟨⟨r, s1⟩, h, rfl⟩ := h
    obtain ⟨c, l, t⟩ := weak_lock_pres s s1 a r h hc hb
    exact ⟨c, (by omega : s1.liveHandles ≤ _), fun _ => t⟩

theorem Reachable.counted (s : State) (h : Reachable s) :
    s.Counted ∧ s.liveHandles ≤ handleCapacity := by
  induction h with
  | init => exact ⟨Counted_init, by simp [State.liveHandles, State.init]⟩
  | step s s' op _ hcap hstep ih =>
    unfold handleCapacity at *
    obtain ⟨c, l, _⟩ := step_pres op s s' hstep ih.1 (by omega)
    exact ⟨c, by omega⟩

theorem ReachableChecked.reachable (s : State) (h : ReachableChecked s) : Reachable s := by
  induction h with
  | init => exact Reachable.init
  | step s s' op _ hcap _ hstep ih => exact Reachable.step s s' op ih hcap hstep

theorem ReachableChecked.tracked (s : State) (h : ReachableChecked s) : s.Tracked := by
  induction h with
  | init => exact Tracked_init
  | step s s' op hr hcap hresp hstep ih =>
    have hc := (Reachable.counted s (ReachableChecked.reachable s hr)).1
    unfold handleCapacity at hcap
    exact (step_pres op s s' hstep hc (by omega)).2.2 hresp ih

theorem ReachableChecked_of_run (ops : List Op) (s s' : State) (hs : ReachableChecked s)
    (h : runChecked ops s = some s') : ReachableChecked s' := by
  induction ops generalizing s with
  | nil =>
    simp [runChecked] at h
    subst h
    exact hs
  | cons op rest ih =>
    unfold runChecked at h
    by_cases hg : s.liveHandles < handleCapacity ∧ op.respects s
    · simp only [hg, and_self, if_true] at h
      cases hst : step op s with
      | none => simp [hst] at h
      | some s1 =>
        simp only [hst] at h
        exact ih s1 (ReachableChecked.step s s1 op hs hg.1 hg.2 hst) h
    · simp only [hg, if_false] at h
      cases h

/-! ## The destructor of `shared_ptr` -/

/-- The destructor for a payload whose destruction performs no handle
operation: the strong count `n ≥ 1` is left at `n - 1` and the weak count `w`
as it is, `destroy()` is called exactly when `n = 1`, and the block is
deallocated exactly when `n = 1` and `w = 0`; destroying a handle without a
block changes no block and calls nothing. -/
theorem shared_ptr.dtor_spec (s : State) (self : Nat) (h : shared_ptr)
    (hlive : s.sh self = some h) :
    (∀ (b n w : Nat) (blk : base_control_block_), h.ptr_manager = some b →
      s.deref b = some blk → blk.shared_ptr_counter = n → blk.weak_ptr_counter = w →
      1 ≤ n → n < 18446744073709551616 →
      ∃ s' blk', shared_ptr.dtor self s = some s' ∧ s'.blocks[b]? = some blk' ∧
        blk'.shared_ptr_counter = n - 1 ∧ blk'.weak_ptr_counter = w ∧
        s'.destroyCalls b = s.destroyCalls b + (if n = 1 then 1 else 0) ∧
        s'.deallocs b = s.deallocs b + (if n = 1 ∧ w = 0 then 1 else 0) ∧
        (blk'.freed = true ↔ (n = 1 ∧ w = 0)) ∧
        s'.sh self = none) ∧
    (h.ptr_manager = none →
      ∃ s', shared_ptr.dtor self s = some s' ∧ s'.blocks = s.blocks ∧ s'.trace = s.trace ∧
        s'.sh self = none) := by
  have hlt : self < s.shared.length := by
    unfold State.sh at hlive
    by_contra hc
    rw [List.getElem?_eq_none (by omega)] at hlive
    simp at hlive
  have hgone : ∀ t : State, t.shared = s.shared → (t.setShared self none).sh self = none := by
    intro t ht
    simp [State.sh, State.setShared, ht, List.getElem?_set, hlt]
  refine ⟨?_, ?_⟩
  · intro b n w blk hb hblk hn hw h1 hmax
    have hget : s.blocks[b]? = some blk ∧ blk.freed = false := by
      unfold State.deref at hblk
      cases hq : s.blocks[b]? with
      | none => simp [hq] at hblk
      | some x =>
        simp [hq] at hblk
        obtain ⟨hf, hx⟩ := hblk
        subst hx
        exact ⟨rfl, hf⟩
    obtain ⟨hget, hfr⟩ := hget
    have hblt : b < s.blocks.length := by
      by_contra hc
      rw [List.getElem?_eq_none (by omega)] at hget
      simp at hget
    have hdec : size_t_dec blk.shared_ptr_counter = n - 1 := by
      rw [hn]; exact size_t_dec_of_pos n h1 hmax
    unfold shared_ptr.dtor
    simp only [hlive, hb, hblk, hdec]
    by_cases hn1 : n = 1
    · subst hn1
      by_cases hw0 : w = 0
      · subst hw0
        cases hd : blk.derived with
        | control_block p d =>
          simp [hw, hd, base_control_block_.destroy, base_control_block_.delete, State.store,
            State.emit, State.setShared, State.destroyCalls, State.deallocs, State.sh, hblt, hlt,
            List.getElem?_set, List.count_cons, List.count_nil]
        | inplace_control_block a =>
          simp [hw, hd, base_control_block_.destroy, base_control_block_.delete, State.store,
            State.emit, State.setShared, State.destroyCalls, State.deallocs, State.sh, hblt, hlt,
            List.getElem?_set, List.count_cons, List.count_nil]
      · cases hd : blk.derived with
        | control_block p d =>
          simp [hw, hw0, hd, hfr, base_control_block_.destroy, State.store,
            State.emit, State.setShared, State.destroyCalls, State.deallocs, State.sh, hblt, hlt,
            List.getElem?_set, List.count_cons, List.count_nil]
        | inplace_control_block a =>
          simp [hw, hw0, hd, hfr, base_control_block_.destroy, State.store,
            State.emit, State.setShared, State.destroyCalls, State.deallocs, State.sh, hblt, hlt,
            List.getElem?_set, List.count_cons, List.count_nil]
    · have hne : n - 1 ≠ 0 := by omega
      simp [hne, hn1, hw, hfr, State.store, State.setShared, State.destroyCalls, State.deallocs,
        State.sh, hblt, hlt, List.getElem?_set]
  · intro hnone
    unfold shared_ptr.dtor
    simp only [hlive, hnone]
    exact ⟨_, rfl, rfl, rfl, hgone s rfl⟩

/-! ## The destructor of `weak_ptr` -/

/-- C2 (evaluation of the code): an owner and an observer of object 7; the
owner is destroyed, then the observer.  Both counters of the block are then
zero, yet the block has not been deallocated and no deallocation is logged:
`~weak_ptr()` decrements the weak count and stops. -/
theorem weak_ptr_dtor_leaves_block_allocated :
    ∃ s, run observerDestroyedLast State.init = some s ∧
      s.blocks[0]? = some ⟨0, 0, Derived.control_block Addr.null 0, false⟩ ∧
      s.deallocs 0 = 0 ∧ s.strongRefs 0 = 0 ∧ s.weakRefs 0 = 0 :=
  ⟨_, rfl, rfl, rfl, rfl, rfl⟩

/-- The destructor `~weak_ptr()` never deallocates: it logs nothing and frees
no block, whatever the counters are. -/
theorem weak_ptr_dtor_never_deallocates (s s' : State) (i : Nat)
    (h : weak_ptr.dtor i s = some s') :
    s'.trace = s.trace ∧ s'.blocks.map (fun x => x.freed) = s.blocks.map (fun x => x.freed) := by
  unfold weak_ptr.dtor at h
  cases hi : s.wk i with
  | none => simp [hi] at h
  | some x =>
    cases hm : x.ptr_manager with
    | none =>
      simp [hi, hm] at h
      subst h
      exact ⟨rfl, rfl⟩
    | some b =>
      cases hd : s.deref b with
      | none => simp [hi, hm, hd] at h
      | some blk =>
        simp only [hi, hm, hd] at h
        injection h with h
        subst h
        refine ⟨rfl, ?_⟩
        obtain ⟨hget, hfr⟩ := (State.deref_eq_some s b blk).1 hd
        simp only [State.setWeak, State.store]
        apply List.ext_getElem?
        intro n
        simp only [List.getElem?_map, List.getElem?_set]
        by_cases hbn : b = n
        · subst hbn
          simp [getElem?_lt_of_eq_some _ _ _ hget, hget]
        · simp [hbn]

/-! ## Counting and lifetime invariants -/

/-- C4: in every reachable state, for every block that has not been
deallocated, the strong count equals the number of live `shared_ptr` objects
whose block link is that block (aliasing and upcast copies included). -/
theorem strong_count_eq_live_shared (s : State) (hr : Reachable s) (b : Nat)
    (blk : base_control_block_) (hb : s.blocks[b]? = some blk) (hf : blk.freed = false) :
    blk.shared_ptr_counter = s.strongRefs b :=
  (((Reachable.counted s hr).1 b).1 blk ((State.deref_eq_some s b blk).2 ⟨hb, hf⟩)).1

/-- Witness for C4: after constructing an owner and copying it, the block
counts two owners. -/
theorem strong_count_eq_live_shared_witness :
    ∃ s, runChecked ownerAndCopy State.init = some s ∧
      (2 : Nat) = s.strongRefs 0 :=
  ⟨_, rfl, strong_count_eq_live_shared _
    (ReachableChecked.reachable _
      (ReachableChecked_of_run ownerAndCopy State.init _ ReachableChecked.init rfl)) 0
    ⟨2, 0, Derived.control_block (Addr.obj 7) 0, false⟩ rfl rfl⟩

/-- C5: in every reachable state, for every block that has not been
deallocated, the weak count equals the number of live `weak_ptr` objects whose
block link is that block. -/
theorem weak_count_eq_live_weak (s : State) (hr : Reachable s) (b : Nat)
    (blk : base_control_block_) (hb : s.blocks[b]? = some blk) (hf : blk.freed = false) :
    blk.weak_ptr_counter = s.weakRefs b :=
  (((Reachable.counted s hr).1 b).1 blk ((State.deref_eq_some s b blk).2 ⟨hb, hf⟩)).2

/-- Witness for C5: an owner and one observer. -/
theorem weak_count_eq_live_weak_witness :
    ∃ s, runChecked ownerAndObserver State.init = some s ∧
      (1 : Nat) = s.weakRefs 0 :=
  ⟨_, rfl, weak_count_eq_live_weak _
    (ReachableChecked.reachable _
      (ReachableChecked_of_run ownerAndObserver State.init _ ReachableChecked.init rfl)) 0
    ⟨1, 1, Derived.control_block (Addr.obj 7) 0, false⟩ rfl rfl⟩

/-- C7: in every state reached by operations that respect their
preconditions, for every block that has not been deallocated, `destroy()` has
been called on the block if and only if its strong count is zero (and then
exactly once); a block with strong count zero and a positive weak count has
not been deallocated and has its payload destroyed. -/
theorem payload_destroyed_iff_strong_zero (s : State) (hr : ReachableChecked s) (b : Nat)
    (blk : base_control_block_) (hb : s.blocks[b]? = some blk) :
    (blk.freed = false → (0 < s.destroyCalls b ↔ blk.shared_ptr_counter = 0)) ∧
    s.destroyCalls b ≤ 1 ∧
    (blk.shared_ptr_counter = 0 → 0 < blk.weak_ptr_counter →
      blk.freed = false ∧ s.destroyCalls b = 1) := by
  obtain ⟨u1, u2, _, _, _⟩ := (ReachableChecked.tracked s hr).2 b blk hb
  refine ⟨?_, ?_, ?_⟩
  · intro _
    rw [u2]
    by_cases hz : blk.shared_ptr_counter = 0 <;> simp [hz]
  · rw [u2]
    by_cases hz : blk.shared_ptr_counter = 0 <;> simp [hz]
  · intro hz hw
    refine ⟨?_, by rw [u2]; simp [hz]⟩
    cases hf : blk.freed with
    | false => rfl
    | true =>
      have := (u1 hf).2
      omega

/-- Witness for C7: once the only owner is gone while an observer remains, the
block is still there and `destroy()` has run once. -/
theorem payload_destroyed_iff_strong_zero_witness :
    ∃ s, runChecked observerOutlives State.init = some s ∧
      s.blocks[0]? = some ⟨0, 1, Derived.control_block Addr.null 0, false⟩ ∧
      s.destroyCalls 0 = 1 :=
  ⟨_, rfl, rfl,
    ((payload_destroyed_iff_strong_zero _
      (ReachableChecked_of_run observerOutlives State.init _ ReachableChecked.init rfl) 0
      ⟨0, 1, Derived.control_block Addr.null 0, false⟩ rfl).2.2 rfl (by decide)).2⟩

/-- C3: in every state reached by operations that respect their
preconditions, a block wrapping a raw address `a` with deleter `d` has called
its deleter not at all while a live `shared_ptr` is linked to it, and exactly
once, on `a`, from the moment no live `shared_ptr` is linked to it: whether or
not `weak_ptr` objects remain and whether or not the block has been
deallocated since. -/
theorem deleter_called_exactly_once (s : State) (hr : ReachableChecked s) (b : Nat)
    (blk : base_control_block_) (p : Addr) (d : Nat) (hb : s.blocks[b]? = some blk)
    (hder : blk.derived = Derived.control_block p d) :
    ∃ a, Event.alloc b (Derived.control_block a d) ∈ s.trace ∧
      s.deleterCalls b = (if s.strongRefs b = 0 then [Event.deleter b d a] else []) ∧
      s.destroyCalls b = (if s.strongRefs b = 0 then 1 else 0) ∧
      p = (if s.strongRefs b = 0 then Addr.null else a) := by
  obtain ⟨u1, u2, _, ⟨dv, hdv⟩, u5⟩ := (ReachableChecked.tracked s hr).2 b blk hb
  have hc := (Reachable.counted s (ReachableChecked.reachable s hr)).1 b
  have hz : blk.shared_ptr_counter = 0 ↔ s.strongRefs b = 0 := by
    cases hf : blk.freed with
    | false =>
      rw [(hc.1 blk ((State.deref_eq_some s b blk).2 ⟨hb, hf⟩)).1]
    | true =>
      have h0 := (u1 hf).1
      have hd : s.deref b = none := by
        unfold State.deref
        simp [hb, hf]
      have := (hc.2 hd).1
      constructor <;> intro _ <;> assumption
  have hp := u5 dv hdv
  unfold payloadTracked at hp
  cases dv with
  | control_block a dd =>
    simp only at hp
    by_cases h0 : blk.shared_ptr_counter = 0
    · simp only [h0, if_true, hder] at hp
      obtain ⟨_, hp2, hp3⟩ := hp
      injection hp2 with hpa hpd
      subst hpa; subst hpd
      refine ⟨a, hdv, ?_, ?_, ?_⟩
      · simp [hz.1 h0, hp3]
      · simp [hz.1 h0, u2, h0]
      · simp [hz.1 h0]
    · have h1 : ¬ s.strongRefs b = 0 := fun hq => h0 (hz.2 hq)
      simp only [h0, if_false, hder] at hp
      obtain ⟨_, hp2, hp3⟩ := hp
      injection hp2 with hpa hpd
      subst hpa; subst hpd
      refine ⟨p, hdv, ?_, ?_, ?_⟩
      · simp [h1, hp3]
      · simp [h1, u2, h0]
      · simp [h1]
  | inplace_control_block args =>
    simp only at hp
    rw [hder] at hp
    cases hp.1

/-- Witness for C3: the only owner of object 7 is destroyed while an observer
remains, then the observer is destroyed; the deleter ran once, on object 7. -/
theorem deleter_called_exactly_once_witness :
    ∃ s, runChecked observerDestroyedLast State.init = some s ∧
      ∃ a, Event.alloc 0 (Derived.control_block a 0) ∈ s.trace ∧
        s.deleterCalls 0 = (if s.strongRefs 0 = 0 then [Event.deleter 0 0 a] else []) ∧
        s.destroyCalls 0 = (if s.strongRefs 0 = 0 then 1 else 0) ∧
        Addr.null = (if s.strongRefs 0 = 0 then Addr.null else a) :=
  ⟨_, rfl, deleter_called_exactly_once _
    (ReachableChecked_of_run observerDestroyedLast State.init _ ReachableChecked.init rfl) 0
    ⟨0, 0, Derived.control_block Addr.null 0, false⟩ Addr.null 0 rfl rfl⟩

/-! ## `lock()` and copy construction -/

theorem State.sh_pushShared_new (s : State) (h : shared_ptr) :
    (s.pushShared h).sh s.shared.length = some h := by
  simp [State.sh, State.pushShared]

theorem State.sh_pushShared_old (s : State) (h x : shared_ptr) (i : Nat)
    (hi : s.sh i = some x) : (s.pushShared h).sh i = some x := by
  rw [State.sh_eq_some] at hi ⊢
  have hlt := getElem?_lt_of_eq_some _ _ _ hi
  simp only [State.pushShared]
  rw [List.getElem?_append_left hlt]
  exact hi

theorem Reachable.deref_of_weak (s : State) (hr : Reachable s) (w b : Nat) (wh : weak_ptr)
    (hw : s.wk w = some wh) (hm : wh.ptr_manager = some b) :
    ∃ blk, s.deref b = some blk ∧ blk.shared_ptr_counter = s.strongRefs b ∧
      blk.weak_ptr_counter = s.weakRefs b ∧ blk.shared_ptr_counter ≤ handleCapacity ∧
      blk.weak_ptr_counter ≤ handleCapacity := by
  obtain ⟨hc, hl⟩ := Reachable.counted s hr
  have hpos := s.weakRefs_pos w b wh hw hm
  cases hd : s.deref b with
  | none =>
    have := ((hc b).2 hd).2
    omega
  | some blk =>
    have h1 := (hc b).1 blk hd
    have h2 := s.strongRefs_le_live b
    have h3 := s.weakRefs_le_live b
    exact ⟨blk, rfl, h1.1, h1.2, by omega, by omega⟩

theorem Reachable.deref_of_shared (s : State) (hr : Reachable s) (i b : Nat) (x : shared_ptr)
    (hi : s.sh i = some x) (hm : x.ptr_manager = some b) :
    ∃ blk, s.deref b = some blk ∧ blk.shared_ptr_counter = s.strongRefs b ∧
      blk.weak_ptr_counter = s.weakRefs b ∧ 1 ≤ blk.shared_ptr_counter ∧
      blk.shared_ptr_counter ≤ handleCapacity ∧ blk.weak_ptr_counter ≤ handleCapacity := by
  obtain ⟨hc, hl⟩ := Reachable.counted s hr
  have hpos := s.strongRefs_pos i b x hi hm
  cases hd : s.deref b with
  | none =>
    have := ((hc b).2 hd).1
    omega
  | some blk =>
    have h1 := (hc b).1 blk hd
    have h2 := s.strongRefs_le_live b
    have h3 := s.weakRefs_le_live b
    exact ⟨blk, rfl, h1.1, h1.2, by omega, by omega, by omega⟩

theorem toLong_eq_zero_iff (c : Nat) (h : c < 9223372036854775808) : toLong c = 0 ↔ c = 0 := by
  rw [toLong_of_lt c h]
  omega

/-- C6: `lock()` in a reachable state.  On a `weak_ptr` without a block, or
whose block has strong count zero, it returns an empty `shared_ptr`
(`get()` null, `use_count()` zero) and changes no block and logs nothing;
otherwise it returns a `shared_ptr` with the observed address and block of the
`weak_ptr`, the strong count being the prior `use_count()` plus one and the
weak count unchanged. -/
theorem weak_ptr_lock_contract (s : State) (hr : Reachable s) (w : Nat) (wh : weak_ptr)
    (hw : s.wk w = some wh) :
    (wh.ptr_manager = none →
      weak_ptr.expired w s = some true ∧
      ∃ r s', weak_ptr.lock w s = some (r, s') ∧ s'.sh r = some ⟨Addr.null, none⟩ ∧
        shared_ptr.get r s' = some Addr.null ∧ shared_ptr.use_count r s' = some 0 ∧
        s'.blocks = s.blocks ∧ s'.trace = s.trace) ∧
    (∀ b, wh.ptr_manager = some b →
      ∃ blk, s.deref b = some blk ∧
        weak_ptr.use_count w s = some (blk.shared_ptr_counter : Int) ∧
        (blk.shared_ptr_counter = 0 →
          weak_ptr.expired w s = some true ∧
          ∃ r s', weak_ptr.lock w s = some (r, s') ∧ s'.sh r = some ⟨Addr.null, none⟩ ∧
            shared_ptr.get r s' = some Addr.null ∧ shared_ptr.use_count r s' = some 0 ∧
            s'.blocks = s.blocks ∧ s'.trace = s.trace) ∧
        (blk.shared_ptr_counter ≠ 0 →
          weak_ptr.expired w s = some false ∧
          ∃ r s' blk', weak_ptr.lock w s = some (r, s') ∧
            s'.sh r = some ⟨wh.ptr, some b⟩ ∧ shared_ptr.get r s' = some wh.ptr ∧
            s'.deref b = some blk' ∧
            blk'.shared_ptr_counter = blk.shared_ptr_counter + 1 ∧
            shared_ptr.use_count r s' = some ((blk.shared_ptr_counter : Int) + 1) ∧
            blk'.weak_ptr_counter = blk.weak_ptr_counter ∧
            (∀ b', b' ≠ b → s'.blocks[b']? = s.blocks[b']?) ∧ s'.trace = s.trace)) := by
  have hempty : ∃ r s', some (shared_ptr.ctor s) = some (r, s') ∧
      s'.sh r = some ⟨Addr.null, none⟩ ∧
      shared_ptr.get r s' = some Addr.null ∧ shared_ptr.use_count r s' = some 0 ∧
      s'.blocks = s.blocks ∧ s'.trace = s.trace := by
    refine ⟨s.shared.length, s.pushShared ⟨Addr.null, none⟩, rfl,
      State.sh_pushShared_new s _, ?_, ?_, rfl, rfl⟩
    · simp [shared_ptr.get, State.sh_pushShared_new]
    · simp [shared_ptr.use_count, State.sh_pushShared_new]
  constructor
  · intro hm
    have he : weak_ptr.expired w s = some true := by
      simp [weak_ptr.expired, weak_ptr.use_count, hw, hm]
    refine ⟨he, ?_⟩
    unfold weak_ptr.lock
    simp only [he]
    exact hempty
  · intro b hm
    obtain ⟨blk, hd, _, _, hle, _⟩ := Reachable.deref_of_weak s hr w b wh hw hm
    unfold handleCapacity at hle
    have hlong : toLong blk.shared_ptr_counter = (blk.shared_ptr_counter : Int) :=
      toLong_of_lt _ (by omega)
    have huse : weak_ptr.use_count w s = some (blk.shared_ptr_counter : Int) := by
      simp [weak_ptr.use_count, hw, hm, hd, hlong]
    refine ⟨blk, hd, huse, ?_, ?_⟩
    · intro hz
      have he : weak_ptr.expired w s = some true := by
        simp [weak_ptr.expired, huse, hz]
      refine ⟨he, ?_⟩
      unfold weak_ptr.lock
      simp only [he]
      exact hempty
    · intro hnz
      have he : weak_ptr.expired w s = some false := by
        simp [weak_ptr.expired, huse]
        omega
      refine ⟨he, ?_⟩
      unfold weak_ptr.lock
      simp only [he]
      obtain ⟨hget, hfr⟩ := (State.deref_eq_some s b blk).1 hd
      have hlt := getElem?_lt_of_eq_some _ _ _ hget
      have hinc : size_t_inc blk.shared_ptr_counter = blk.shared_ptr_counter + 1 :=
        size_t_inc_of_lt _ (by omega)
      have hlong' : toLong (blk.shared_ptr_counter + 1) = (blk.shared_ptr_counter : Int) + 1 := by
        rw [toLong_of_lt _ (by omega)]
        push_cast
        rfl
      have hnew : ((s.store b
          { blk with shared_ptr_counter := blk.shared_ptr_counter + 1 }).pushShared
          ⟨wh.ptr, some b⟩).sh s.shared.length = some ⟨wh.ptr, some b⟩ :=
        State.sh_pushShared_new (s.store b _) _
      refine ⟨s.shared.length,
        (s.store b { blk with shared_ptr_counter := blk.shared_ptr_counter + 1 }).pushShared
          ⟨wh.ptr, some b⟩,
        { blk with shared_ptr_counter := blk.shared_ptr_counter + 1 }, ?_, ?_, ?_, ?_, rfl, ?_,
        rfl, ?_, ?_⟩
      · simp [shared_ptr.ctor_weak, hw, hm, hd, hinc]
      · exact hnew
      · simp [shared_ptr.get, hnew]
      · simp [State.deref_store, hlt, hfr]
      · simp only [shared_ptr.use_count, hnew]
        simp [State.deref_store, hlt, hfr, hlong']
      · intro b' hb'
        simp [State.pushShared, State.store, List.getElem?_set, Ne.symm hb']
      · rfl

/-- Witness for C6: with an owner alive, `lock()` on its observer shares the
block and raises the strong count from 1 to 2. -/
theorem weak_ptr_lock_contract_witness :
    ∃ s, runChecked ownerAndObserver State.init = some s ∧
      ∃ blk, s.deref 0 = some blk ∧
        weak_ptr.use_count 0 s = some (blk.shared_ptr_counter : Int) ∧
        (blk.shared_ptr_counter = 0 →
          weak_ptr.expired 0 s = some true ∧
          ∃ r s', weak_ptr.lock 0 s = some (r, s') ∧ s'.sh r = some ⟨Addr.null, none⟩ ∧
            shared_ptr.get r s' = some Addr.null ∧ shared_ptr.use_count r s' = some 0 ∧
            s'.blocks = s.blocks ∧ s'.trace = s.trace) ∧
        (blk.shared_ptr_counter ≠ 0 →
          weak_ptr.expired 0 s = some false ∧
          ∃ r s' blk', weak_ptr.lock 0 s = some (r, s') ∧
            s'.sh r = some ⟨Addr.obj 7, some 0⟩ ∧ shared_ptr.get r s' = some (Addr.obj 7) ∧
            s'.deref 0 = some blk' ∧
            blk'.shared_ptr_counter = blk.shared_ptr_counter + 1 ∧
            shared_ptr.use_count r s' = some ((blk.shared_ptr_counter : Int) + 1) ∧
            blk'.weak_ptr_counter = blk.weak_ptr_counter ∧
            (∀ b', b' ≠ 0 → s'.blocks[b']? = s.blocks[b']?) ∧ s'.trace = s.trace) :=
  ⟨_, rfl, (weak_ptr_lock_contract _
    (ReachableChecked.reachable _
      (ReachableChecked_of_run ownerAndObserver State.init _ ReachableChecked.init rfl)) 0
    ⟨Addr.obj 7, some 0⟩ rfl).2 0 rfl⟩

theorem Addr.toBase_zero (a : Addr) : Addr.toBase 0 a = a := by
  simp [Addr.toBase]

theorem Addr.toBase_null (k : Nat) : Addr.toBase k Addr.null = Addr.null := by
  simp [Addr.toBase]

theorem Addr.toBase_eq_null (k : Nat) (a : Addr) : Addr.toBase k a = Addr.null ↔ a = Addr.null := by
  unfold Addr.toBase
  by_cases h : a = Addr.null ∨ k = 0
  · simp only [h, if_true]
  · simp only [h, if_false]
    constructor
    · intro hq; cases hq
    · intro hq; exact absurd (Or.inl hq) h

theorem Addr.baseAt_ne (a : Addr) (k : Nat) : Addr.baseAt a k ≠ a := by
  intro h
  have := congrArg sizeOf h
  simp at this
  omega

theorem Addr.toBase_eq_self (k : Nat) (a : Addr) :
    Addr.toBase k a = a ↔ (a = Addr.null ∨ k = 0) := by
  unfold Addr.toBase
  by_cases h : a = Addr.null ∨ k = 0
  · simp only [h, if_true]
  · simp only [h, if_false, iff_false]
    exact Addr.baseAt_ne a k

theorem shared_ptr.ctor_copy_cov_zero (o : Nat) (s : State) :
    shared_ptr.ctor_copy_cov 0 o s = shared_ptr.ctor_copy o s := by
  unfold shared_ptr.ctor_copy_cov shared_ptr.ctor_copy
  simp only [Addr.toBase_zero]

/-- The covariant copy constructor in a reachable state, for every offset of
the base subobject. -/
theorem shared_ptr.ctor_copy_cov_spec (s : State) (hr : Reachable s) (k : Nat)
    (o : Nat) (x : shared_ptr) (ho : s.sh o = some x) :
    (x.ptr_manager = none →
      ∃ r s', shared_ptr.ctor_copy_cov k o s = some (r, s') ∧
        s'.sh r = some ⟨Addr.toBase k x.ptr, none⟩ ∧ s'.sh o = some x ∧
        shared_ptr.use_count r s' = some 0 ∧ s'.blocks = s.blocks ∧ s'.trace = s.trace) ∧
    (∀ b, x.ptr_manager = some b →
      ∃ blk, s.deref b = some blk ∧ 1 ≤ blk.shared_ptr_counter ∧
        shared_ptr.use_count o s = some (blk.shared_ptr_counter : Int) ∧
        ∃ r s' blk', shared_ptr.ctor_copy_cov k o s = some (r, s') ∧ r ≠ o ∧
          s'.sh r = some ⟨Addr.toBase k x.ptr, some b⟩ ∧ s'.sh o = some x ∧
          s'.deref b = some blk' ∧
          blk'.shared_ptr_counter = blk.shared_ptr_counter + 1 ∧
          shared_ptr.use_count o s' = some ((blk.shared_ptr_counter : Int) + 1) ∧
          shared_ptr.use_count r s' = some ((blk.shared_ptr_counter : Int) + 1) ∧
          blk'.weak_ptr_counter = blk.weak_ptr_counter ∧
          (∀ b', b' ≠ b → s'.blocks[b']? = s.blocks[b']?) ∧ s'.trace = s.trace) := by
  have holt : o < s.shared.length :=
    getElem?_lt_of_eq_some _ _ _ ((State.sh_eq_some s o x).1 ho)
  constructor
  · intro hm
    refine ⟨s.shared.length, s.pushShared ⟨Addr.toBase k x.ptr, none⟩, ?_, ?_, ?_, ?_, rfl, rfl⟩
    · simp [shared_ptr.ctor_copy_cov, ho, hm]
    · rw [State.sh_pushShared_new]
    · exact State.sh_pushShared_old s _ x o ho
    · simp [shared_ptr.use_count, State.sh_pushShared_new]
  · intro b hm
    obtain ⟨blk, hd, _, _, hpos, hle, _⟩ := Reachable.deref_of_shared s hr o b x ho hm
    unfold handleCapacity at hle
    have hlong : toLong blk.shared_ptr_counter = (blk.shared_ptr_counter : Int) :=
      toLong_of_lt _ (by omega)
    have hlong' : toLong (blk.shared_ptr_counter + 1) = (blk.shared_ptr_counter : Int) + 1 := by
      rw [toLong_of_lt _ (by omega)]
      push_cast
      rfl
    obtain ⟨hget, hfr⟩ := (State.deref_eq_some s b blk).1 hd
    have hlt := getElem?_lt_of_eq_some _ _ _ hget
    have hinc : size_t_inc blk.shared_ptr_counter = blk.shared_ptr_counter + 1 :=
      size_t_inc_of_lt _ (by omega)
    have hnew : ((s.store b
        { blk with shared_ptr_counter := blk.shared_ptr_counter + 1 }).pushShared
        ⟨Addr.toBase k x.ptr, some b⟩).sh s.shared.length =
          some ⟨Addr.toBase k x.ptr, some b⟩ :=
      State.sh_pushShared_new (s.store b _) _
    have hold : ((s.store b
        { blk with shared_ptr_counter := blk.shared_ptr_counter + 1 }).pushShared
        ⟨Addr.toBase k x.ptr, some b⟩).sh o = some x :=
      State.sh_pushShared_old (s.store b _) _ x o ho
    refine ⟨blk, hd, hpos, ?_, s.shared.length,
      (s.store b { blk with shared_ptr_counter := blk.shared_ptr_counter + 1 }).pushShared
        ⟨Addr.toBase k x.ptr, some b⟩,
      { blk with shared_ptr_counter := blk.shared_ptr_counter + 1 }, ?_, ?_, hnew, hold, ?_, rfl,
      ?_, ?_, rfl, ?_, rfl⟩
    · simp [shared_ptr.use_count, ho, hm, hd, hlong]
    · simp [shared_ptr.ctor_copy_cov, ho, hm, hd, hinc]
    · omega
    · simp [State.deref_store, hlt, hfr]
    · simp only [shared_ptr.use_count, hold, hm]
      simp [State.deref_store, hlt, hfr, hlong']
    · simp only [shared_ptr.use_count, hnew]
      simp [State.deref_store, hlt, hfr, hlong']
    · intro b' hb'
      simp [State.pushShared, State.store, List.getElem?_set, Ne.symm hb']

/-- C8 as stated fails for the covariant copy: copying the only owner of
object 7 into a handle of a base class that lies 16 bytes into the object
gives a handle on the same block with `use_count()` 2 through both handles,
but its observed address is that of the base subobject, not the address the
source observes. -/
theorem covariant_copy_observes_base_subobject :
    shared_ptr.get 0 soleOwner = some (Addr.obj 7) ∧
    (shared_ptr.ctor_copy_cov 16 0 soleOwner).map
        (fun p => (p.1, shared_ptr.get p.1 p.2, shared_ptr.get 0 p.2, p.2.sh p.1,
          shared_ptr.use_count p.1 p.2, shared_ptr.use_count 0 p.2)) =
      some (1, some (Addr.baseAt (Addr.obj 7) 16), some (Addr.obj 7),
        some ⟨Addr.baseAt (Addr.obj 7) 16, some 0⟩, some 2, some 2) ∧
    Addr.baseAt (Addr.obj 7) 16 ≠ Addr.obj 7 :=
  ⟨rfl, rfl, by decide⟩

/-- C8 (amended): copy construction in a reachable state.  The same-type copy
of a source without a block has no block and changes no block; of a source
linked to a block with `use_count() = n` it has the same observed address and
block, `use_count()` read through either handle is `n + 1`, and the weak count
is unchanged.  The covariant copy, into a handle of a base class that lies `k`
bytes into the source's class, does the same to blocks and counts, and its
observed address is the source's address converted to the base class: null
when the source's is null, the same address when `k = 0`, and otherwise the
address of the base subobject, which differs from the source's. -/
theorem shared_ptr_copy_contract (s : State) (hr : Reachable s) (k : Nat)
    (o : Nat) (x : shared_ptr) (ho : s.sh o = some x) :
    ((x.ptr_manager = none →
      ∃ r s', shared_ptr.ctor_copy o s = some (r, s') ∧ s'.sh r = some x ∧ s'.sh o = some x ∧
        shared_ptr.use_count r s' = some 0 ∧ s'.blocks = s.blocks ∧ s'.trace = s.trace) ∧
    (∀ b, x.ptr_manager = some b →
      ∃ blk, s.deref b = some blk ∧ 1 ≤ blk.shared_ptr_counter ∧
        shared_ptr.use_count o s = some (blk.shared_ptr_counter : Int) ∧
        ∃ r s' blk', shared_ptr.ctor_copy o s = some (r, s') ∧ r ≠ o ∧ s'.sh r = some x ∧
          s'.sh o = some x ∧ s'.deref b = some blk' ∧
          blk'.shared_ptr_counter = blk.shared_ptr_counter + 1 ∧
          shared_ptr.use_count o s' = some ((blk.shared_ptr_counter : Int) + 1) ∧
          shared_ptr.use_count r s' = some ((blk.shared_ptr_counter : Int) + 1) ∧
          blk'.weak_ptr_counter = blk.weak_ptr_counter ∧
          (∀ b', b' ≠ b → s'.blocks[b']? = s.blocks[b']?) ∧ s'.trace = s.trace)) ∧
    ((x.ptr_manager = none →
      ∃ r s', shared_ptr.ctor_copy_cov k o s = some (r, s') ∧
        s'.sh r = some ⟨Addr.toBase k x.ptr, none⟩ ∧ s'.sh o = some x ∧
        shared_ptr.use_count r s' = some 0 ∧ s'.blocks = s.blocks ∧ s'.trace = s.trace) ∧
    (∀ b, x.ptr_manager = some b →
      ∃ blk, s.deref b = some blk ∧ 1 ≤ blk.shared_ptr_counter ∧
        shared_ptr.use_count o s = some (blk.shared_ptr_counter : Int) ∧
        ∃ r s' blk', shared_ptr.ctor_copy_cov k o s = some (r, s') ∧ r ≠ o ∧
          s'.sh r = some ⟨Addr.toBase k x.ptr, some b⟩ ∧
          shared_ptr.get r s' = some (Addr.toBase k x.ptr) ∧ s'.sh o = some x ∧
          s'.deref b = some blk' ∧
          blk'.shared_ptr_counter = blk.shared_ptr_counter + 1 ∧
          shared_ptr.use_count o s' = some ((blk.shared_ptr_counter : Int) + 1) ∧
          shared_ptr.use_count r s' = some ((blk.shared_ptr_counter : Int) + 1) ∧
          blk'.weak_ptr_counter = blk.weak_ptr_counter ∧
          (∀ b', b' ≠ b → s'.blocks[b']? = s.blocks[b']?) ∧ s'.trace = s.trace)) ∧
    ((Addr.toBase k x.ptr = Addr.null ↔ x.ptr = Addr.null) ∧
      (Addr.toBase k x.ptr = x.ptr ↔ (x.ptr = Addr.null ∨ k = 0)) ∧
      (x.ptr ≠ Addr.null → k ≠ 0 → Addr.toBase k x.ptr = Addr.baseAt x.ptr k)) := by
  have hcov := shared_ptr.ctor_copy_cov_spec s hr k o x ho
  have hsame := shared_ptr.ctor_copy_cov_spec s hr 0 o x ho
  simp only [shared_ptr.ctor_copy_cov_zero, Addr.toBase_zero] at hsame
  refine ⟨⟨?_, ?_⟩, ⟨hcov.1, ?_⟩, Addr.toBase_eq_null k x.ptr, Addr.toBase_eq_self k x.ptr, ?_⟩
  · intro hm
    have hx : x = ⟨x.ptr, none⟩ := by cases x; simp at hm; simp [hm]
    obtain ⟨r, s', h1, h2, h3⟩ := hsame.1 hm
    exact ⟨r, s', h1, by rw [h2, ← hx], h3⟩
  · intro b hm
    have hx : x = ⟨x.ptr, some b⟩ := by cases x; simp at hm; simp [hm]
    obtain ⟨blk, h1, h2, h3, r, s', blk', h4, h5, h6, h7⟩ := hsame.2 b hm
    exact ⟨blk, h1, h2, h3, r, s', blk', h4, h5, by rw [h6, ← hx], h7⟩
  · intro b hm
    obtain ⟨blk, h1, h2, h3, r, s', blk', h4, h5, h6, h7⟩ := hcov.2 b hm
    exact ⟨blk, h1, h2, h3, r, s', blk', h4, h5, h6, by simp [shared_ptr.get, h6], h7⟩
  · intro hn hk
    simp [Addr.toBase, hn, hk]

/-- Witness for C8 (amended): copying the only owner of object 7 into a handle
of a base class 16 bytes into the object gives two handles with `use_count()`
2, the copy observing the base subobject. -/
theorem shared_ptr_copy_contract_witness :
    ∃ blk, soleOwner.deref 0 = some blk ∧ 1 ≤ blk.shared_ptr_counter ∧
      shared_ptr.use_count 0 soleOwner = some (blk.shared_ptr_counter : Int) ∧
      ∃ r s' blk', shared_ptr.ctor_copy_cov 16 0 soleOwner = some (r, s') ∧ r ≠ 0 ∧
        s'.sh r = some ⟨Addr.toBase 16 (Addr.obj 7), some 0⟩ ∧
        shared_ptr.get r s' = some (Addr.toBase 16 (Addr.obj 7)) ∧
        s'.sh 0 = some ⟨Addr.obj 7, some 0⟩ ∧
        s'.deref 0 = some blk' ∧
        blk'.shared_ptr_counter = blk.shared_ptr_counter + 1 ∧
        shared_ptr.use_count 0 s' = some ((blk.shared_ptr_counter : Int) + 1) ∧
        shared_ptr.use_count r s' = some ((blk.shared_ptr_counter : Int) + 1) ∧
        blk'.weak_ptr_counter = blk.weak_ptr_counter ∧
        (∀ b', b' ≠ 0 → s'.blocks[b']? = soleOwner.blocks[b']?) ∧ s'.trace = soleOwner.trace :=
  (shared_ptr_copy_contract soleOwner
    (Reachable.step State.init soleOwner (Op.shared_ctor_ptr (Addr.obj 7)) Reachable.init
      (by decide) rfl)
    16 0 ⟨Addr.obj 7, some 0⟩ rfl).2.1.2 0 rfl

/-! ## `weak_ptr` operations leave the owning side alone -/

theorem map_set_same {α β : Type} (f : α → β) (l : List α) (i : Nat) (a old : α)
    (h : l[i]? = some old) (hf : f a = f old) : (l.set i a).map f = l.map f := by
  apply List.ext_getElem?
  intro n
  simp only [List.getElem?_map, List.getElem?_set]
  by_cases hin : i = n
  · subst hin
    simp [getElem?_lt_of_eq_some _ _ _ h, h, hf]
  · simp [hin]

theorem strongSide_store_weak (s : State) (b : Nat) (blk : base_control_block_) (c : Nat)
    (hd : s.deref b = some blk) :
    (s.store b { blk with weak_ptr_counter := c }).strongSide = s.strongSide := by
  obtain ⟨hget, _⟩ := (State.deref_eq_some s b blk).1 hd
  unfold State.strongSide State.store
  simp only
  rw [map_set_same base_control_block_.strongSide s.blocks b
    { blk with weak_ptr_counter := c } blk hget rfl]

theorem weak_ptr.ctor_copy_frame (s s' : State) (o r : Nat)
    (h : weak_ptr.ctor_copy o s = some (r, s')) : s'.strongSide = s.strongSide := by
  unfold weak_ptr.ctor_copy at h
  cases ho : s.wk o with
  | none => simp [ho] at h
  | some x =>
    cases hm : x.ptr_manager with
    | none =>
      simp [ho, hm] at h
      obtain ⟨_, h⟩ := h
      subst h
      rfl
    | some b =>
      cases hd : s.deref b with
      | none => simp [ho, hm, hd] at h
      | some blk =>
        simp [ho, hm, hd] at h
        obtain ⟨_, h⟩ := h
        subst h
        exact strongSide_store_weak s b blk _ hd

theorem weak_ptr.ctor_shared_frame (s s' : State) (o r : Nat)
    (h : weak_ptr.ctor_shared o s = some (r, s')) : s'.strongSide = s.strongSide := by
  unfold weak_ptr.ctor_shared at h
  cases ho : s.sh o with
  | none => simp [ho] at h
  | some x =>
    cases hm : x.ptr_manager with
    | none =>
      simp [ho, hm] at h
      obtain ⟨_, h⟩ := h
      subst h
      rfl
    | some b =>
      cases hd : s.deref b with
      | none => simp [ho, hm, hd] at h
      | some blk =>
        simp [ho, hm, hd] at h
        obtain ⟨_, h⟩ := h
        subst h
        exact strongSide_store_weak s b blk _ hd

theorem weak_ptr.swap_frame (s s' : State) (i j : Nat)
    (h : weak_ptr.swap i j s = some s') : s'.strongSide = s.strongSide := by
  unfold weak_ptr.swap at h
  cases hi : s.wk i with
  | none => simp [hi] at h
  | some a =>
    cases hj : s.wk j with
    | none => simp [hi, hj] at h
    | some o =>
      simp [hi, hj] at h
      subst h
      rfl

theorem weak_ptr.dtor_frame (s s' : State) (i : Nat)
    (h : weak_ptr.dtor i s = some s') : s'.strongSide = s.strongSide := by
  unfold weak_ptr.dtor at h
  cases hi : s.wk i with
  | none => simp [hi] at h
  | some x =>
    cases hm : x.ptr_manager with
    | none =>
      simp [hi, hm] at h
      subst h
      rfl
    | some b =>
      cases hd : s.deref b with
      | none => simp [hi, hm, hd] at h
      | some blk =>
        simp only [hi, hm, hd] at h
        injection h with h
        subst h
        exact strongSide_store_weak s b blk _ hd

theorem weak_ptr.reset_frame (s s' : State) (i : Nat)
    (h : weak_ptr.reset i s = some s') : s'.strongSide = s.strongSide := by
  unfold weak_ptr.reset at h
  cases h2 : weak_ptr.swap (weak_ptr.ctor s).1 i (weak_ptr.ctor s).2 with
  | none => simp [h2] at h
  | some s2 =>
    simp only [h2] at h
    have e0 : (weak_ptr.ctor s).2.strongSide = s.strongSide := rfl
    rw [weak_ptr.dtor_frame s2 s' _ h, weak_ptr.swap_frame _ s2 _ i h2, e0]

/-- Every `weak_ptr` operation other than `lock()` leaves the owning side of
the memory as it was. -/
theorem weak_step_frame (op : Op) (hop : op.isWeakNonLock = true) (s s' : State)
    (h : step op s = some s') : s'.strongSide = s.strongSide := by
  cases op with
  | weak_ctor =>
    simp only [step, Option.some.injEq] at h; subst h; rfl
  | weak_ctor_copy o =>
    simp only [step, Option.map_eq_some'] at h
    obtain ⟨⟨r, s1⟩, h, rfl⟩ := h
    exact weak_ptr.ctor_copy_frame s s1 o r h
  | weak_ctor_move o =>
    simp only [step, Option.map_eq_some'] at h
    obtain ⟨⟨r, s1⟩, h, rfl⟩ := h
    unfold weak_ptr.ctor_move at h
    cases h1 : weak_ptr.swap (weak_ptr.ctor s).1 o (weak_ptr.ctor s).2 with
    | none => simp [h1] at h
    | some s2 =>
      simp [h1] at h
      obtain ⟨_, h⟩ := h
      subst h
      have e0 : (weak_ptr.ctor s).2.strongSide = s.strongSide := rfl
      show s2.strongSide = s.strongSide
      rw [weak_ptr.swap_frame _ s2 _ o h1, e0]
  | weak_ctor_shared o =>
    simp only [step, Option.map_eq_some'] at h
    obtain ⟨⟨r, s1⟩, h, rfl⟩ := h
    exact weak_ptr.ctor_shared_frame s s1 o r h
  | weak_assign a o =>
    simp only [step] at h
    unfold weak_ptr.assign at h
    cases hi : s.wk a with
    | none => simp [hi] at h
    | some x =>
      cases ho : s.wk o with
      | none => simp [hi, ho] at h
      | some y =>
        simp only [hi, ho] at h
        by_cases hio : a = o
        · simp [hio] at h
          subst h
          rfl
        · simp only [hio, if_false] at h
          cases h1 : weak_ptr.ctor_copy o s with
          | none => simp [h1] at h
          | some p1 =>
            obtain ⟨tmp, s1⟩ := p1
            simp only [h1] at h
            cases h2 : weak_ptr.swap a tmp s1 with
            | none => simp [h2] at h
            | some s2 =>
              simp only [h2] at h
              rw [weak_ptr.dtor_frame s2 s' tmp h, weak_ptr.swap_frame s1 s2 a tmp h2,
                weak_ptr.ctor_copy_frame s s1 o tmp h1]
  | weak_assign_move a o =>
    simp only [step] at h
    unfold weak_ptr.assign_move at h
    cases hi : s.wk a with
    | none => simp [hi] at h
    | some x =>
      cases ho : s.wk o with
      | none => simp [hi, ho] at h
      | some y =>
        simp only [hi, ho] at h
        by_cases hio : a = o
        · simp [hio] at h
          subst h
          rfl
        · simp only [hio, if_false] at h
          cases h1 : weak_ptr.swap a o s with
          | none => simp [h1] at h
          | some s1 =>
            simp only [h1] at h
            rw [weak_ptr.reset_frame s1 s' o h, weak_ptr.swap_frame s s1 a o h1]
  | weak_assign_shared a o =>
    simp only [step] at h
    unfold weak_ptr.assign_shared at h
    cases hi : s.wk a with
    | none => simp [hi] at h
    | some x =>
      simp only [hi] at h
      cases h1 : weak_ptr.ctor_shared o s with
      | none => simp [h1] at h
      | some p1 =>
        obtain ⟨tmp, s1⟩ := p1
        simp only [h1] at h
        cases h2 : weak_ptr.swap a tmp s1 with
        | none => simp [h2] at h
        | some s2 =>
          simp only [h2] at h
          rw [weak_ptr.dtor_frame s2 s' tmp h, weak_ptr.swap_frame s1 s2 a tmp h2,
            weak_ptr.ctor_shared_frame s s1 o tmp h1]
  | weak_dtor a => exact weak_ptr.dtor_frame s s' a h
  | weak_reset a => exact weak_ptr.reset_frame s s' a h
  | weak_swap a o => exact weak_ptr.swap_frame s s' a o h
  | shared_ctor => simp [Op.isWeakNonLock] at hop
  | shared_ctor_nullptr => simp [Op.isWeakNonLock] at hop
  | shared_ctor_ptr _ => simp [Op.isWeakNonLock] at hop
  | shared_ctor_deleter _ _ => simp [Op.isWeakNonLock] at hop
  | shared_ctor_copy _ => simp [Op.isWeakNonLock] at hop
  | shared_ctor_copy_cov _ _ => simp [Op.isWeakNonLock] at hop
  | shared_ctor_weak _ => simp [Op.isWeakNonLock] at hop
  | shared_ctor_move _ => simp [Op.isWeakNonLock] at hop
  | shared_ctor_alias _ _ => simp [Op.isWeakNonLock] at hop
  | shared_assign _ _ => simp [Op.isWeakNonLock] at hop
  | shared_assign_cov _ _ => simp [Op.isWeakNonLock] at hop
  | shared_assign_move _ _ => simp [Op.isWeakNonLock] at hop
  | shared_dtor _ => simp [Op.isWeakNonLock] at hop
  | shared_reset _ => simp [Op.isWeakNonLock] at hop
  | shared_reset_ptr _ _ => simp [Op.isWeakNonLock] at hop
  | shared_reset_deleter _ _ _ => simp [Op.isWeakNonLock] at hop
  | shared_swap _ _ => simp [Op.isWeakNonLock] at hop
  | make_shared _ => simp [Op.isWeakNonLock] at hop
  | weak_lock _ => simp [Op.isWeakNonLock] at hop

theorem deref_counter_of_strongSide (s s' : State) (h : s'.strongSide = s.strongSide) (b : Nat) :
    (s'.deref b).map (fun x => x.shared_ptr_counter) =
      (s.deref b).map (fun x => x.shared_ptr_counter) := by
  have hm : s'.blocks.map base_control_block_.strongSide =
      s.blocks.map base_control_block_.strongSide := congrArg Prod.fst h
  have hb : (s'.blocks[b]?).map base_control_block_.strongSide =
      (s.blocks[b]?).map base_control_block_.strongSide := by
    rw [← List.getElem?_map, ← List.getElem?_map, hm]
  unfold State.deref
  cases h1 : s'.blocks[b]? with
  | none =>
    cases h2 : s.blocks[b]? with
    | none => rfl
    | some y => simp [h1, h2] at hb
  | some x =>
    cases h2 : s.blocks[b]? with
    | none => simp [h1, h2] at hb
    | some y =>
      simp [h1, h2, base_control_block_.strongSide] at hb
      obtain ⟨e1, _, e3⟩ := hb
      simp only [e3]
      by_cases hf : y.freed = true
      · simp [hf]
      · simp [hf, e1]

theorem shared_use_count_of_strongSide (s s' : State) (h : s'.strongSide = s.strongSide)
    (i : Nat) : shared_ptr.use_count i s' = shared_ptr.use_count i s := by
  have hs : s'.shared = s.shared := congrArg (fun x => x.2.1) h
  unfold shared_ptr.use_count State.sh
  rw [hs]
  cases (s.shared[i]?).join with
  | none => rfl
  | some x =>
    cases hm : x.ptr_manager with
    | none => simp [hm]
    | some b =>
      have hd := deref_counter_of_strongSide s s' h b
      cases h1 : s'.deref b with
      | none =>
        cases h2 : s.deref b with
        | none => simp [hm, h1, h2]
        | some y => simp [h1, h2] at hd
      | some z =>
        cases h2 : s.deref b with
        | none => simp [h1, h2] at hd
        | some y =>
          simp [h1, h2] at hd
          simp [hm, h1, h2, hd]

theorem weak_use_count_of_strongSide (s s' : State) (h : s'.strongSide = s.strongSide)
    (j : Nat) (hj : s'.wk j = s.wk j) : weak_ptr.use_count j s' = weak_ptr.use_count j s := by
  unfold weak_ptr.use_count
  rw [hj]
  cases s.wk j with
  | none => rfl
  | some x =>
    cases hm : x.ptr_manager with
    | none => simp [hm]
    | some b =>
      have hd := deref_counter_of_strongSide s s' h b
      cases h1 : s'.deref b with
      | none =>
        cases h2 : s.deref b with
        | none => simp [hm, h1, h2]
        | some y => simp [h1, h2] at hd
      | some z =>
        cases h2 : s.deref b with
        | none => simp [h1, h2] at hd
        | some y =>
          simp [h1, h2] at hd
          simp [hm, h1, h2, hd]

/-- C9 as stated fails: `reset()` on the observer of a live owner changes the
`use_count()` read through that very `weak_ptr` from 1 to 0. -/
theorem weak_reset_changes_own_use_count :
    Op.isWeakNonLock (Op.weak_reset 0) = true ∧
    runChecked ownerAndObserver State.init = some ownerObserved ∧
    ∃ s', step (Op.weak_reset 0) ownerObserved = some s' ∧
      weak_ptr.use_count 0 ownerObserved = some 1 ∧ weak_ptr.use_count 0 s' = some 0 :=
  ⟨rfl, by decide, _, rfl, by decide, by decide⟩

/-- C9 (amended): every `weak_ptr` operation other than `lock()` leaves the
strong count of every block unchanged, logs nothing (so it calls `destroy()`
on no block), and leaves `use_count()` unchanged when read through any
`shared_ptr` and through any `weak_ptr` whose own value the operation does not
change. -/
theorem weak_ops_leave_strong_counts (op : Op) (hop : op.isWeakNonLock = true) (s s' : State)
    (h : step op s = some s') :
    s'.blocks.map (fun x => x.shared_ptr_counter) =
      s.blocks.map (fun x => x.shared_ptr_counter) ∧
    s'.trace = s.trace ∧
    (∀ b, s'.destroyCalls b = s.destroyCalls b) ∧
    (∀ i, shared_ptr.use_count i s' = shared_ptr.use_count i s) ∧
    (∀ j, s'.wk j = s.wk j → weak_ptr.use_count j s' = weak_ptr.use_count j s) := by
  have hfr := weak_step_frame op hop s s' h
  have ht : s'.trace = s.trace := congrArg (fun x => x.2.2) hfr
  have hm : s'.blocks.map base_control_block_.strongSide =
      s.blocks.map base_control_block_.strongSide := congrArg Prod.fst hfr
  refine ⟨?_, ht, ?_, ?_, ?_⟩
  · have := congrArg (List.map Prod.fst) hm
    simpa [List.map_map, Function.comp_def, base_control_block_.strongSide] using this
  · intro b
    unfold State.destroyCalls
    rw [ht]
  · exact shared_use_count_of_strongSide s s' hfr
  · exact weak_use_count_of_strongSide s s' hfr

/-- Witness for C9 (amended): resetting the observer of a live owner leaves the
owner's `use_count()` at 1. -/
theorem weak_ops_leave_strong_counts_witness :
    ∃ s', step (Op.weak_reset 0) ownerObserved = some s' ∧
      s'.blocks.map (fun x => x.shared_ptr_counter) =
        ownerObserved.blocks.map (fun x => x.shared_ptr_counter) ∧
      s'.trace = ownerObserved.trace ∧
      (∀ b, s'.destroyCalls b = ownerObserved.destroyCalls b) ∧
      (∀ i, shared_ptr.use_count i s' = shared_ptr.use_count i ownerObserved) ∧
      (∀ j, s'.wk j = ownerObserved.wk j →
        weak_ptr.use_count j s' = weak_ptr.use_count j ownerObserved) :=
  ⟨_, rfl, weak_ops_leave_strong_counts (Op.weak_reset 0) rfl ownerObserved _ rfl⟩

/-! ## Moving a `shared_ptr` -/

theorem State.deref_congr (s t : State) (hb : t.blocks = s.blocks) (b : Nat) :
    t.deref b = s.deref b := by
  unfold State.deref
  rw [hb]

/-- What `~shared_ptr()` does to the blocks and to the log depends only on the
value of the handle, the blocks and the log. -/
theorem shared_ptr.dtor_congr (s t : State) (i j : Nat) (h : shared_ptr)
    (hi : s.sh i = some h) (hj : t.sh j = some h) (hb : t.blocks = s.blocks)
    (ht : t.trace = s.trace) :
    (shared_ptr.dtor j t).map (fun x => (x.blocks, x.trace)) =
      (shared_ptr.dtor i s).map (fun x => (x.blocks, x.trace)) := by
  unfold shared_ptr.dtor
  simp only [hi, hj]
  cases hm : h.ptr_manager with
  | none => simp [State.setShared, hb, ht]
  | some b =>
    simp only
    rw [State.deref_congr s t hb b]
    cases hd : s.deref b with
    | none => rfl
    | some blk =>
      simp only
      by_cases hz : size_t_dec blk.shared_ptr_counter = 0
      · by_cases hw : blk.weak_ptr_counter = 0
        · simp [hz, hw, State.setShared, State.store, State.emit, hb, ht]
        · simp [hz, hw, State.setShared, State.store, State.emit, hb, ht]
      · simp [hz, State.setShared, State.store, hb, ht]

theorem shared_ptr.dtor_shared (s s' : State) (i : Nat) (h : shared_ptr.dtor i s = some s') :
    s'.shared = s.shared.set i none ∧ s'.weak = s.weak := by
  unfold shared_ptr.dtor at h
  cases hi : s.sh i with
  | none => simp [hi] at h
  | some x =>
    cases hm : x.ptr_manager with
    | none =>
      simp [hi, hm] at h
      subst h
      exact ⟨rfl, rfl⟩
    | some b =>
      cases hd : s.deref b with
      | none => simp [hi, hm, hd] at h
      | some blk =>
        simp only [hi, hm, hd] at h
        by_cases hz : size_t_dec blk.shared_ptr_counter = 0
        · by_cases hw : blk.weak_ptr_counter = 0
          · simp only [hz, hw, if_true] at h
            injection h with h
            subst h
            exact ⟨rfl, rfl⟩
          · simp only [hz, hw, if_true, if_false] at h
            injection h with h
            subst h
            exact ⟨rfl, rfl⟩
        · simp only [hz, if_false] at h
          injection h with h
          subst h
          exact ⟨rfl, rfl⟩

/-- The destructor `~shared_ptr()` writes to the block of its handle only. -/
theorem shared_ptr.dtor_blocks_other (s s' : State) (i : Nat) (x : shared_ptr)
    (hi : s.sh i = some x) (h : shared_ptr.dtor i s = some s') (b : Nat)
    (hne : x.ptr_manager ≠ some b) : s'.blocks[b]? = s.blocks[b]? := by
  unfold shared_ptr.dtor at h
  cases hm : x.ptr_manager with
  | none =>
    simp [hi, hm] at h
    subst h
    rfl
  | some b0 =>
    have hbb : b0 ≠ b := by
      intro hq
      apply hne
      rw [hm, hq]
    cases hd : s.deref b0 with
    | none => simp [hi, hm, hd] at h
    | some blk =>
      simp only [hi, hm, hd] at h
      by_cases hz : size_t_dec blk.shared_ptr_counter = 0
      · by_cases hw : blk.weak_ptr_counter = 0
        · simp only [hz, hw, if_true] at h
          have h := Option.some.inj h
          subst h
          show (s.blocks.set b0 _)[b]? = s.blocks[b]?
          simp only [List.getElem?_set, hbb, if_false]
        · simp only [hz, hw, if_true, if_false] at h
          have h := Option.some.inj h
          subst h
          show (s.blocks.set b0 _)[b]? = s.blocks[b]?
          simp only [List.getElem?_set, hbb, if_false]
      · simp only [hz, if_false] at h
        have h := Option.some.inj h
        subst h
        show (s.blocks.set b0 _)[b]? = s.blocks[b]?
        simp only [List.getElem?_set, hbb, if_false]

/-- In a reachable state the destructor of a live `shared_ptr` is defined. -/
theorem Reachable.dtor_defined (s : State) (hr : Reachable s) (i : Nat) (x : shared_ptr)
    (hi : s.sh i = some x) : ∃ sd, shared_ptr.dtor i s = some sd := by
  unfold shared_ptr.dtor
  simp only [hi]
  cases hm : x.ptr_manager with
  | none => exact ⟨_, rfl⟩
  | some b =>
    obtain ⟨blk, hd, _⟩ := Reachable.deref_of_shared s hr i b x hi hm
    simp only [hd]
    by_cases hz : size_t_dec blk.shared_ptr_counter = 0
    · by_cases hw : blk.weak_ptr_counter = 0
      · simp only [hz, hw, if_true]
        exact ⟨_, rfl⟩
      · simp only [hz, hw, if_true, if_false]
        exact ⟨_, rfl⟩
    · simp only [hz, if_false]
      exact ⟨_, rfl⟩

theorem State.sh_setShared_same (s : State) (i : Nat) (v : shared_ptr)
    (hlt : i < s.shared.length) : (s.setShared i (some v)).sh i = some v := by
  simp [State.sh, State.setShared, List.getElem?_set, hlt]

theorem State.sh_setShared_other (s : State) (i j : Nat) (v : Option shared_ptr)
    (hne : i ≠ j) : (s.setShared i v).sh j = s.sh j := by
  simp [State.sh, State.setShared, List.getElem?_set, hne]

theorem State.length_setShared (s : State) (i : Nat) (v : Option shared_ptr) :
    (s.setShared i v).shared.length = s.shared.length := by
  simp [State.setShared]

theorem State.length_pushShared (s : State) (v : shared_ptr) :
    (s.pushShared v).shared.length = s.shared.length + 1 := by
  simp [State.pushShared]

/-- C10 as stated fails: two owners share one block (strong count 2); move
assignment of one to the other leaves the moved block with strong count 1, not
unchanged. -/
theorem move_assign_within_block_lowers_count :
    runChecked ownerAndCopy State.init = some twoOwners ∧
    twoOwners.sh 1 = some ⟨Addr.obj 7, some 0⟩ ∧
    (twoOwners.deref 0).map (fun x => x.shared_ptr_counter) = some 2 ∧
    ∃ s', shared_ptr.assign_move 0 1 twoOwners = some s' ∧
      s'.sh 0 = some ⟨Addr.obj 7, some 0⟩ ∧ s'.sh 1 = some ⟨Addr.null, none⟩ ∧
      (s'.deref 0).map (fun x => x.shared_ptr_counter) = some 1 :=
  ⟨by decide, by decide, by decide, _, rfl, by decide, by decide, by decide⟩

/-- C10 (amended): moving a `shared_ptr` in a reachable state.  Move
construction leaves the source empty, gives the new handle the source's former
(observed, block) pair and changes no block.  Move assignment between two
distinct handle objects leaves the source empty, gives the target the source's
former pair, and changes the blocks and the log exactly as destroying one
`shared_ptr` with the target's former value does; the counts of the moved
block are therefore unchanged unless the target was linked to that same
block. -/
theorem shared_ptr_move_contract (s : State) (hr : Reachable s) (src : Nat) (hs : shared_ptr)
    (hsrc : s.sh src = some hs) :
    (∃ r s', shared_ptr.ctor_move src s = some (r, s') ∧ r ≠ src ∧ s'.sh r = some hs ∧
      s'.sh src = some ⟨Addr.null, none⟩ ∧ shared_ptr.get src s' = some Addr.null ∧
      shared_ptr.use_count src s' = some 0 ∧ s'.blocks = s.blocks ∧ s'.trace = s.trace) ∧
    (∀ dst hd, dst ≠ src → s.sh dst = some hd →
      ∃ s' sd, shared_ptr.assign_move dst src s = some s' ∧ shared_ptr.dtor dst s = some sd ∧
        s'.blocks = sd.blocks ∧ s'.trace = sd.trace ∧
        s'.sh dst = some hs ∧ s'.sh src = some ⟨Addr.null, none⟩ ∧
        shared_ptr.get src s' = some Addr.null ∧ shared_ptr.use_count src s' = some 0 ∧
        (∀ b, hs.ptr_manager = some b → hd.ptr_manager ≠ some b →
          s'.blocks[b]? = s.blocks[b]?)) := by
  have hsrc' := (State.sh_eq_some s src hs).1 hsrc
  have hslt := getElem?_lt_of_eq_some _ _ _ hsrc'
  have hn : s.shared.length ≠ src := by omega
  constructor
  · have h1 : (shared_ptr.ctor s).2.sh (shared_ptr.ctor s).1 = some ⟨Addr.null, none⟩ :=
      State.sh_pushShared_new s _
    have h2 : (shared_ptr.ctor s).2.sh src = some hs := State.sh_pushShared_old s _ hs src hsrc
    have k1 : (((s.pushShared ⟨Addr.null, none⟩).setShared s.shared.length (some hs)).setShared
        src (some ⟨Addr.null, none⟩)).sh s.shared.length = some hs := by
      rw [State.sh_setShared_other _ _ _ _ (Ne.symm hn)]
      exact State.sh_setShared_same _ _ _ (by rw [State.length_pushShared]; omega)
    have k2 : (((s.pushShared ⟨Addr.null, none⟩).setShared s.shared.length (some hs)).setShared
        src (some ⟨Addr.null, none⟩)).sh src = some ⟨Addr.null, none⟩ :=
      State.sh_setShared_same _ _ _
        (by rw [State.length_setShared, State.length_pushShared]; omega)
    refine ⟨s.shared.length,
      (((s.pushShared ⟨Addr.null, none⟩).setShared s.shared.length (some hs)).setShared src
        (some ⟨Addr.null, none⟩)), ?_, hn, k1, k2, ?_, ?_, rfl, rfl⟩
    · unfold shared_ptr.ctor_move shared_ptr.swap
      rw [h1, h2]
      rfl
    · simp only [shared_ptr.get, k2]
    · simp only [shared_ptr.use_count, k2]
  · intro dst hd hne hdst
    have hdst' := (State.sh_eq_some s dst hd).1 hdst
    have hdlt := getElem?_lt_of_eq_some _ _ _ hdst'
    have hn' : s.shared.length ≠ dst := by omega
    obtain ⟨sd, hsd⟩ := Reachable.dtor_defined s hr dst hd hdst
    -- the state after `swap(other)`
    have e1 : shared_ptr.swap dst src s =
        some ((s.setShared dst (some hs)).setShared src (some hd)) := by
      unfold shared_ptr.swap
      rw [hdst, hsrc]
    -- the state after `shared_ptr<T>().swap(other)`
    have g1 : (shared_ptr.ctor ((s.setShared dst (some hs)).setShared src (some hd))).1 =
        s.shared.length := by
      simp [shared_ptr.ctor, State.setShared]
    have g0 : (shared_ptr.ctor ((s.setShared dst (some hs)).setShared src (some hd))).2 =
        ((s.setShared dst (some hs)).setShared src (some hd)).pushShared ⟨Addr.null, none⟩ := rfl
    have glen : ((s.setShared dst (some hs)).setShared src (some hd)).shared.length =
        s.shared.length := by
      rw [State.length_setShared, State.length_setShared]
    have g2 : (((s.setShared dst (some hs)).setShared src (some hd)).pushShared
        ⟨Addr.null, none⟩).sh s.shared.length = some ⟨Addr.null, none⟩ := by
      have := State.sh_pushShared_new ((s.setShared dst (some hs)).setShared src (some hd))
        ⟨Addr.null, none⟩
      rw [glen] at this
      exact this
    have g3 : (((s.setShared dst (some hs)).setShared src (some hd)).pushShared
        ⟨Addr.null, none⟩).sh src = some hd :=
      State.sh_pushShared_old _ _ hd src
        (State.sh_setShared_same _ _ _ (by rw [State.length_setShared]; exact hslt))
    have g5 : (((s.setShared dst (some hs)).setShared src (some hd)).pushShared
        ⟨Addr.null, none⟩).sh dst = some hs :=
      State.sh_pushShared_old _ _ hs dst
        (by rw [State.sh_setShared_other _ _ _ _ (Ne.symm hne)]
            exact State.sh_setShared_same _ _ _ hdlt)
    have e2 : shared_ptr.swap s.shared.length src
        (((s.setShared dst (some hs)).setShared src (some hd)).pushShared ⟨Addr.null, none⟩) =
        some (((((s.setShared dst (some hs)).setShared src (some hd)).pushShared
          ⟨Addr.null, none⟩).setShared s.shared.length (some hd)).setShared src
          (some ⟨Addr.null, none⟩)) := by
      unfold shared_ptr.swap
      rw [g2, g3]
    have hlen2 : (((s.setShared dst (some hs)).setShared src (some hd)).pushShared
        ⟨Addr.null, none⟩).shared.length = s.shared.length + 1 := by
      rw [State.length_pushShared, glen]
    have g4 : (((((s.setShared dst (some hs)).setShared src (some hd)).pushShared
        ⟨Addr.null, none⟩).setShared s.shared.length (some hd)).setShared src
        (some ⟨Addr.null, none⟩)).sh s.shared.length = some hd := by
      rw [State.sh_setShared_other _ _ _ _ (Ne.symm hn)]
      exact State.sh_setShared_same _ _ _ (by rw [hlen2]; omega)
    have hcong := shared_ptr.dtor_congr s
      (((((s.setShared dst (some hs)).setShared src (some hd)).pushShared
          ⟨Addr.null, none⟩).setShared s.shared.length (some hd)).setShared src
          (some ⟨Addr.null, none⟩))
      dst s.shared.length hd hdst g4 rfl rfl
    rw [hsd] at hcong
    cases htd : shared_ptr.dtor s.shared.length
      (((((s.setShared dst (some hs)).setShared src (some hd)).pushShared
          ⟨Addr.null, none⟩).setShared s.shared.length (some hd)).setShared src
          (some ⟨Addr.null, none⟩)) with
    | none => simp [htd] at hcong
    | some td =>
      simp [htd] at hcong
      obtain ⟨hb, ht⟩ := hcong
      obtain ⟨hshared, _⟩ := shared_ptr.dtor_shared _ td _ htd
      have hfin : shared_ptr.assign_move dst src s = some td := by
        unfold shared_ptr.assign_move
        simp only [hdst, hsrc, hne, if_false, e1, g1, g0, e2]
        exact htd
      have hview : ∀ j, j ≠ s.shared.length →
          td.sh j = (((((s.setShared dst (some hs)).setShared src (some hd)).pushShared
            ⟨Addr.null, none⟩).setShared s.shared.length (some hd)).setShared src
            (some ⟨Addr.null, none⟩)).sh j := by
        intro j hj
        unfold State.sh
        rw [hshared]
        simp only [List.getElem?_set, Ne.symm hj, if_false]
      have k1 : td.sh dst = some hs := by
        rw [hview dst (Ne.symm hn'), State.sh_setShared_other _ _ _ _ (Ne.symm hne),
          State.sh_setShared_other _ _ _ _ hn']
        exact g5
      have k2 : td.sh src = some ⟨Addr.null, none⟩ := by
        rw [hview src (Ne.symm hn)]
        exact State.sh_setShared_same _ _ _
          (by rw [State.length_setShared, hlen2]; omega)
      refine ⟨td, sd, hfin, hsd, hb, ht, k1, k2, ?_, ?_, ?_⟩
      · simp only [shared_ptr.get, k2]
      · simp only [shared_ptr.use_count, k2]
      · intro b _ hne2
        rw [hb]
        exact shared_ptr.dtor_blocks_other s sd dst hd hdst hsd b hne2

/-- Witness for C10 (amended): with two owners of two different objects, move
assignment of the second to the first releases the first one's block as its
destruction would, and leaves the moved block as it was. -/
theorem shared_ptr_move_contract_witness :
    ∃ s, runChecked twoBlocks State.init = some s ∧
      ∃ s' sd, shared_ptr.assign_move 0 1 s = some s' ∧ shared_ptr.dtor 0 s = some sd ∧
        s'.blocks = sd.blocks ∧ s'.trace = sd.trace ∧
        s'.sh 0 = some ⟨Addr.obj 8, some 1⟩ ∧ s'.sh 1 = some ⟨Addr.null, none⟩ ∧
        shared_ptr.get 1 s' = some Addr.null ∧ shared_ptr.use_count 1 s' = some 0 ∧
        (∀ b, (⟨Addr.obj 8, some 1⟩ : shared_ptr).ptr_manager = some b →
          (⟨Addr.obj 7, some 0⟩ : shared_ptr).ptr_manager ≠ some b →
          s'.blocks[b]? = s.blocks[b]?) :=
  ⟨_, rfl, (shared_ptr_move_contract _
    (ReachableChecked.reachable _
      (ReachableChecked_of_run twoBlocks State.init _ ReachableChecked.init rfl)) 1
    ⟨Addr.obj 8, some 1⟩ rfl).2 0 ⟨Addr.obj 7, some 0⟩ (by decide) rfl⟩

/-! ## Construction from a raw address, the factory, and `destroy()` -/

theorem State.deref_newBlock_fresh (s : State) (d : Derived) :
    (s.newBlock d).deref s.blocks.length = some ⟨1, 0, d, false⟩ := by
  rw [State.deref_newBlock]
  simp

theorem State.sh_newBlock_push_old (s : State) (d : Derived) (x h : shared_ptr) (i : Nat)
    (hi : s.sh i = some h) : ((s.newBlock d).pushShared x).sh i = some h :=
  State.sh_pushShared_old (s.newBlock d) x h i hi

theorem toLong_one : toLong 1 = 1 := by decide

/-- The first operation of a fresh owner's life and its last: a handle `r`
linked to a fresh block of strong count 1 and weak count 0 is destroyed. -/
theorem shared_ptr.dtor_sole (s : State) (r b : Nat) (p : Addr) (dv : Derived)
    (hr : s.sh r = some ⟨p, some b⟩) (hd : s.deref b = some ⟨1, 0, dv, false⟩) :
    ∃ s', shared_ptr.dtor r s = some s' ∧
      s'.trace = s.trace ++
        ((base_control_block_.destroy b ⟨0, 0, dv, false⟩).2 ++
          (base_control_block_.delete b (base_control_block_.destroy b ⟨0, 0, dv, false⟩).1).2) ∧
      s'.blocks = s.blocks.set b
        (base_control_block_.delete b (base_control_block_.destroy b ⟨0, 0, dv, false⟩).1).1 := by
  have hz : size_t_dec 1 = 0 := by decide
  unfold shared_ptr.dtor
  simp only [hr, hd, hz, if_true]
  exact ⟨_, rfl, rfl, rfl⟩

/-- C13: constructing a `shared_ptr` from a raw address `val` (null included),
without or with a deleter `d`: exactly one block is allocated, a
`control_block` holding `val` and the default deleter (deleter value 0),
respectively `d`, with strong count 1 and weak count 0; the existing blocks,
handles and log entries are unchanged; the new handle has `get() = val` and
`use_count() = 1`; and destroying the new handle invokes the stored deleter on
`val`. -/
theorem shared_ptr_from_address_contract (s : State) (val : Addr) (d : Nat) :
    ((shared_ptr.ctor_ptr val s).2.blocks =
        s.blocks ++ [⟨1, 0, Derived.control_block val 0, false⟩] ∧
      (shared_ptr.ctor_ptr val s).2.trace =
        s.trace ++ [Event.alloc s.blocks.length (Derived.control_block val 0)] ∧
      (shared_ptr.ctor_ptr val s).2.sh (shared_ptr.ctor_ptr val s).1 =
        some ⟨val, some s.blocks.length⟩ ∧
      shared_ptr.get (shared_ptr.ctor_ptr val s).1 (shared_ptr.ctor_ptr val s).2 = some val ∧
      shared_ptr.use_count (shared_ptr.ctor_ptr val s).1 (shared_ptr.ctor_ptr val s).2 = some 1 ∧
      (∀ i h, s.sh i = some h → (shared_ptr.ctor_ptr val s).2.sh i = some h) ∧
      (shared_ptr.ctor_ptr val s).2.weak = s.weak ∧
      ∃ s', shared_ptr.dtor (shared_ptr.ctor_ptr val s).1 (shared_ptr.ctor_ptr val s).2 = some s' ∧
        s'.trace = (shared_ptr.ctor_ptr val s).2.trace ++
          [Event.destroy s.blocks.length, Event.deleter s.blocks.length 0 val,
            Event.dealloc s.blocks.length]) ∧
    ((shared_ptr.ctor_deleter val d s).2.blocks =
        s.blocks ++ [⟨1, 0, Derived.control_block val d, false⟩] ∧
      (shared_ptr.ctor_deleter val d s).2.trace =
        s.trace ++ [Event.alloc s.blocks.length (Derived.control_block val d)] ∧
      (shared_ptr.ctor_deleter val d s).2.sh (shared_ptr.ctor_deleter val d s).1 =
        some ⟨val, some s.blocks.length⟩ ∧
      shared_ptr.get (shared_ptr.ctor_deleter val d s).1 (shared_ptr.ctor_deleter val d s).2 =
        some val ∧
      shared_ptr.use_count (shared_ptr.ctor_deleter val d s).1
        (shared_ptr.ctor_deleter val d s).2 = some 1 ∧
      (∀ i h, s.sh i = some h → (shared_ptr.ctor_deleter val d s).2.sh i = some h) ∧
      (shared_ptr.ctor_deleter val d s).2.weak = s.weak ∧
      ∃ s', shared_ptr.dtor (shared_ptr.ctor_deleter val d s).1
          (shared_ptr.ctor_deleter val d s).2 = some s' ∧
        s'.trace = (shared_ptr.ctor_deleter val d s).2.trace ++
          [Event.destroy s.blocks.length, Event.deleter s.blocks.length d val,
            Event.dealloc s.blocks.length]) := by
  have key : ∀ d0 : Nat,
      ((s.newBlock (Derived.control_block val d0)).pushShared ⟨val, some s.blocks.length⟩).sh
        s.shared.length = some ⟨val, some s.blocks.length⟩ ∧
      ((s.newBlock (Derived.control_block val d0)).pushShared ⟨val, some s.blocks.length⟩).deref
        s.blocks.length = some ⟨1, 0, Derived.control_block val d0, false⟩ := by
    intro d0
    exact ⟨State.sh_pushShared_new (s.newBlock _) _, State.deref_newBlock_fresh s _⟩
  have main : ∀ d0 : Nat,
      shared_ptr.get s.shared.length
        ((s.newBlock (Derived.control_block val d0)).pushShared ⟨val, some s.blocks.length⟩) =
          some val ∧
      shared_ptr.use_count s.shared.length
        ((s.newBlock (Derived.control_block val d0)).pushShared ⟨val, some s.blocks.length⟩) =
          some 1 ∧
      ∃ s', shared_ptr.dtor s.shared.length
          ((s.newBlock (Derived.control_block val d0)).pushShared ⟨val, some s.blocks.length⟩) =
            some s' ∧
        s'.trace = ((s.newBlock (Derived.control_block val d0)).pushShared
            ⟨val, some s.blocks.length⟩).trace ++
          [Event.destroy s.blocks.length, Event.deleter s.blocks.length d0 val,
            Event.dealloc s.blocks.length] := by
    intro d0
    obtain ⟨k1, k2⟩ := key d0
    refine ⟨?_, ?_, ?_⟩
    · simp only [shared_ptr.get, k1]
    · simp only [shared_ptr.use_count, k1, k2, toLong_one]
    · obtain ⟨s', h1, h2, _⟩ := shared_ptr.dtor_sole _ s.shared.length s.blocks.length val
        (Derived.control_block val d0) k1 k2
      refine ⟨s', h1, ?_⟩
      rw [h2]
      simp [base_control_block_.destroy, base_control_block_.delete]
  refine ⟨⟨rfl, rfl, (key 0).1, (main 0).1, (main 0).2.1, ?_, rfl, (main 0).2.2⟩,
    ⟨rfl, rfl, (key d).1, (main d).1, (main d).2.1, ?_, rfl, (main d).2.2⟩⟩
  · intro i h hi
    exact State.sh_newBlock_push_old s _ _ h i hi
  · intro i h hi
    exact State.sh_newBlock_push_old s _ _ h i hi

/-- Witness for C13: from the empty memory, an owner of object 7 with deleter 3
has `use_count()` 1. -/
theorem shared_ptr_from_address_contract_witness :
    shared_ptr.use_count (shared_ptr.ctor_deleter (Addr.obj 7) 3 State.init).1
      (shared_ptr.ctor_deleter (Addr.obj 7) 3 State.init).2 = some 1 :=
  (shared_ptr_from_address_contract State.init (Addr.obj 7) 3).2.2.2.2.2.1

/-- C16: the factory `make_shared` logs exactly one allocation, of an in-place
block built from the given arguments, with strong count 1 and weak count 0;
the returned handle is linked to that block, its `get()` is the address of the
storage embedded in the block and its `use_count()` is 1; and destroying a
handle on an in-place block with strong count 1 and weak count 0 (no other
handle exists) runs the payload destructor once and deallocates the block
once. -/
theorem make_shared_contract (s : State) (args : Nat) :
    ((make_shared args s).2.blocks =
        s.blocks ++ [⟨1, 0, Derived.inplace_control_block args, false⟩] ∧
      (make_shared args s).2.trace =
        s.trace ++ [Event.alloc s.blocks.length (Derived.inplace_control_block args)] ∧
      (make_shared args s).2.sh (make_shared args s).1 =
        some ⟨Addr.payloadOf s.blocks.length, some s.blocks.length⟩ ∧
      shared_ptr.get (make_shared args s).1 (make_shared args s).2 =
        some (Addr.payloadOf s.blocks.length) ∧
      shared_ptr.use_count (make_shared args s).1 (make_shared args s).2 = some 1 ∧
      (∀ i h, s.sh i = some h → (make_shared args s).2.sh i = some h) ∧
      (make_shared args s).2.weak = s.weak) ∧
    (∀ (t : State) (i b : Nat) (p : Addr), t.sh i = some ⟨p, some b⟩ →
      t.deref b = some ⟨1, 0, Derived.inplace_control_block args, false⟩ →
      ∃ t', shared_ptr.dtor i t = some t' ∧
        t'.trace = t.trace ++ [Event.destroy b, Event.dtorT b, Event.dealloc b] ∧
        t'.blocks = t.blocks.set b ⟨0, 0, Derived.inplace_control_block args, true⟩ ∧
        t'.payloadDtors b = t.payloadDtors b + 1 ∧ t'.deallocs b = t.deallocs b + 1) := by
  have k1 : ((s.newBlock (Derived.inplace_control_block args)).pushShared
      ⟨Addr.payloadOf s.blocks.length, some s.blocks.length⟩).sh s.shared.length =
      some ⟨Addr.payloadOf s.blocks.length, some s.blocks.length⟩ :=
    State.sh_pushShared_new (s.newBlock _) _
  have k2 : ((s.newBlock (Derived.inplace_control_block args)).pushShared
      ⟨Addr.payloadOf s.blocks.length, some s.blocks.length⟩).deref s.blocks.length =
      some ⟨1, 0, Derived.inplace_control_block args, false⟩ :=
    State.deref_newBlock_fresh s _
  constructor
  · refine ⟨rfl, rfl, k1, ?_, ?_, ?_, rfl⟩
    · show shared_ptr.get s.shared.length
        ((s.newBlock (Derived.inplace_control_block args)).pushShared
          ⟨Addr.payloadOf s.blocks.length, some s.blocks.length⟩) = _
      simp only [shared_ptr.get, k1]
    · show shared_ptr.use_count s.shared.length
        ((s.newBlock (Derived.inplace_control_block args)).pushShared
          ⟨Addr.payloadOf s.blocks.length, some s.blocks.length⟩) = _
      simp only [shared_ptr.use_count, k1, k2, toLong_one]
    · intro i h hi
      exact State.sh_newBlock_push_old s _ _ h i hi
  · intro t i b p hi hd
    obtain ⟨t', h1, h2, h3⟩ := shared_ptr.dtor_sole t i b p _ hi hd
    refine ⟨t', h1, ?_, ?_, ?_, ?_⟩
    · rw [h2]
      simp [base_control_block_.destroy, base_control_block_.delete]
    · rw [h3]
      simp [base_control_block_.destroy, base_control_block_.delete]
    · unfold State.payloadDtors
      rw [h2]
      simp [base_control_block_.destroy, base_control_block_.delete, List.count_append,
        List.count_cons]
    · unfold State.deallocs
      rw [h2]
      simp [base_control_block_.destroy, base_control_block_.delete, List.count_append,
        List.count_cons]

/-- Witness for C16: the handle returned by the factory in the empty memory is
destroyed at once; the payload destructor and the deallocation are logged once
each. -/
theorem make_shared_contract_witness :
    ∃ t', shared_ptr.dtor 0 (make_shared 5 State.init).2 = some t' ∧
      t'.trace = (make_shared 5 State.init).2.trace ++
        [Event.destroy 0, Event.dtorT 0, Event.dealloc 0] ∧
      t'.blocks = (make_shared 5 State.init).2.blocks.set 0
        ⟨0, 0, Derived.inplace_control_block 5, true⟩ ∧
      t'.payloadDtors 0 = (make_shared 5 State.init).2.payloadDtors 0 + 1 ∧
      t'.deallocs 0 = (make_shared 5 State.init).2.deallocs 0 + 1 :=
  (make_shared_contract State.init 5).2 (make_shared 5 State.init).2 0 0 (Addr.payloadOf 0)
    rfl rfl

/-- C17 (evaluation of the code): `destroy()` twice on a `control_block`
holding object 7 and deleter 3.  The block is the same after the second call
as after the first, but the second call does invoke the deleter again, on the
cleared address: two deleter calls in total. -/
theorem control_block_destroy_twice_calls_deleter_twice :
    (base_control_block_.destroy 0
        (base_control_block_.destroy 0 ⟨0, 0, Derived.control_block (Addr.obj 7) 3, false⟩).1).1 =
      (base_control_block_.destroy 0 ⟨0, 0, Derived.control_block (Addr.obj 7) 3, false⟩).1 ∧
    (base_control_block_.destroy 0 ⟨0, 0, Derived.control_block (Addr.obj 7) 3, false⟩).2 =
      [Event.destroy 0, Event.deleter 0 3 (Addr.obj 7)] ∧
    (base_control_block_.destroy 0
        (base_control_block_.destroy 0 ⟨0, 0, Derived.control_block (Addr.obj 7) 3, false⟩).1).2 =
      [Event.destroy 0, Event.deleter 0 3 Addr.null] := by
  decide

/-- The part of C17 that holds: on a `control_block`, the block left by two
consecutive `destroy()` calls is the block left by one; and the second call
always invokes the deleter, on the null address. -/
theorem control_block_destroy_block_idempotent (b : Nat) (blk : base_control_block_) (p : Addr)
    (d : Nat) (hd : blk.derived = Derived.control_block p d) :
    (base_control_block_.destroy b (base_control_block_.destroy b blk).1).1 =
      (base_control_block_.destroy b blk).1 ∧
    (base_control_block_.destroy b (base_control_block_.destroy b blk).1).2 =
      [Event.destroy b, Event.deleter b d Addr.null] := by
  simp [base_control_block_.destroy, hd]

/-! ## No dangling block link, no counter wraparound -/

/-- C19: in every reachable state no live `shared_ptr` and no live `weak_ptr`
is linked to a block that has been deallocated (or was never allocated); and
whenever `~shared_ptr()` runs in a reachable state, every block that is
deallocated afterwards has no live handle of either kind linked to it. -/
theorem no_dangling_block_link (s : State) (hr : Reachable s) :
    (∀ i h b, s.sh i = some h → h.ptr_manager = some b →
      ∃ blk, s.blocks[b]? = some blk ∧ blk.freed = false) ∧
    (∀ j w b, s.wk j = some w → w.ptr_manager = some b →
      ∃ blk, s.blocks[b]? = some blk ∧ blk.freed = false) ∧
    (∀ i s', shared_ptr.dtor i s = some s' → ∀ b blk', s'.blocks[b]? = some blk' →
      blk'.freed = true → s'.strongRefs b = 0 ∧ s'.weakRefs b = 0) := by
  refine ⟨?_, ?_, ?_⟩
  · intro i h b hi hm
    obtain ⟨blk, hd, _⟩ := Reachable.deref_of_shared s hr i b h hi hm
    exact ⟨blk, (State.deref_eq_some s b blk).1 hd⟩
  · intro j w b hj hm
    obtain ⟨blk, hd, _⟩ := Reachable.deref_of_weak s hr j b w hj hm
    exact ⟨blk, (State.deref_eq_some s b blk).1 hd⟩
  · intro i s' hdt b blk' hb hf
    obtain ⟨hc, hl⟩ := Reachable.counted s hr
    unfold handleCapacity at hl
    obtain ⟨hc', _, _⟩ := shared_dtor_pres s s' i hdt hc (by omega)
    have hd : s'.deref b = none := by
      unfold State.deref
      simp [hb, hf]
    exact (hc' b).2 hd

/-- Witness for C19: the copy of an owner is linked to a live block. -/
theorem no_dangling_block_link_witness :
    ∃ s, runChecked ownerAndCopy State.init = some s ∧
      ∃ blk, s.blocks[0]? = some blk ∧ blk.freed = false :=
  ⟨_, rfl, (no_dangling_block_link _
    (ReachableChecked.reachable _
      (ReachableChecked_of_run ownerAndCopy State.init _ ReachableChecked.init rfl))).1 1
    ⟨Addr.obj 7, some 0⟩ 0 rfl rfl⟩

/-- C20: in every reachable state the decrement in `~shared_ptr()` is applied
to a strong count of at least 1 and the decrement in `~weak_ptr()` to a weak
count of at least 1, so neither wraps around; and the counters of every live
block stay at most the number of handle objects that fit in memory, far below
the largest `size_t`. -/
theorem no_counter_wraparound (s : State) (hr : Reachable s) :
    (∀ i h b blk, s.sh i = some h → h.ptr_manager = some b → s.deref b = some blk →
      1 ≤ blk.shared_ptr_counter ∧
        size_t_dec blk.shared_ptr_counter + 1 = blk.shared_ptr_counter) ∧
    (∀ j w b blk, s.wk j = some w → w.ptr_manager = some b → s.deref b = some blk →
      1 ≤ blk.weak_ptr_counter ∧ size_t_dec blk.weak_ptr_counter + 1 = blk.weak_ptr_counter) ∧
    (∀ b blk, s.deref b = some blk →
      blk.shared_ptr_counter ≤ handleCapacity ∧ blk.weak_ptr_counter ≤ handleCapacity ∧
        handleCapacity < 18446744073709551615) := by
  obtain ⟨hc, hl⟩ := Reachable.counted s hr
  refine ⟨?_, ?_, ?_⟩
  · intro i h b blk hi hm hd
    have h1 := ((hc b).1 blk hd).1
    have h2 := s.strongRefs_pos i b h hi hm
    have h3 := s.strongRefs_le_live b
    unfold handleCapacity at hl
    have := size_t_dec_of_pos blk.shared_ptr_counter (by omega) (by omega)
    omega
  · intro j w b blk hj hm hd
    have h1 := ((hc b).1 blk hd).2
    have h2 := s.weakRefs_pos j b w hj hm
    have h3 := s.weakRefs_le_live b
    unfold handleCapacity at hl
    have := size_t_dec_of_pos blk.weak_ptr_counter (by omega) (by omega)
    omega
  · intro b blk hd
    have h1 := (hc b).1 blk hd
    have h3 := s.strongRefs_le_live b
    have h4 := s.weakRefs_le_live b
    refine ⟨by omega, by omega, by decide⟩

/-- Witness for C20: with an owner and an observer of one block, both
decrements start from 1. -/
theorem no_counter_wraparound_witness :
    ∃ s, runChecked ownerAndObserver State.init = some s ∧
      (1 ≤ 1 ∧ size_t_dec 1 + 1 = 1) :=
  ⟨_, rfl, (no_counter_wraparound _
    (ReachableChecked.reachable _
      (ReachableChecked_of_run ownerAndObserver State.init _ ReachableChecked.init rfl))).1 0
    ⟨Addr.obj 7, some 0⟩ 0 ⟨1, 1, Derived.control_block (Addr.obj 7) 0, false⟩ rfl rfl rfl⟩

/-! ## Where the (observed address, block link) pairs of handles come from -/

theorem AllPairs_init (Q : Addr → Option Nat → Prop) : State.init.AllPairs Q := by
  constructor <;> intro h hh <;> simp [State.init] at hh

theorem AllPairs_congr (Q : Addr → Option Nat → Prop) (s s' : State)
    (hs : s'.shared = s.shared) (hw : s'.weak = s.weak) (h : s.AllPairs Q) : s'.AllPairs Q := by
  unfold State.AllPairs at *
  rw [hs, hw]
  exact h

theorem AllPairs_sh (Q : Addr → Option Nat → Prop) (s : State) (h : s.AllPairs Q) (i : Nat)
    (x : shared_ptr) (hi : s.sh i = some x) : Q x.ptr x.ptr_manager :=
  h.1 x (List.getElem?_mem ((State.sh_eq_some s i x).1 hi))

theorem AllPairs_wk (Q : Addr → Option Nat → Prop) (s : State) (h : s.AllPairs Q) (i : Nat)
    (x : weak_ptr) (hi : s.wk i = some x) : Q x.ptr x.ptr_manager :=
  h.2 x (List.getElem?_mem ((State.wk_eq_some s i x).1 hi))

theorem AllPairs_shared (Q : Addr → Option Nat → Prop) (s s' : State)
    (hw : s'.weak = s.weak)
    (hs : ∀ x : shared_ptr, some x ∈ s'.shared → some x ∈ s.shared ∨ Q x.ptr x.ptr_manager)
    (h : s.AllPairs Q) : s'.AllPairs Q := by
  constructor
  · intro x hx
    rcases hs x hx with h1 | h1
    · exact h.1 x h1
    · exact h1
  · rw [hw]
    exact h.2

theorem AllPairs_weak (Q : Addr → Option Nat → Prop) (s s' : State)
    (hs : s'.shared = s.shared)
    (hw : ∀ x : weak_ptr, some x ∈ s'.weak → some x ∈ s.weak ∨ Q x.ptr x.ptr_manager)
    (h : s.AllPairs Q) : s'.AllPairs Q := by
  constructor
  · rw [hs]
    exact h.1
  · intro x hx
    rcases hw x hx with h1 | h1
    · exact h.2 x h1
    · exact h1

theorem AllPairs_pushShared (Q : Addr → Option Nat → Prop) (s t : State) (x : shared_ptr)
    (hs : t.shared = s.shared) (hw : t.weak = s.weak) (hq : Q x.ptr x.ptr_manager)
    (h : s.AllPairs Q) : (t.pushShared x).AllPairs Q := by
  refine AllPairs_shared Q s (t.pushShared x) hw ?_ h
  intro y hy
  simp only [State.pushShared, List.mem_append, List.mem_singleton, hs] at hy
  rcases hy with hy | hy
  · exact Or.inl hy
  · injection hy with hy
    subst hy
    exact Or.inr hq

theorem AllPairs_pushWeak (Q : Addr → Option Nat → Prop) (s t : State) (x : weak_ptr)
    (hs : t.shared = s.shared) (hw : t.weak = s.weak) (hq : Q x.ptr x.ptr_manager)
    (h : s.AllPairs Q) : (t.pushWeak x).AllPairs Q := by
  refine AllPairs_weak Q s (t.pushWeak x) hs ?_ h
  intro y hy
  simp only [State.pushWeak, List.mem_append, List.mem_singleton, hw] at hy
  rcases hy with hy | hy
  · exact Or.inl hy
  · injection hy with hy
    subst hy
    exact Or.inr hq

theorem AllPairs_setShared (Q : Addr → Option Nat → Prop) (s : State) (i : Nat)
    (v : Option shared_ptr) (hq : ∀ x, v = some x → Q x.ptr x.ptr_manager)
    (h : s.AllPairs Q) : (s.setShared i v).AllPairs Q := by
  refine AllPairs_shared Q s (s.setShared i v) rfl ?_ h
  intro y hy
  simp only [State.setShared] at hy
  rcases List.mem_or_eq_of_mem_set hy with hy | hy
  · exact Or.inl hy
  · exact Or.inr (hq y hy.symm)

theorem AllPairs_setWeak (Q : Addr → Option Nat → Prop) (s : State) (i : Nat)
    (v : Option weak_ptr) (hq : ∀ x, v = some x → Q x.ptr x.ptr_manager)
    (h : s.AllPairs Q) : (s.setWeak i v).AllPairs Q := by
  refine AllPairs_weak Q s (s.setWeak i v) rfl ?_ h
  intro y hy
  simp only [State.setWeak] at hy
  rcases List.mem_or_eq_of_mem_set hy with hy | hy
  · exact Or.inl hy
  · exact Or.inr (hq y hy.symm)

theorem weak_ptr.dtor_lists (s s' : State) (i : Nat) (h : weak_ptr.dtor i s = some s') :
    s'.shared = s.shared ∧ s'.weak = s.weak.set i none := by
  unfold weak_ptr.dtor at h
  cases hi : s.wk i with
  | none => simp [hi] at h
  | some x =>
    cases hm : x.ptr_manager with
    | none =>
      simp [hi, hm] at h
      subst h
      exact ⟨rfl, rfl⟩
    | some b =>
      cases hd : s.deref b with
      | none => simp [hi, hm, hd] at h
      | some blk =>
        simp only [hi, hm, hd] at h
        have h := Option.some.inj h
        subst h
        exact ⟨rfl, rfl⟩

theorem shared_dtor_pairs (Q : Addr → Option Nat → Prop) (s s' : State) (i : Nat)
    (h : shared_ptr.dtor i s = some s') (hp : s.AllPairs Q) : s'.AllPairs Q := by
  obtain ⟨hs, hw⟩ := shared_ptr.dtor_shared s s' i h
  have := AllPairs_setShared Q s i none (by intro x hx; cases hx) hp
  exact AllPairs_congr Q (s.setShared i none) s' hs hw this

theorem weak_dtor_pairs (Q : Addr → Option Nat → Prop) (s s' : State) (i : Nat)
    (h : weak_ptr.dtor i s = some s') (hp : s.AllPairs Q) : s'.AllPairs Q := by
  obtain ⟨hs, hw⟩ := weak_ptr.dtor_lists s s' i h
  have := AllPairs_setWeak Q s i none (by intro x hx; cases hx) hp
  exact AllPairs_congr Q (s.setWeak i none) s' hs hw this

theorem shared_swap_pairs (Q : Addr → Option Nat → Prop) (s s' : State) (i j : Nat)
    (h : shared_ptr.swap i j s = some s') (hp : s.AllPairs Q) : s'.AllPairs Q := by
  unfold shared_ptr.swap at h
  cases hi : s.sh i with
  | none => simp [hi] at h
  | some a =>
    cases hj : s.sh j with
    | none => simp [hi, hj] at h
    | some o =>
      simp [hi, hj] at h
      subst h
      apply AllPairs_setShared Q _ j _ _
        (AllPairs_setShared Q s i _ _ hp)
      · intro x hx
        injection hx with hx
        subst hx
        exact AllPairs_sh Q s hp i _ hi
      · intro x hx
        injection hx with hx
        subst hx
        exact AllPairs_sh Q s hp j _ hj

theorem weak_swap_pairs (Q : Addr → Option Nat → Prop) (s s' : State) (i j : Nat)
    (h : weak_ptr.swap i j s = some s') (hp : s.AllPairs Q) : s'.AllPairs Q := by
  unfold weak_ptr.swap at h
  cases hi : s.wk i with
  | none => simp [hi] at h
  | some a =>
    cases hj : s.wk j with
    | none => simp [hi, hj] at h
    | some o =>
      simp [hi, hj] at h
      subst h
      apply AllPairs_setWeak Q _ j _ _
        (AllPairs_setWeak Q s i _ _ hp)
      · intro x hx
        injection hx with hx
        subst hx
        exact AllPairs_wk Q s hp i _ hi
      · intro x hx
        injection hx with hx
        subst hx
        exact AllPairs_wk Q s hp j _ hj

theorem shared_ctor_pairs (Q : Addr → Option Nat → Prop) (s : State) (h0 : Q Addr.null none)
    (hp : s.AllPairs Q) : (shared_ptr.ctor s).2.AllPairs Q :=
  AllPairs_pushShared Q s s _ rfl rfl h0 hp

theorem weak_ctor_pairs (Q : Addr → Option Nat → Prop) (s : State) (h0 : Q Addr.null none)
    (hp : s.AllPairs Q) : (weak_ptr.ctor s).2.AllPairs Q :=
  AllPairs_pushWeak Q s s _ rfl rfl h0 hp

theorem shared_ctor_copy_pairs (Q : Addr → Option Nat → Prop) (s s' : State) (o r : Nat)
    (h : shared_ptr.ctor_copy o s = some (r, s')) (hp : s.AllPairs Q) : s'.AllPairs Q := by
  unfold shared_ptr.ctor_copy at h
  cases ho : s.sh o with
  | none => simp [ho] at h
  | some x =>
    have hq := AllPairs_sh Q s hp o x ho
    cases hm : x.ptr_manager with
    | none =>
      simp [ho, hm] at h
      obtain ⟨_, h⟩ := h
      subst h
      rw [hm] at hq
      exact AllPairs_pushShared Q s s _ rfl rfl hq hp
    | some b =>
      cases hd : s.deref b with
      | none => simp [ho, hm, hd] at h
      | some blk =>
        simp [ho, hm, hd] at h
        obtain ⟨_, h⟩ := h
        subst h
        rw [hm] at hq
        exact AllPairs_pushShared Q s _ _ rfl rfl hq hp

theorem shared_ctor_copy_cov_pairs (Q : Addr → Option Nat → Prop) (s s' : State) (k o r : Nat)
    (h : shared_ptr.ctor_copy_cov k o s = some (r, s'))
    (hbase : ∀ p m, Q p m → Q (Addr.toBase k p) m) (hp : s.AllPairs Q) : s'.AllPairs Q := by
  unfold shared_ptr.ctor_copy_cov at h
  cases ho : s.sh o with
  | none => simp [ho] at h
  | some x =>
    have hq := hbase _ _ (AllPairs_sh Q s hp o x ho)
    cases hm : x.ptr_manager with
    | none =>
      simp [ho, hm] at h
      obtain ⟨_, h⟩ := h
      subst h
      rw [hm] at hq
      exact AllPairs_pushShared Q s s _ rfl rfl hq hp
    | some b =>
      cases hd : s.deref b with
      | none => simp [ho, hm, hd] at h
      | some blk =>
        simp [ho, hm, hd] at h
        obtain ⟨_, h⟩ := h
        subst h
        rw [hm] at hq
        exact AllPairs_pushShared Q s _ _ rfl rfl hq hp

theorem shared_ctor_weak_pairs (Q : Addr → Option Nat → Prop) (s s' : State) (o r : Nat)
    (h : shared_ptr.ctor_weak o s = some (r, s')) (hp : s.AllPairs Q) : s'.AllPairs Q := by
  unfold shared_ptr.ctor_weak at h
  cases ho : s.wk o with
  | none => simp [ho] at h
  | some x =>
    have hq := AllPairs_wk Q s hp o x ho
    cases hm : x.ptr_manager with
    | none =>
      simp [ho, hm] at h
      obtain ⟨_, h⟩ := h
      subst h
      rw [hm] at hq
      exact AllPairs_pushShared Q s s _ rfl rfl hq hp
    | some b =>
      cases hd : s.deref b with
      | none => simp [ho, hm, hd] at h
      | some blk =>
        simp [ho, hm, hd] at h
        obtain ⟨_, h⟩ := h
        subst h
        rw [hm] at hq
        exact AllPairs_pushShared Q s _ _ rfl rfl hq hp

theorem weak_ctor_copy_pairs (Q : Addr → Option Nat → Prop) (s s' : State) (o r : Nat)
    (h : weak_ptr.ctor_copy o s = some (r, s')) (hp : s.AllPairs Q) : s'.AllPairs Q := by
  unfold weak_ptr.ctor_copy at h
  cases ho : s.wk o with
  | none => simp [ho] at h
  | some x =>
    have hq := AllPairs_wk Q s hp o x ho
    cases hm : x.ptr_manager with
    | none =>
      simp [ho, hm] at h
      obtain ⟨_, h⟩ := h
      subst h
      rw [hm] at hq
      exact AllPairs_pushWeak Q s s _ rfl rfl hq hp
    | some b =>
      cases hd : s.deref b with
      | none => simp [ho, hm, hd] at h
      | some blk =>
        simp [ho, hm, hd] at h
        obtain ⟨_, h⟩ := h
        subst h
        rw [hm] at hq
        exact AllPairs_pushWeak Q s _ _ rfl rfl hq hp

theorem weak_ctor_shared_pairs (Q : Addr → Option Nat → Prop) (s s' : State) (o r : Nat)
    (h : weak_ptr.ctor_shared o s = some (r, s')) (hp : s.AllPairs Q) : s'.AllPairs Q := by
  unfold weak_ptr.ctor_shared at h
  cases ho : s.sh o with
  | none => simp [ho] at h
  | some x =>
    have hq := AllPairs_sh Q s hp o x ho
    cases hm : x.ptr_manager with
    | none =>
      simp [ho, hm] at h
      obtain ⟨_, h⟩ := h
      subst h
      rw [hm] at hq
      exact AllPairs_pushWeak Q s s _ rfl rfl hq hp
    | some b =>
      cases hd : s.deref b with
      | none => simp [ho, hm, hd] at h
      | some blk =>
        simp [ho, hm, hd] at h
        obtain ⟨_, h⟩ := h
        subst h
        rw [hm] at hq
        exact AllPairs_pushWeak Q s _ _ rfl rfl hq hp

theorem shared_ctor_alias_body_pairs (Q : Addr → Option Nat → Prop) (s s' : State) (o r : Nat)
    (m : Addr) (h : shared_ptr.ctor_alias_body o m s = some (r, s'))
    (hm : ∀ b, Q m (some b)) (hp : s.AllPairs Q) : s'.AllPairs Q := by
  unfold shared_ptr.ctor_alias_body at h
  cases ho : s.sh o with
  | none => simp [ho] at h
  | some x =>
    cases hx : x.ptr_manager with
    | none => simp [ho, hx] at h
    | some b =>
      cases hd : s.deref b with
      | none => simp [ho, hx, hd] at h
      | some blk =>
        simp [ho, hx, hd] at h
        obtain ⟨_, h⟩ := h
        subst h
        exact AllPairs_pushShared Q s _ _ rfl rfl (hm b) hp

theorem shared_ctor_ptr_pairs (Q : Addr → Option Nat → Prop) (s : State) (val : Addr)
    (hv : Q val (some s.blocks.length)) (hp : s.AllPairs Q) :
    (shared_ptr.ctor_ptr val s).2.AllPairs Q :=
  AllPairs_pushShared Q s (s.newBlock _) _ rfl rfl hv hp

theorem shared_ctor_deleter_pairs (Q : Addr → Option Nat → Prop) (s : State) (val : Addr)
    (d : Nat) (hv : Q val (some s.blocks.length)) (hp : s.AllPairs Q) :
    (shared_ptr.ctor_deleter val d s).2.AllPairs Q :=
  AllPairs_pushShared Q s (s.newBlock _) _ rfl rfl hv hp

theorem shared_reset_pairs (Q : Addr → Option Nat → Prop) (s s' : State) (i : Nat)
    (h : shared_ptr.reset i s = some s') (h0 : Q Addr.null none) (hp : s.AllPairs Q) :
    s'.AllPairs Q := by
  unfold shared_ptr.reset at h
  cases h2 : shared_ptr.swap (shared_ptr.ctor s).1 i (shared_ptr.ctor s).2 with
  | none => simp [h2] at h
  | some s2 =>
    simp only [h2] at h
    exact shared_dtor_pairs Q s2 s' _ h
      (shared_swap_pairs Q _ s2 _ i h2 (shared_ctor_pairs Q s h0 hp))

theorem weak_reset_pairs (Q : Addr → Option Nat → Prop) (s s' : State) (i : Nat)
    (h : weak_ptr.reset i s = some s') (h0 : Q Addr.null none) (hp : s.AllPairs Q) :
    s'.AllPairs Q := by
  unfold weak_ptr.reset at h
  cases h2 : weak_ptr.swap (weak_ptr.ctor s).1 i (weak_ptr.ctor s).2 with
  | none => simp [h2] at h
  | some s2 =>
    simp only [h2] at h
    exact weak_dtor_pairs Q s2 s' _ h
      (weak_swap_pairs Q _ s2 _ i h2 (weak_ctor_pairs Q s h0 hp))

theorem shared_assign_pairs (Q : Addr → Option Nat → Prop) (s s' : State) (i o : Nat)
    (h : shared_ptr.assign i o s = some s') (hp : s.AllPairs Q) : s'.AllPairs Q := by
  unfold shared_ptr.assign at h
  cases hi : s.sh i with
  | none => simp [hi] at h
  | some a =>
    cases ho : s.sh o with
    | none => simp [hi, ho] at h
    | some x =>
      simp only [hi, ho] at h
      by_cases hio : i = o
      · simp [hio] at h
        subst h
        exact hp
      · simp only [hio, if_false] at h
        cases h1 : shared_ptr.ctor_copy o s with
        | none => simp [h1] at h
        | some p1 =>
          obtain ⟨tmp, s1⟩ := p1
          simp only [h1] at h
          cases h2 : shared_ptr.swap i tmp s1 with
          | none => simp [h2] at h
          | some s2 =>
            simp only [h2] at h
            exact shared_dtor_pairs Q s2 s' tmp h
              (shared_swap_pairs Q s1 s2 i tmp h2 (shared_ctor_copy_pairs Q s s1 o tmp h1 hp))

/-- Every operation only hands on pairs that live handles already have
(through a pointer conversion in the covariant copy), the empty pair, the
pair of a new in-place block with its own storage, the pair of an address the
caller gives with the new block, and (aliasing constructor) the pair of a
member address with some block. -/
theorem step_pairs (Q : Addr → Option Nat → Prop) (op : Op) (s s' : State)
    (h : step op s = some s') (h0 : Q Addr.null none)
    (hbase : ∀ k p m, Q p m → Q (Addr.toBase k p) m)
    (hpay : ∀ args, op = Op.make_shared args →
      Q (Addr.payloadOf s.blocks.length) (some s.blocks.length))
    (hgiven : ∀ a b, op.givenAddress = some a →
      (op.isAliasing = true ∨ b = s.blocks.length) → Q a (some b))
    (hp : s.AllPairs Q) : s'.AllPairs Q := by
  cases op with
  | shared_ctor =>
    simp only [step, Option.some.injEq] at h; subst h
    exact shared_ctor_pairs Q s h0 hp
  | shared_ctor_nullptr =>
    simp only [step, Option.some.injEq] at h; subst h
    exact shared_ctor_pairs Q s h0 hp
  | shared_ctor_ptr val =>
    simp only [step, Option.some.injEq] at h; subst h
    exact shared_ctor_ptr_pairs Q s val (hgiven val _ rfl (Or.inr rfl)) hp
  | shared_ctor_deleter val d =>
    simp only [step, Option.some.injEq] at h; subst h
    exact shared_ctor_deleter_pairs Q s val d (hgiven val _ rfl (Or.inr rfl)) hp
  | shared_ctor_copy o =>
    simp only [step, Option.map_eq_some'] at h
    obtain ⟨⟨r, s1⟩, h, rfl⟩ := h
    exact shared_ctor_copy_pairs Q s s1 o r h hp
  | shared_ctor_copy_cov k o =>
    simp only [step, Option.map_eq_some'] at h
    obtain ⟨⟨r, s1⟩, h, rfl⟩ := h
    exact shared_ctor_copy_cov_pairs Q s s1 k o r h (hbase k) hp
  | shared_ctor_weak o =>
    simp only [step, Option.map_eq_some'] at h
    obtain ⟨⟨r, s1⟩, h, rfl⟩ := h
    exact shared_ctor_weak_pairs Q s s1 o r h hp
  | shared_ctor_move o =>
    simp only [step, Option.map_eq_some'] at h
    obtain ⟨⟨r, s1⟩, h, rfl⟩ := h
    unfold shared_ptr.ctor_move at h
    cases h1 : shared_ptr.swap (shared_ptr.ctor s).1 o (shared_ptr.ctor s).2 with
    | none => simp [h1] at h
    | some s2 =>
      simp [h1] at h
      obtain ⟨_, h⟩ := h
      subst h
      exact shared_swap_pairs Q _ s2 _ o h1 (shared_ctor_pairs Q s h0 hp)
  | shared_ctor_alias a m =>
    simp only [step, Option.map_eq_some'] at h
    obtain ⟨⟨r, s1⟩, h, rfl⟩ := h
    unfold shared_ptr.ctor_alias at h
    cases h1 : shared_ptr.ctor_copy a s with
    | none => simp [h1] at h
    | some p1 =>
      obtain ⟨param, t1⟩ := p1
      simp only [h1] at h
      cases h2 : shared_ptr.ctor_alias_body param m t1 with
      | none => simp [h2] at h
      | some p2 =>
        obtain ⟨r2, t2⟩ := p2
        simp only [h2] at h
        cases h3 : shared_ptr.dtor param t2 with
        | none => simp [h3] at h
        | some t3 =>
          simp [h3] at h
          obtain ⟨_, h⟩ := h
          subst h
          exact shared_dtor_pairs Q t2 t3 param h3
            (shared_ctor_alias_body_pairs Q t1 t2 param r2 m h2
              (fun b => hgiven m b rfl (Or.inl rfl))
              (shared_ctor_copy_pairs Q s t1 a param h1 hp))
  | shared_assign a o => exact shared_assign_pairs Q s s' a o h hp
  | shared_assign_cov a o => exact shared_assign_pairs Q s s' a o h hp
  | shared_assign_move a o =>
    simp only [step] at h
    unfold shared_ptr.assign_move at h
    cases hi : s.sh a with
    | none => simp [hi] at h
    | some x =>
      cases ho : s.sh o with
      | none => simp [hi, ho] at h
      | some y =>
        simp only [hi, ho] at h
        by_cases hio : a = o
        · simp [hio] at h
          subst h
          exact hp
        · simp only [hio, if_false] at h
          cases h1 : shared_ptr.swap a o s with
          | none => simp [h1] at h
          | some s1 =>
            simp only [h1] at h
            cases h2 : shared_ptr.swap (shared_ptr.ctor s1).1 o (shared_ptr.ctor s1).2 with
            | none => simp [h2] at h
            | some s2 =>
              simp only [h2] at h
              exact shared_dtor_pairs Q s2 s' _ h
                (shared_swap_pairs Q _ s2 _ o h2
                  (shared_ctor_pairs Q s1 h0 (shared_swap_pairs Q s s1 a o h1 hp)))
  | shared_dtor a => exact shared_dtor_pairs Q s s' a h hp
  | shared_reset a => exact shared_reset_pairs Q s s' a h h0 hp
  | shared_reset_ptr a val =>
    simp only [step] at h
    unfold shared_ptr.reset_ptr at h
    cases h2 : shared_ptr.swap (shared_ptr.ctor_ptr val s).1 a (shared_ptr.ctor_ptr val s).2 with
    | none => simp [h2] at h
    | some s2 =>
      simp only [h2] at h
      exact shared_dtor_pairs Q s2 s' _ h
        (shared_swap_pairs Q _ s2 _ a h2
          (shared_ctor_ptr_pairs Q s val (hgiven val _ rfl (Or.inr rfl)) hp))
  | shared_reset_deleter a val d =>
    simp only [step] at h
    unfold shared_ptr.reset_deleter at h
    cases h2 : shared_ptr.swap (shared_ptr.ctor_deleter val d s).1 a
        (shared_ptr.ctor_deleter val d s).2 with
    | none => simp [h2] at h
    | some s2 =>
      simp only [h2] at h
      exact shared_dtor_pairs Q s2 s' _ h
        (shared_swap_pairs Q _ s2 _ a h2
          (shared_ctor_deleter_pairs Q s val d (hgiven val _ rfl (Or.inr rfl)) hp))
  | shared_swap a o => exact shared_swap_pairs Q s s' a o h hp
  | make_shared args =>
    simp only [step, Option.some.injEq] at h; subst h
    exact AllPairs_pushShared Q s (s.newBlock _) _ rfl rfl (hpay args rfl) hp
  | weak_ctor =>
    simp only [step, Option.some.injEq] at h; subst h
    exact weak_ctor_pairs Q s h0 hp
  | weak_ctor_copy o =>
    simp only [step, Option.map_eq_some'] at h
    obtain ⟨⟨r, s1⟩, h, rfl⟩ := h
    exact weak_ctor_copy_pairs Q s s1 o r h hp
  | weak_ctor_move o =>
    simp only [step, Option.map_eq_some'] at h
    obtain ⟨⟨r, s1⟩, h, rfl⟩ := h
    unfold weak_ptr.ctor_move at h
    cases h1 : weak_ptr.swap (weak_ptr.ctor s).1 o (weak_ptr.ctor s).2 with
    | none => simp [h1] at h
    | some s2 =>
      simp [h1] at h
      obtain ⟨_, h⟩ := h
      subst h
      exact weak_swap_pairs Q _ s2 _ o h1 (weak_ctor_pairs Q s h0 hp)
  | weak_ctor_shared o =>
    simp only [step, Option.map_eq_some'] at h
    obtain ⟨⟨r, s1⟩, h, rfl⟩ := h
    exact weak_ctor_shared_pairs Q s s1 o r h hp
  | weak_assign a o =>
    simp only [step] at h
    unfold weak_ptr.assign at h
    cases hi : s.wk a with
    | none => simp [hi] at h
    | some x =>
      cases ho : s.wk o with
      | none => simp [hi, ho] at h
      | some y =>
        simp only [hi, ho] at h
        by_cases hio : a = o
        · simp [hio] at h
          subst h
          exact hp
        · simp only [hio, if_false] at h
          cases h1 : weak_ptr.ctor_copy o s with
          | none => simp [h1] at h
          | some p1 =>
            obtain ⟨tmp, s1⟩ := p1
            simp only [h1] at h
            cases h2 : weak_ptr.swap a tmp s1 with
            | none => simp [h2] at h
            | some s2 =>
              simp only [h2] at h
              exact weak_dtor_pairs Q s2 s' tmp h
                (weak_swap_pairs Q s1 s2 a tmp h2 (weak_ctor_copy_pairs Q s s1 o tmp h1 hp))
  | weak_assign_move a o =>
    simp only [step] at h
    unfold weak_ptr.assign_move at h
    cases hi : s.wk a with
    | none => simp [hi] at h
    | some x =>
      cases ho : s.wk o with
      | none => simp [hi, ho] at h
      | some y =>
        simp only [hi, ho] at h
        by_cases hio : a = o
        · simp [hio] at h
          subst h
          exact hp
        · simp only [hio, if_false] at h
          cases h1 : weak_ptr.swap a o s with
          | none => simp [h1] at h
          | some s1 =>
            simp only [h1] at h
            exact weak_reset_pairs Q s1 s' o h h0 (weak_swap_pairs Q s s1 a o h1 hp)
  | weak_assign_shared a o =>
    simp only [step] at h
    unfold weak_ptr.assign_shared at h
    cases hi : s.wk a with
    | none => simp [hi] at h
    | some x =>
      simp only [hi] at h
      cases h1 : weak_ptr.ctor_shared o s with
      | none => simp [h1] at h
      | some p1 =>
        obtain ⟨tmp, s1⟩ := p1
        simp only [h1] at h
        cases h2 : weak_ptr.swap a tmp s1 with
        | none => simp [h2] at h
        | some s2 =>
          simp only [h2] at h
          exact weak_dtor_pairs Q s2 s' tmp h
            (weak_swap_pairs Q s1 s2 a tmp h2 (weak_ctor_shared_pairs Q s s1 o tmp h1 hp))
  | weak_dtor a => exact weak_dtor_pairs Q s s' a h hp
  | weak_reset a => exact weak_reset_pairs Q s s' a h h0 hp
  | weak_swap a o => exact weak_swap_pairs Q s s' a o h hp
  | weak_lock a =>
    simp only [step, Option.map_eq_some'] at h
    obtain ⟨⟨r, s1⟩, h, rfl⟩ := h
    unfold weak_ptr.lock at h
    cases he : weak_ptr.expired a s with
    | none => simp [he] at h
    | some e =>
      cases e with
      | true =>
        simp [he] at h
        have := shared_ctor_pairs Q s h0 hp
        rw [h] at this
        exact this
      | false =>
        simp only [he] at h
        exact shared_ctor_weak_pairs Q s s1 a r h hp

/-! ## The allocation record -/

theorem allocLog_of_strongSide (s s' : State) (h : s'.strongSide = s.strongSide) :
    s'.allocLog = s.allocLog := by
  unfold State.strongSide at h
  simp only [Prod.mk.injEq] at h
  obtain ⟨hb, _, ht⟩ := h
  have hl := congrArg List.length hb
  simp only [List.length_map] at hl
  simp [State.allocLog, hl, ht]

theorem destroy_allocs (b : Nat) (blk : base_control_block_) :
    (base_control_block_.destroy b blk).2.filter Event.isAlloc = [] := by
  unfold base_control_block_.destroy
  split <;> simp [Event.isAlloc]

theorem delete_allocs (b : Nat) (blk : base_control_block_) :
    (base_control_block_.delete b blk).2.filter Event.isAlloc = [] := by
  unfold base_control_block_.delete
  split
  · split <;> simp [Event.isAlloc]
  · simp [Event.isAlloc]

theorem shared_ptr.dtor_allocLog (s s' : State) (i : Nat) (h : shared_ptr.dtor i s = some s') :
    s'.allocLog = s.allocLog := by
  unfold shared_ptr.dtor at h
  cases hi : s.sh i with
  | none => simp [hi] at h
  | some x =>
    cases hm : x.ptr_manager with
    | none =>
      simp only [hi, hm] at h
      have h := Option.some.inj h
      subst h
      rfl
    | some b =>
      cases hd : s.deref b with
      | none => simp [hi, hm, hd] at h
      | some blk =>
        simp only [hi, hm, hd] at h
        split at h
        · split at h
          · have h := Option.some.inj h
            subst h
            simp [State.allocLog, State.store, State.emit, State.setShared, List.filter_append,
              destroy_allocs, delete_allocs]
          · have h := Option.some.inj h
            subst h
            simp [State.allocLog, State.store, State.emit, State.setShared, List.filter_append,
              destroy_allocs]
        · have h := Option.some.inj h
          subst h
          simp [State.allocLog, State.store, State.setShared]

theorem shared_ptr.swap_allocLog (s s' : State) (i j : Nat)
    (h : shared_ptr.swap i j s = some s') : s'.allocLog = s.allocLog := by
  unfold shared_ptr.swap at h
  cases hi : s.sh i with
  | none => simp [hi] at h
  | some a =>
    cases hj : s.sh j with
    | none => simp [hi, hj] at h
    | some o =>
      simp only [hi, hj] at h
      have h := Option.some.inj h
      subst h
      rfl

theorem shared_ptr.ctor_copy_allocLog (s s' : State) (o r : Nat)
    (h : shared_ptr.ctor_copy o s = some (r, s')) : s'.allocLog = s.allocLog := by
  unfold shared_ptr.ctor_copy at h
  cases ho : s.sh o with
  | none => simp [ho] at h
  | some x =>
    cases hm : x.ptr_manager with
    | none =>
      simp [ho, hm] at h
      obtain ⟨_, h⟩ := h
      subst h
      rfl
    | some b =>
      cases hd : s.deref b with
      | none => simp [ho, hm, hd] at h
      | some blk =>
        simp [ho, hm, hd] at h
        obtain ⟨_, h⟩ := h
        subst h
        simp [State.allocLog, State.store, State.pushShared]

theorem shared_ptr.ctor_copy_cov_allocLog (s s' : State) (k o r : Nat)
    (h : shared_ptr.ctor_copy_cov k o s = some (r, s')) : s'.allocLog = s.allocLog := by
  unfold shared_ptr.ctor_copy_cov at h
  cases ho : s.sh o with
  | none => simp [ho] at h
  | some x =>
    cases hm : x.ptr_manager with
    | none =>
      simp [ho, hm] at h
      obtain ⟨_, h⟩ := h
      subst h
      rfl
    | some b =>
      cases hd : s.deref b with
      | none => simp [ho, hm, hd] at h
      | some blk =>
        simp [ho, hm, hd] at h
        obtain ⟨_, h⟩ := h
        subst h
        simp [State.allocLog, State.store, State.pushShared]

theorem shared_ptr.ctor_weak_allocLog (s s' : State) (o r : Nat)
    (h : shared_ptr.ctor_weak o s = some (r, s')) : s'.allocLog = s.allocLog := by
  unfold shared_ptr.ctor_weak at h
  cases ho : s.wk o with
  | none => simp [ho] at h
  | some x =>
    cases hm : x.ptr_manager with
    | none =>
      simp [ho, hm] at h
      obtain ⟨_, h⟩ := h
      subst h
      rfl
    | some b =>
      cases hd : s.deref b with
      | none => simp [ho, hm, hd] at h
      | some blk =>
        simp [ho, hm, hd] at h
        obtain ⟨_, h⟩ := h
        subst h
        simp [State.allocLog, State.store, State.pushShared]

theorem shared_ptr.ctor_alias_body_allocLog (s s' : State) (o r : Nat) (m : Addr)
    (h : shared_ptr.ctor_alias_body o m s = some (r, s')) : s'.allocLog = s.allocLog := by
  unfold shared_ptr.ctor_alias_body at h
  cases ho : s.sh o with
  | none => simp [ho] at h
  | some x =>
    cases hm : x.ptr_manager with
    | none => simp [ho, hm] at h
    | some b =>
      cases hd : s.deref b with
      | none => simp [ho, hm, hd] at h
      | some blk =>
        simp [ho, hm, hd] at h
        obtain ⟨_, h⟩ := h
        subst h
        simp [State.allocLog, State.store, State.pushShared]

theorem shared_ptr.assign_allocLog (s s' : State) (i o : Nat)
    (h : shared_ptr.assign i o s = some s') : s'.allocLog = s.allocLog := by
  unfold shared_ptr.assign at h
  cases hi : s.sh i with
  | none => simp [hi] at h
  | some a =>
    cases ho : s.sh o with
    | none => simp [hi, ho] at h
    | some x =>
      simp only [hi, ho] at h
      by_cases hio : i = o
      · simp [hio] at h
        subst h
        rfl
      · simp only [hio, if_false] at h
        cases h1 : shared_ptr.ctor_copy o s with
        | none => simp [h1] at h
        | some p1 =>
          obtain ⟨tmp, s1⟩ := p1
          simp only [h1] at h
          cases h2 : shared_ptr.swap i tmp s1 with
          | none => simp [h2] at h
          | some s2 =>
            simp only [h2] at h
            rw [shared_ptr.dtor_allocLog s2 s' tmp h, shared_ptr.swap_allocLog s1 s2 i tmp h2,
              shared_ptr.ctor_copy_allocLog s s1 o tmp h1]

theorem newBlock_push_allocLog (s : State) (d : Derived) (x : shared_ptr) :
    ((s.newBlock d).pushShared x).allocLog =
      (s.blocks.length + 1, s.allocLog.2 ++ [Event.alloc s.blocks.length d]) := by
  simp [State.allocLog, State.newBlock, State.pushShared, List.filter_append, Event.isAlloc]

/-- Every operation leaves the allocation record as it is, except that an
operation that allocates adds its one block at the end. -/
theorem step_allocLog (op : Op) (s s' : State) (h : step op s = some s') :
    s'.allocLog = (s.blocks.length + (allocEvents s.blocks.length op.allocates).length,
      s.allocLog.2 ++ allocEvents s.blocks.length op.allocates) := by
  have hsame : op.allocates = none → s'.allocLog = s.allocLog →
      s'.allocLog = (s.blocks.length + (allocEvents s.blocks.length op.allocates).length,
        s.allocLog.2 ++ allocEvents s.blocks.length op.allocates) := by
    intro ha e
    rw [ha, e]
    simp [allocEvents, State.allocLog]
  by_cases hop : op.isWeakNonLock = true
  · apply hsame _ (allocLog_of_strongSide s s' (weak_step_frame op hop s s' h))
    cases op <;> simp [Op.isWeakNonLock] at hop <;> rfl
  cases op with
  | shared_ctor =>
    simp only [step, Option.some.injEq] at h; subst h
    exact hsame rfl rfl
  | shared_ctor_nullptr =>
    simp only [step, Option.some.injEq] at h; subst h
    exact hsame rfl rfl
  | shared_ctor_ptr val =>
    simp only [step, Option.some.injEq] at h; subst h
    exact newBlock_push_allocLog s _ _
  | shared_ctor_deleter val d =>
    simp only [step, Option.some.injEq] at h; subst h
    exact newBlock_push_allocLog s _ _
  | shared_ctor_copy o =>
    simp only [step, Option.map_eq_some'] at h
    obtain ⟨⟨r, s1⟩, h, rfl⟩ := h
    exact hsame rfl (shared_ptr.ctor_copy_allocLog s s1 o r h)
  | shared_ctor_copy_cov k o =>
    simp only [step, Option.map_eq_some'] at h
    obtain ⟨⟨r, s1⟩, h, rfl⟩ := h
    exact hsame rfl (shared_ptr.ctor_copy_cov_allocLog s s1 k o r h)
  | shared_ctor_weak o =>
    simp only [step, Option.map_eq_some'] at h
    obtain ⟨⟨r, s1⟩, h, rfl⟩ := h
    exact hsame rfl (shared_ptr.ctor_weak_allocLog s s1 o r h)
  | shared_ctor_move o =>
    simp only [step, Option.map_eq_some'] at h
    obtain ⟨⟨r, s1⟩, h, rfl⟩ := h
    unfold shared_ptr.ctor_move at h
    cases h1 : shared_ptr.swap (shared_ptr.ctor s).1 o (shared_ptr.ctor s).2 with
    | none => simp [h1] at h
    | some s2 =>
      simp [h1] at h
      obtain ⟨_, h⟩ := h
      subst h
      exact hsame rfl (shared_ptr.swap_allocLog (shared_ptr.ctor s).2 s2 _ o h1)
  | shared_ctor_alias a m =>
    simp only [step, Option.map_eq_some'] at h
    obtain ⟨⟨r, s1⟩, h, rfl⟩ := h
    unfold shared_ptr.ctor_alias at h
    cases h1 : shared_ptr.ctor_copy a s with
    | none => simp [h1] at h
    | some p1 =>
      obtain ⟨param, t1⟩ := p1
      simp only [h1] at h
      cases h2 : shared_ptr.ctor_alias_body param m t1 with
      | none => simp [h2] at h
      | some p2 =>
        obtain ⟨r2, t2⟩ := p2
        simp only [h2] at h
        cases h3 : shared_ptr.dtor param t2 with
        | none => simp [h3] at h
        | some t3 =>
          simp [h3] at h
          obtain ⟨_, h⟩ := h
          subst h
          apply hsame rfl
          rw [shared_ptr.dtor_allocLog t2 t3 param h3,
            shared_ptr.ctor_alias_body_allocLog t1 t2 param r2 m h2,
            shared_ptr.ctor_copy_allocLog s t1 a param h1]
  | shared_assign a o => exact hsame rfl (shared_ptr.assign_allocLog s s' a o h)
  | shared_assign_cov a o => exact hsame rfl (shared_ptr.assign_allocLog s s' a o h)
  | shared_assign_move a o =>
    apply hsame rfl
    simp only [step] at h
    unfold shared_ptr.assign_move at h
    cases hi : s.sh a with
    | none => simp [hi] at h
    | some x =>
      cases ho : s.sh o with
      | none => simp [hi, ho] at h
      | some y =>
        simp only [hi, ho] at h
        by_cases hio : a = o
        · simp [hio] at h
          subst h
          rfl
        · simp only [hio, if_false] at h
          cases h1 : shared_ptr.swap a o s with
          | none => simp [h1] at h
          | some s1 =>
            simp only [h1] at h
            cases h2 : shared_ptr.swap (shared_ptr.ctor s1).1 o (shared_ptr.ctor s1).2 with
            | none => simp [h2] at h
            | some s2 =>
              simp only [h2] at h
              rw [shared_ptr.dtor_allocLog s2 s' _ h, shared_ptr.swap_allocLog _ s2 _ o h2]
              exact shared_ptr.swap_allocLog s s1 a o h1
  | shared_dtor a => exact hsame rfl (shared_ptr.dtor_allocLog s s' a h)
  | shared_reset a =>
    apply hsame rfl
    simp only [step] at h
    unfold shared_ptr.reset at h
    cases h2 : shared_ptr.swap (shared_ptr.ctor s).1 a (shared_ptr.ctor s).2 with
    | none => simp [h2] at h
    | some s2 =>
      simp only [h2] at h
      rw [shared_ptr.dtor_allocLog s2 s' _ h, shared_ptr.swap_allocLog _ s2 _ a h2]
      rfl
  | shared_reset_ptr a val =>
    simp only [step] at h
    unfold shared_ptr.reset_ptr at h
    cases h2 : shared_ptr.swap (shared_ptr.ctor_ptr val s).1 a (shared_ptr.ctor_ptr val s).2 with
    | none => simp [h2] at h
    | some s2 =>
      simp only [h2] at h
      rw [shared_ptr.dtor_allocLog s2 s' _ h, shared_ptr.swap_allocLog _ s2 _ a h2]
      exact newBlock_push_allocLog s _ _
  | shared_reset_deleter a val d =>
    simp only [step] at h
    unfold shared_ptr.reset_deleter at h
    cases h2 : shared_ptr.swap (shared_ptr.ctor_deleter val d s).1 a
        (shared_ptr.ctor_deleter val d s).2 with
    | none => simp [h2] at h
    | some s2 =>
      simp only [h2] at h
      rw [shared_ptr.dtor_allocLog s2 s' _ h, shared_ptr.swap_allocLog _ s2 _ a h2]
      exact newBlock_push_allocLog s _ _
  | shared_swap a o => exact hsame rfl (shared_ptr.swap_allocLog s s' a o h)
  | make_shared args =>
    simp only [step, Option.some.injEq] at h; subst h
    exact newBlock_push_allocLog s _ _
  | weak_lock a =>
    apply hsame rfl
    simp only [step, Option.map_eq_some'] at h
    obtain ⟨⟨r, s1⟩, h, rfl⟩ := h
    unfold weak_ptr.lock at h
    cases he : weak_ptr.expired a s with
    | none => simp [he] at h
    | some e =>
      cases e with
      | true =>
        simp [he] at h
        have e2 : (shared_ptr.ctor s).2.allocLog = s.allocLog := rfl
        rw [h] at e2
        exact e2
      | false =>
        simp only [he] at h
        exact shared_ptr.ctor_weak_allocLog s s1 a r h
  | weak_ctor => simp [Op.isWeakNonLock] at hop
  | weak_ctor_copy _ => simp [Op.isWeakNonLock] at hop
  | weak_ctor_move _ => simp [Op.isWeakNonLock] at hop
  | weak_ctor_shared _ => simp [Op.isWeakNonLock] at hop
  | weak_assign _ _ => simp [Op.isWeakNonLock] at hop
  | weak_assign_move _ _ => simp [Op.isWeakNonLock] at hop
  | weak_assign_shared _ _ => simp [Op.isWeakNonLock] at hop
  | weak_dtor _ => simp [Op.isWeakNonLock] at hop
  | weak_reset _ => simp [Op.isWeakNonLock] at hop
  | weak_swap _ _ => simp [Op.isWeakNonLock] at hop

/-! ## Null observed address and missing block -/

theorem ReachableVia.to_reachable (allowed : Op → Bool) (s : State) (h : ReachableVia allowed s) :
    Reachable s := by
  induction h with
  | init => exact Reachable.init
  | step s s' op _ hcap _ hstep ih => exact Reachable.step s s' op ih hcap hstep

theorem Reachable.no_block_null (s : State) (h : Reachable s) :
    s.AllPairs (fun p m => m = none → p = Addr.null) := by
  induction h with
  | init => exact AllPairs_init _
  | step s s' op _ _ hstep ih =>
    apply step_pairs _ op s s' hstep _ _ _ _ ih
    · intro _; rfl
    · intro k p m hq hm
      rw [hq hm]
      exact Addr.toBase_null k
    · intro _ _ hb; cases hb
    · intro a b _ _ hb; cases hb

theorem AllPairs_imp (Q Q' : Addr → Option Nat → Prop) (s : State)
    (hi : ∀ p m, Q p m → Q' p m) (h : s.AllPairs Q) : s.AllPairs Q' :=
  ⟨fun x hx => hi _ _ (h.1 x hx), fun x hx => hi _ _ (h.2 x hx)⟩

theorem any_filter_isAlloc (l : List Event) (b : Nat) :
    (l.filter Event.isAlloc).any (isNullAllocOf b) = l.any (isNullAllocOf b) := by
  induction l with
  | nil => rfl
  | cons e l ih =>
    cases e with
    | alloc k d => simp [List.filter_cons, Event.isAlloc, ih]
    | destroy k => simp [List.filter_cons, Event.isAlloc, isNullAllocOf, ih]
    | deleter k d a => simp [List.filter_cons, Event.isAlloc, isNullAllocOf, ih]
    | dtorT k => simp [List.filter_cons, Event.isAlloc, isNullAllocOf, ih]
    | dealloc k => simp [List.filter_cons, Event.isAlloc, isNullAllocOf, ih]

theorem State.allocatedFromNull_eq (s : State) (b : Nat) :
    s.allocatedFromNull b = s.allocLog.2.any (isNullAllocOf b) := by
  unfold State.allocatedFromNull State.allocLog
  exact (any_filter_isAlloc s.trace b).symm

theorem isNullAllocOf_block (b : Nat) (e : Event) (h : isNullAllocOf b e = true) :
    e.block = b := by
  cases e with
  | alloc k d =>
    cases d with
    | control_block a x =>
      simp [isNullAllocOf] at h
      exact h.1
    | inplace_control_block a => simp [isNullAllocOf] at h
  | destroy k => simp [isNullAllocOf] at h
  | deleter k d a => simp [isNullAllocOf] at h
  | dtorT k => simp [isNullAllocOf] at h
  | dealloc k => simp [isNullAllocOf] at h

/-- The allocations logged are of blocks that exist. -/
theorem Reachable.allocs_bounded (s : State) (h : Reachable s) :
    ∀ e, e ∈ s.allocLog.2 → e.block < s.blocks.length := by
  induction h with
  | init => intro e he; simp [State.allocLog, State.init] at he
  | step s s' op _ _ hstep ih =>
    have ha := step_allocLog op s s' hstep
    have hl : s'.blocks.length =
        s.blocks.length + (allocEvents s.blocks.length op.allocates).length :=
      congrArg Prod.fst ha
    have hev : s'.allocLog.2 = s.allocLog.2 ++ allocEvents s.blocks.length op.allocates :=
      congrArg Prod.snd ha
    intro e he
    rw [hev, List.mem_append] at he
    rcases he with he | he
    · have := ih e he
      omega
    · cases hop : op.allocates with
      | none => simp [hop, allocEvents] at he
      | some dv =>
        simp only [hop, allocEvents, List.mem_singleton] at he
        subst he
        simp only [hop, allocEvents, List.length_singleton] at hl
        simp only [Event.block]
        omega

/-- One operation changes `allocatedFromNull` for the block it allocates only:
that block was allocated for a null raw address exactly when the operation is
a construction or `reset` from a null raw address. -/
theorem step_allocatedFromNull (op : Op) (s s' : State) (hr : Reachable s)
    (hstep : step op s = some s') (b : Nat) :
    s'.allocatedFromNull b =
      (s.allocatedFromNull b || (allocEvents s.blocks.length op.allocates).any (isNullAllocOf b)) ∧
    (s.blocks.length ≤ b → s.allocatedFromNull b = false) ∧
    s.blocks.length ≤ s'.blocks.length := by
  have ha := step_allocLog op s s' hstep
  have hl : s'.blocks.length =
      s.blocks.length + (allocEvents s.blocks.length op.allocates).length :=
    congrArg Prod.fst ha
  have hev : s'.allocLog.2 = s.allocLog.2 ++ allocEvents s.blocks.length op.allocates :=
    congrArg Prod.snd ha
  refine ⟨?_, ?_, by omega⟩
  · rw [State.allocatedFromNull_eq, State.allocatedFromNull_eq, hev, List.any_append]
  · intro hb
    rw [State.allocatedFromNull_eq]
    cases hq : s.allocLog.2.any (isNullAllocOf b) with
    | false => rfl
    | true =>
      rw [List.any_eq_true] at hq
      obtain ⟨e, he, hn⟩ := hq
      have h1 := Reachable.allocs_bounded s hr e he
      have h2 := isNullAllocOf_block b e hn
      omega

/-- In every state reached without the aliasing constructor, a handle without
a block observes null, and a handle with a block observes null exactly when
its block was allocated for a null raw address. -/
theorem ReachableVia.all_nullLinked (s : State) (h : ReachableVia Op.notAliasing s) :
    s.AllPairs s.nullLinked := by
  induction h with
  | init => exact AllPairs_init _
  | step s s' op hv _ hop hstep ih =>
    have hr := ReachableVia.to_reachable _ s hv
    have hfn := fun b => step_allocatedFromNull op s s' hr hstep b
    have hlen := (hfn 0).2.2
    have hal : op.isAliasing = false := by
      simpa [Op.notAliasing] using hop
    have hkeep : s.AllPairs s'.nullLinked := by
      apply AllPairs_imp _ _ s _ ih
      intro p m hq
      refine ⟨hq.1, ?_⟩
      intro b hb
      obtain ⟨hlt, hiff⟩ := hq.2 b hb
      refine ⟨by omega, ?_⟩
      rw [(hfn b).1]
      have hnew : (allocEvents s.blocks.length op.allocates).any (isNullAllocOf b) = false := by
        cases hq2 : (allocEvents s.blocks.length op.allocates).any (isNullAllocOf b) with
        | false => rfl
        | true =>
          rw [List.any_eq_true] at hq2
          obtain ⟨e, he, hn⟩ := hq2
          have h2 := isNullAllocOf_block b e hn
          cases ho : op.allocates with
          | none => simp [ho, allocEvents] at he
          | some dv =>
            simp only [ho, allocEvents, List.mem_singleton] at he
            subst he
            simp only [Event.block] at h2
            omega
      rw [hnew, Bool.or_false]
      exact hiff
    apply step_pairs _ op s s' hstep _ _ _ _ hkeep
    · exact ⟨fun _ => rfl, fun b hb => by cases hb⟩
    · intro k p m hq
      refine ⟨fun hm => ?_, fun b hb => ?_⟩
      · rw [hq.1 hm]
        exact Addr.toBase_null k
      · exact ⟨(hq.2 b hb).1, (Addr.toBase_eq_null k p).trans (hq.2 b hb).2⟩
    · intro args hargs
      subst hargs
      have hl := congrArg Prod.fst (step_allocLog _ s s' hstep)
      refine ⟨fun hm => (by cases hm), fun b hb => ?_⟩
      have hb := (Option.some.inj hb).symm
      subst hb
      have hl2 : s'.blocks.length = s.blocks.length + 1 := hl
      refine ⟨by omega, ?_⟩
      rw [(hfn _).1, (hfn _).2.1 (Nat.le_refl _)]
      simp [Op.allocates, allocEvents, isNullAllocOf]
    · intro a b ha hor
      rcases hor with hor | hor
      · rw [hal] at hor
        cases hor
      · subst hor
        have hl := congrArg Prod.fst (step_allocLog op s s' hstep)
        refine ⟨fun hm => (by cases hm), fun b hb => ?_⟩
        have hb := (Option.some.inj hb).symm
        subst hb
        rw [(hfn _).1, (hfn _).2.1 (Nat.le_refl _)]
        cases op <;> simp [Op.givenAddress] at ha <;> simp [Op.isAliasing] at hal <;>
          (subst ha
           have hl2 : s'.blocks.length = s.blocks.length + 1 := hl
           refine ⟨by omega, ?_⟩
           simp [Op.allocates, allocEvents, isNullAllocOf])

theorem Reachable.use_count_zero_iff (s : State) (hr : Reachable s) (i : Nat) (h : shared_ptr)
    (hi : s.sh i = some h) : shared_ptr.use_count i s = some 0 ↔ h.ptr_manager = none := by
  unfold shared_ptr.use_count
  simp only [hi]
  cases hm : h.ptr_manager with
  | none => simp
  | some b =>
    obtain ⟨blk, hd, _, _, hpos, hle, _⟩ := Reachable.deref_of_shared s hr i b h hi hm
    unfold handleCapacity at hle
    simp only [hd]
    rw [toLong_of_lt _ (by omega)]
    simp
    omega

theorem Reachable.use_count_pos (s : State) (hr : Reachable s) (i b : Nat) (h : shared_ptr)
    (hi : s.sh i = some h) (hm : h.ptr_manager = some b) :
    ∃ n : Int, shared_ptr.use_count i s = some n ∧ 1 ≤ n := by
  obtain ⟨blk, hd, _, _, hpos, hle, _⟩ := Reachable.deref_of_shared s hr i b h hi hm
  unfold handleCapacity at hle
  refine ⟨(blk.shared_ptr_counter : Int), ?_, by omega⟩
  unfold shared_ptr.use_count
  simp only [hi, hm, hd]
  rw [toLong_of_lt _ (by omega)]

/-- C12 as stated fails: a `shared_ptr` constructed from a null raw address
(not the aliasing constructor) has `get()` null and boolean conversion false,
yet it has a block and `use_count()` is 1. -/
theorem null_address_owner_has_block :
    Op.isAliasing (Op.shared_ctor_ptr Addr.null) = false ∧
    step (Op.shared_ctor_ptr Addr.null) State.init = some nullOwner ∧
    nullOwner.sh 0 = some ⟨Addr.null, some 0⟩ ∧
    shared_ptr.get 0 nullOwner = some Addr.null ∧
    shared_ptr.toBool 0 nullOwner = some false ∧
    shared_ptr.use_count 0 nullOwner = some 1 := by
  decide

/-- C12 (amended): for every live `shared_ptr` in a reachable state, a handle
without a block has a null observed address and `use_count()` is 0 exactly
when the handle has no block.  In a state reached by the operations other than
the aliasing constructor, moreover, the boolean conversion is false exactly
when `get()` is null, and `get()` is null exactly when the handle has no block
or its block was allocated for a null raw address.  So for every handle whose
block was not allocated for a null raw address, whatever other handles there
are, `get()` is null exactly when the handle has no block and `use_count()`
is 0 exactly when `get()` is null, which is exactly when the boolean
conversion is false; and a handle on a block allocated for a null raw address
has `get()` null and boolean conversion false with `use_count()` at least 1. -/
theorem null_iff_no_block (s : State) (i : Nat) (h : shared_ptr) (hi : s.sh i = some h) :
    (Reachable s →
      (h.ptr_manager = none → h.ptr = Addr.null) ∧
      (shared_ptr.use_count i s = some 0 ↔ h.ptr_manager = none)) ∧
    (ReachableVia Op.notAliasing s →
      (shared_ptr.toBool i s = some false ↔ shared_ptr.get i s = some Addr.null) ∧
      (shared_ptr.get i s = some Addr.null ↔
        (h.ptr_manager = none ∨ ∃ b, h.ptr_manager = some b ∧ s.allocatedFromNull b = true)) ∧
      ((∀ b, h.ptr_manager = some b → s.allocatedFromNull b = false) →
        (shared_ptr.get i s = some Addr.null ↔ h.ptr_manager = none) ∧
        (shared_ptr.use_count i s = some 0 ↔ shared_ptr.get i s = some Addr.null) ∧
        (shared_ptr.use_count i s = some 0 ↔ shared_ptr.toBool i s = some false)) ∧
      (∀ b, h.ptr_manager = some b → s.allocatedFromNull b = true →
        shared_ptr.get i s = some Addr.null ∧ shared_ptr.toBool i s = some false ∧
        ∃ n : Int, shared_ptr.use_count i s = some n ∧ 1 ≤ n)) := by
  constructor
  · intro hr
    exact ⟨AllPairs_sh _ s (Reachable.no_block_null s hr) i h hi,
      Reachable.use_count_zero_iff s hr i h hi⟩
  intro hv
  have hr := ReachableVia.to_reachable _ s hv
  have hq := AllPairs_sh _ s (ReachableVia.all_nullLinked s hv) i h hi
  have hu := Reachable.use_count_zero_iff s hr i h hi
  have hg : shared_ptr.get i s = some Addr.null ↔ h.ptr = Addr.null := by
    simp [shared_ptr.get, hi]
  have hb : shared_ptr.toBool i s = some false ↔ h.ptr = Addr.null := by
    simp [shared_ptr.toBool, hi]
  have hmain : h.ptr = Addr.null ↔
      (h.ptr_manager = none ∨ ∃ b, h.ptr_manager = some b ∧ s.allocatedFromNull b = true) := by
    constructor
    · intro hp
      cases hm : h.ptr_manager with
      | none => exact Or.inl rfl
      | some b => exact Or.inr ⟨b, rfl, ((hq.2 b hm).2).1 hp⟩
    · intro hp
      rcases hp with hp | ⟨b, hm, hn⟩
      · exact hq.1 hp
      · exact ((hq.2 b hm).2).2 hn
  refine ⟨hb.trans hg.symm, hg.trans hmain, ?_, ?_⟩
  · intro hno
    have hiff : h.ptr = Addr.null ↔ h.ptr_manager = none := by
      rw [hmain]
      constructor
      · intro hp
        rcases hp with hp | ⟨b, hm, hn⟩
        · exact hp
        · rw [hno b hm] at hn
          cases hn
      · intro hp
        exact Or.inl hp
    exact ⟨hg.trans hiff, hu.trans (hg.trans hiff).symm, hu.trans (hb.trans hiff).symm⟩
  · intro b hm hn
    have hp : h.ptr = Addr.null := ((hq.2 b hm).2).2 hn
    exact ⟨hg.2 hp, hb.2 hp, Reachable.use_count_pos s hr i b h hi hm⟩

/-- Witness for C12 (amended): after a handle has been made from a null raw
address, the owner of object 7 made next has a block that was not allocated
for a null address and a non-null `get()`. -/
theorem null_iff_no_block_witness :
    (shared_ptr.get 1 nullAndOwner = some Addr.null ↔
        (⟨Addr.obj 7, some 1⟩ : shared_ptr).ptr_manager = none) ∧
      (shared_ptr.use_count 1 nullAndOwner = some 0 ↔
        shared_ptr.get 1 nullAndOwner = some Addr.null) ∧
      (shared_ptr.use_count 1 nullAndOwner = some 0 ↔
        shared_ptr.toBool 1 nullAndOwner = some false) :=
  ((null_iff_no_block nullAndOwner 1 ⟨Addr.obj 7, some 1⟩ rfl).2
    (ReachableVia.step nullOwner nullAndOwner (Op.shared_ctor_ptr (Addr.obj 7))
      (ReachableVia.step State.init nullOwner (Op.shared_ctor_ptr Addr.null) ReachableVia.init
        (by decide) rfl rfl)
      (by decide) rfl rfl)).2.2.1
    (fun b hb => by
      have hb := (Option.some.inj hb).symm
      subst hb
      decide)

/-! ## The unguarded constructor from a `weak_ptr` -/

theorem base_control_block_.destroy_count (b : Nat) (blk : base_control_block_) :
    (base_control_block_.destroy b blk).2.count (Event.destroy b) = 1 := by
  unfold base_control_block_.destroy
  cases blk.derived <;> simp [List.count_cons]

/-- The last owner of a block that still has observers is destroyed. -/
theorem shared_ptr.dtor_last_observed (s : State) (r b : Nat) (p : Addr)
    (blk : base_control_block_) (hr : s.sh r = some ⟨p, some b⟩) (hd : s.deref b = some blk)
    (h1 : blk.shared_ptr_counter = 1) (hw : blk.weak_ptr_counter ≠ 0) :
    ∃ s', shared_ptr.dtor r s = some s' ∧
      s'.trace = s.trace ++
        (base_control_block_.destroy b { blk with shared_ptr_counter := 0 }).2 := by
  have hz : size_t_dec blk.shared_ptr_counter = 0 := by rw [h1]; decide
  unfold shared_ptr.dtor
  simp only [hr, hd, hz, hw, if_true, if_false]
  exact ⟨_, rfl, rfl⟩

/-- C18: the constructor `shared_ptr(const weak_ptr&)` in a reachable state.
From a `weak_ptr` without a block it gives an empty handle.  From a `weak_ptr`
linked to a block it gives a handle with the same observed address and block
and raises the strong count by one whatever it was, leaving the weak count,
the derived part of the block and the log as they were; when the strong count
was zero it is one afterwards, and destroying the new handle calls `destroy()`
on the block once more: the second call in all, when the earlier operations
respected their preconditions. -/
theorem shared_from_weak_unguarded (s : State) (hr : Reachable s) (w : Nat) (wh : weak_ptr)
    (hw : s.wk w = some wh) :
    (wh.ptr_manager = none →
      ∃ r s', shared_ptr.ctor_weak w s = some (r, s') ∧ s'.sh r = some ⟨Addr.null, none⟩ ∧
        s'.blocks = s.blocks ∧ s'.trace = s.trace) ∧
    (∀ b, wh.ptr_manager = some b →
      ∃ blk r s' blk', s.deref b = some blk ∧ shared_ptr.ctor_weak w s = some (r, s') ∧
        s'.sh r = some ⟨wh.ptr, some b⟩ ∧ s'.deref b = some blk' ∧
        blk'.shared_ptr_counter = blk.shared_ptr_counter + 1 ∧
        blk'.weak_ptr_counter = blk.weak_ptr_counter ∧ blk'.derived = blk.derived ∧
        (∀ b', b' ≠ b → s'.blocks[b']? = s.blocks[b']?) ∧ s'.trace = s.trace ∧
        (blk.shared_ptr_counter = 0 →
          ∃ s'', shared_ptr.dtor r s' = some s'' ∧
            s''.destroyCalls b = s.destroyCalls b + 1 ∧
            (ReachableChecked s → s''.destroyCalls b = 2))) := by
  constructor
  · intro hm
    have hp := AllPairs_wk _ s (Reachable.no_block_null s hr) w wh hw hm
    refine ⟨s.shared.length, s.pushShared ⟨Addr.null, none⟩, ?_, State.sh_pushShared_new s _,
      rfl, rfl⟩
    simp [shared_ptr.ctor_weak, hw, hm, hp]
  · intro b hm
    obtain ⟨blk, hd, _, hwc, hle, _⟩ := Reachable.deref_of_weak s hr w b wh hw hm
    have hwpos := s.weakRefs_pos w b wh hw hm
    unfold handleCapacity at hle
    obtain ⟨hget, hfr⟩ := (State.deref_eq_some s b blk).1 hd
    have hlt := getElem?_lt_of_eq_some _ _ _ hget
    have hinc : size_t_inc blk.shared_ptr_counter = blk.shared_ptr_counter + 1 :=
      size_t_inc_of_lt _ (by omega)
    have hnew : ((s.store b
        { blk with shared_ptr_counter := blk.shared_ptr_counter + 1 }).pushShared
        ⟨wh.ptr, some b⟩).sh s.shared.length = some ⟨wh.ptr, some b⟩ :=
      State.sh_pushShared_new (s.store b _) _
    have hdnew : ((s.store b
        { blk with shared_ptr_counter := blk.shared_ptr_counter + 1 }).pushShared
        ⟨wh.ptr, some b⟩).deref b =
        some { blk with shared_ptr_counter := blk.shared_ptr_counter + 1 } := by
      simp [State.deref_store, hlt, hfr]
    refine ⟨blk, s.shared.length,
      (s.store b { blk with shared_ptr_counter := blk.shared_ptr_counter + 1 }).pushShared
        ⟨wh.ptr, some b⟩,
      { blk with shared_ptr_counter := blk.shared_ptr_counter + 1 }, hd, ?_, hnew, hdnew, rfl,
      rfl, rfl, ?_, rfl, ?_⟩
    · simp [shared_ptr.ctor_weak, hw, hm, hd, hinc]
    · intro b' hb'
      simp [State.pushShared, State.store, List.getElem?_set, Ne.symm hb']
    · intro hz
      obtain ⟨s'', h1, h2⟩ := shared_ptr.dtor_last_observed _ s.shared.length b wh.ptr
        { blk with shared_ptr_counter := blk.shared_ptr_counter + 1 } hnew hdnew
        (by simp [hz]) (by show blk.weak_ptr_counter ≠ 0; omega)
      have hcount : s''.destroyCalls b = s.destroyCalls b + 1 := by
        unfold State.destroyCalls
        rw [h2]
        show List.count (Event.destroy b) (s.trace ++ _) = _
        rw [List.count_append, base_control_block_.destroy_count]
      refine ⟨s'', h1, hcount, ?_⟩
      intro hrc
      obtain ⟨_, u2, _⟩ := (ReachableChecked.tracked s hrc).2 b blk hget
      rw [hcount, u2]
      simp [hz]

/-- Witness for C18: the observer outlives the only owner of object 7; a
`shared_ptr` constructed from it finds strong count 0 and makes it 1, and its
destruction calls `destroy()` a second time. -/
theorem shared_from_weak_unguarded_witness :
    ∃ s, runChecked observerOutlives State.init = some s ∧
      ∃ blk r s' blk', s.deref 0 = some blk ∧ shared_ptr.ctor_weak 0 s = some (r, s') ∧
        s'.sh r = some ⟨Addr.obj 7, some 0⟩ ∧ s'.deref 0 = some blk' ∧
        blk'.shared_ptr_counter = blk.shared_ptr_counter + 1 ∧
        blk'.weak_ptr_counter = blk.weak_ptr_counter ∧ blk'.derived = blk.derived ∧
        (∀ b', b' ≠ 0 → s'.blocks[b']? = s.blocks[b']?) ∧ s'.trace = s.trace ∧
        (blk.shared_ptr_counter = 0 →
          ∃ s'', shared_ptr.dtor r s' = some s'' ∧
            s''.destroyCalls 0 = s.destroyCalls 0 + 1 ∧
            (ReachableChecked s → s''.destroyCalls 0 = 2)) :=
  ⟨_, rfl, (shared_from_weak_unguarded _
    (ReachableChecked.reachable _
      (ReachableChecked_of_run observerOutlives State.init _ ReachableChecked.init rfl)) 0
    ⟨Addr.obj 7, some 0⟩ rfl).2 0 rfl⟩

/-! ## Explicit effects of the constructors and of the destructor -/

theorem State.deref_store_same (s : State) (b : Nat) (blk : base_control_block_)
    (hlt : b < s.blocks.length) (hf : blk.freed = false) :
    (s.store b blk).deref b = some blk := by
  rw [State.deref_store]
  simp [hlt, hf]

theorem State.deref_lt (s : State) (b : Nat) (blk : base_control_block_)
    (hd : s.deref b = some blk) : b < s.blocks.length :=
  getElem?_lt_of_eq_some _ _ _ ((State.deref_eq_some s b blk).1 hd).1

theorem State.deref_not_freed (s : State) (b : Nat) (blk : base_control_block_)
    (hd : s.deref b = some blk) : blk.freed = false :=
  ((State.deref_eq_some s b blk).1 hd).2

theorem State.store_self (s : State) (b : Nat) (blk : base_control_block_)
    (hd : s.blocks[b]? = some blk) : s.blocks.set b blk = s.blocks := by
  apply List.ext_getElem?
  intro n
  simp only [List.getElem?_set]
  by_cases hbn : b = n
  · subst hbn
    simp [getElem?_lt_of_eq_some _ _ _ hd, hd]
  · simp [hbn]

theorem shared_ptr.ctor_copy_linked (s : State) (o b : Nat) (x : shared_ptr)
    (blk : base_control_block_) (ho : s.sh o = some x) (hm : x.ptr_manager = some b)
    (hd : s.deref b = some blk) (hlt : blk.shared_ptr_counter + 1 < 18446744073709551616) :
    shared_ptr.ctor_copy o s = some (s.shared.length,
      (s.store b { blk with shared_ptr_counter := blk.shared_ptr_counter + 1 }).pushShared
        ⟨x.ptr, some b⟩) := by
  unfold shared_ptr.ctor_copy
  simp only [ho, hm, hd, size_t_inc_of_lt _ hlt]

theorem shared_ptr.ctor_copy_empty (s : State) (o : Nat) (x : shared_ptr)
    (ho : s.sh o = some x) (hm : x.ptr_manager = none) :
    shared_ptr.ctor_copy o s = some (s.shared.length, s.pushShared ⟨x.ptr, none⟩) := by
  unfold shared_ptr.ctor_copy
  simp only [ho, hm]

theorem shared_ptr.ctor_alias_body_linked (s : State) (o b : Nat) (x : shared_ptr) (m : Addr)
    (blk : base_control_block_) (ho : s.sh o = some x) (hm : x.ptr_manager = some b)
    (hd : s.deref b = some blk) (hlt : blk.shared_ptr_counter + 1 < 18446744073709551616) :
    shared_ptr.ctor_alias_body o m s = some (s.shared.length,
      (s.store b { blk with shared_ptr_counter := blk.shared_ptr_counter + 1 }).pushShared
        ⟨m, some b⟩) := by
  unfold shared_ptr.ctor_alias_body
  simp only [ho, hm, hd, size_t_inc_of_lt _ hlt]

/-- Destroying a handle that is not the last owner of its block. -/
theorem shared_ptr.dtor_not_last (s : State) (i b : Nat) (x : shared_ptr)
    (blk : base_control_block_) (hi : s.sh i = some x) (hm : x.ptr_manager = some b)
    (hd : s.deref b = some blk) (h2 : 2 ≤ blk.shared_ptr_counter)
    (hlt : blk.shared_ptr_counter < 18446744073709551616) :
    shared_ptr.dtor i s = some ((s.store b
      { blk with shared_ptr_counter := blk.shared_ptr_counter - 1 }).setShared i none) := by
  have hdec := size_t_dec_of_pos blk.shared_ptr_counter (by omega) hlt
  have hnz : ¬ (blk.shared_ptr_counter - 1 = 0) := by omega
  unfold shared_ptr.dtor
  simp only [hi, hm, hd, hdec, hnz, if_false]

theorem shared_ptr.dtor_empty (s : State) (i : Nat) (x : shared_ptr)
    (hi : s.sh i = some x) (hm : x.ptr_manager = none) :
    shared_ptr.dtor i s = some (s.setShared i none) := by
  unfold shared_ptr.dtor
  simp only [hi, hm]

theorem State.sh_store (s : State) (b : Nat) (blk : base_control_block_) (i : Nat) :
    (s.store b blk).sh i = s.sh i := rfl

theorem State.sh_setShared_none (s : State) (i : Nat) :
    (s.setShared i none).sh i = none := by
  unfold State.sh State.setShared
  simp only [List.getElem?_set]
  by_cases h : i < s.shared.length
  · simp [h]
  · simp [h]

theorem State.deref_of_getElem (s t : State) (b : Nat) (h : t.blocks[b]? = s.blocks[b]?) :
    t.deref b = s.deref b := by
  unfold State.deref
  rw [h]

theorem getElem?_set_self_of_lt {α : Type} (l : List α) (i : Nat) (a : α) (h : i < l.length) :
    (l.set i a)[i]? = some a := by
  simp [List.getElem?_set, h]

/-- What `~shared_ptr()` does to the block of its handle and to the log depends
only on the value of the handle, that block and the log. -/
theorem shared_ptr.dtor_local (s t : State) (i j : Nat) (h : shared_ptr) (sd : State)
    (hi : s.sh i = some h) (hj : t.sh j = some h)
    (hb : ∀ b, h.ptr_manager = some b → t.blocks[b]? = s.blocks[b]?) (ht : t.trace = s.trace)
    (hsd : shared_ptr.dtor i s = some sd) :
    ∃ td, shared_ptr.dtor j t = some td ∧ td.trace = sd.trace ∧
      (∀ b, h.ptr_manager = some b → td.blocks[b]? = sd.blocks[b]?) ∧
      (∀ b, h.ptr_manager ≠ some b → td.blocks[b]? = t.blocks[b]?) := by
  have key : ∃ td, shared_ptr.dtor j t = some td ∧ td.trace = sd.trace ∧
      (∀ b, h.ptr_manager = some b → td.blocks[b]? = sd.blocks[b]?) := by
    unfold shared_ptr.dtor at hsd ⊢
    simp only [hi] at hsd
    simp only [hj]
    cases hm : h.ptr_manager with
    | none =>
      simp only [hm] at hsd
      have hsd := Option.some.inj hsd
      subst hsd
      exact ⟨_, rfl, ht, fun b hb' => by cases hb'⟩
    | some b =>
      have hbb := hb b hm
      have hde := State.deref_of_getElem s t b hbb
      simp only [hm] at hsd
      simp only [hde]
      cases hd : s.deref b with
      | none => simp [hd] at hsd
      | some blk =>
        have hls := State.deref_lt s b blk hd
        have hlt : b < t.blocks.length :=
          getElem?_lt_of_eq_some _ _ _ (hbb.trans ((State.deref_eq_some s b blk).1 hd).1)
        simp only [hd] at hsd
        simp only
        by_cases hz : size_t_dec blk.shared_ptr_counter = 0
        · by_cases hw : blk.weak_ptr_counter = 0
          · simp only [hz, hw, if_true] at hsd ⊢
            have hsd := Option.some.inj hsd
            subst hsd
            refine ⟨_, rfl, ?_, ?_⟩
            · show t.trace ++ _ = s.trace ++ _
              rw [ht]
            · intro b' hb'
              have hb' := Option.some.inj hb'
              subst hb'
              show (t.blocks.set b _)[b]? = (s.blocks.set b _)[b]?
              rw [getElem?_set_self_of_lt _ _ _ hlt, getElem?_set_self_of_lt _ _ _ hls]
          · simp only [hz, hw, if_true, if_false] at hsd ⊢
            have hsd := Option.some.inj hsd
            subst hsd
            refine ⟨_, rfl, ?_, ?_⟩
            · show t.trace ++ _ = s.trace ++ _
              rw [ht]
            · intro b' hb'
              have hb' := Option.some.inj hb'
              subst hb'
              show (t.blocks.set b _)[b]? = (s.blocks.set b _)[b]?
              rw [getElem?_set_self_of_lt _ _ _ hlt, getElem?_set_self_of_lt _ _ _ hls]
        · simp only [hz, if_false] at hsd ⊢
          have hsd := Option.some.inj hsd
          subst hsd
          refine ⟨_, rfl, ht, ?_⟩
          intro b' hb'
          have hb' := Option.some.inj hb'
          subst hb'
          show (t.blocks.set b _)[b]? = (s.blocks.set b _)[b]?
          rw [getElem?_set_self_of_lt _ _ _ hlt, getElem?_set_self_of_lt _ _ _ hls]
  obtain ⟨td, h1, h2, h3⟩ := key
  exact ⟨td, h1, h2, h3, fun b hne => shared_ptr.dtor_blocks_other t td j h hj h1 b hne⟩

/-! ## Aliasing construction -/

/-- While a live `shared_ptr` is linked to a block, in a state reached by
operations that respect their preconditions, nothing of the block's payload
has been torn down. -/
theorem ReachableChecked.payload_alive (t : State) (ht : ReachableChecked t) (i b : Nat)
    (x : shared_ptr) (hi : t.sh i = some x) (hm : x.ptr_manager = some b) :
    t.destroyCalls b = 0 ∧ t.deleterCalls b = [] ∧ t.payloadDtors b = 0 := by
  have hr := ReachableChecked.reachable t ht
  obtain ⟨blk, hd, _, _, hpos, _, _⟩ := Reachable.deref_of_shared t hr i b x hi hm
  obtain ⟨hget, _⟩ := (State.deref_eq_some t b blk).1 hd
  obtain ⟨_, u2, _, ⟨dv, hdv⟩, u5⟩ := (ReachableChecked.tracked t ht).2 b blk hget
  have hnz : ¬ blk.shared_ptr_counter = 0 := by omega
  have hp := u5 dv hdv
  unfold payloadTracked at hp
  refine ⟨by rw [u2]; simp [hnz], ?_, ?_⟩
  · cases dv with
    | control_block a d =>
      simp only [hnz, if_false] at hp
      exact hp.2.2
    | inplace_control_block args => exact hp.2.1
  · cases dv with
    | control_block a d => exact hp.1
    | inplace_control_block args =>
      simp only [hnz, if_false] at hp
      exact hp.2.2

/-- C11: aliasing construction, in a state reached by operations that respect
their preconditions, from a live handle `arg` linked to block `b` with strong
count `n`, with member address `m`.  When the constructor has returned (the
by-value parameter has been destroyed) the new handle has `get() = m` and is
linked to `b`, `use_count()` read through either handle is `n + 1`, and in
every later state in which the new handle is still alive with that value the
payload of `b` has not been destroyed, whatever happened to the other
handles. -/
theorem shared_ptr_alias_contract (s : State) (hr : ReachableChecked s)
    (hcap : s.liveHandles < handleCapacity) (arg b : Nat) (x : shared_ptr) (m : Addr)
    (harg : s.sh arg = some x) (hm : x.ptr_manager = some b) :
    ∃ blk r s' blk', s.deref b = some blk ∧
      shared_ptr.use_count arg s = some (blk.shared_ptr_counter : Int) ∧
      shared_ptr.ctor_alias arg m s = some (r, s') ∧ r ≠ arg ∧
      s'.sh r = some ⟨m, some b⟩ ∧ s'.sh arg = some x ∧ shared_ptr.get r s' = some m ∧
      s'.deref b = some blk' ∧ blk'.shared_ptr_counter = blk.shared_ptr_counter + 1 ∧
      blk'.weak_ptr_counter = blk.weak_ptr_counter ∧
      shared_ptr.use_count arg s' = some ((blk.shared_ptr_counter : Int) + 1) ∧
      shared_ptr.use_count r s' = some ((blk.shared_ptr_counter : Int) + 1) ∧
      s'.trace = s.trace ∧
      (∀ ops t, runChecked ops s' = some t → t.sh r = some ⟨m, some b⟩ →
        t.destroyCalls b = 0 ∧ t.deleterCalls b = [] ∧ t.payloadDtors b = 0) := by
  have hre := ReachableChecked.reachable s hr
  obtain ⟨blk, hd, _, _, hpos, hle, _⟩ := Reachable.deref_of_shared s hre arg b x harg hm
  unfold handleCapacity at hle
  have hblt := State.deref_lt s b blk hd
  have hfr := State.deref_not_freed s b blk hd
  have halt : arg < s.shared.length :=
    getElem?_lt_of_eq_some _ _ _ ((State.sh_eq_some s arg x).1 harg)
  -- the parameter object
  have e1 := shared_ptr.ctor_copy_linked s arg b x blk harg hm hd (by omega)
  have p1 : ((s.store b { blk with shared_ptr_counter := blk.shared_ptr_counter + 1 }).pushShared
      ⟨x.ptr, some b⟩).sh s.shared.length = some ⟨x.ptr, some b⟩ :=
    State.sh_pushShared_new (s.store b _) _
  have d1 : ((s.store b { blk with shared_ptr_counter := blk.shared_ptr_counter + 1 }).pushShared
      ⟨x.ptr, some b⟩).deref b =
      some { blk with shared_ptr_counter := blk.shared_ptr_counter + 1 } :=
    State.deref_store_same s b _ hblt hfr
  -- the body of the constructor
  have e2 := shared_ptr.ctor_alias_body_linked _ s.shared.length b ⟨x.ptr, some b⟩ m _ p1 rfl d1
    (by show blk.shared_ptr_counter + 1 + 1 < _; omega)
  generalize hs1 : (s.store b
    { blk with shared_ptr_counter := blk.shared_ptr_counter + 1 }).pushShared ⟨x.ptr, some b⟩ = s1
    at e1 e2 p1 d1
  have hlen1 : s1.shared.length = s.shared.length + 1 := by
    rw [← hs1]; exact State.length_pushShared _ _
  have hblt1 : b < s1.blocks.length := State.deref_lt s1 b _ d1
  have a1 : s1.sh arg = some x := by
    rw [← hs1]; exact State.sh_pushShared_old (s.store b _) _ x arg harg
  have p2 : ((s1.store b { blk with shared_ptr_counter := blk.shared_ptr_counter + 1 + 1 }).pushShared
      ⟨m, some b⟩).sh s.shared.length = some ⟨x.ptr, some b⟩ :=
    State.sh_pushShared_old (s1.store b _) _ _ _ p1
  have d2 : ((s1.store b { blk with shared_ptr_counter := blk.shared_ptr_counter + 1 + 1 }).pushShared
      ⟨m, some b⟩).deref b =
      some { blk with shared_ptr_counter := blk.shared_ptr_counter + 1 + 1 } :=
    State.deref_store_same s1 b _ hblt1 hfr
  have r2 : ((s1.store b { blk with shared_ptr_counter := blk.shared_ptr_counter + 1 + 1 }).pushShared
      ⟨m, some b⟩).sh s1.shared.length = some ⟨m, some b⟩ :=
    State.sh_pushShared_new (s1.store b _) _
  have a2 : ((s1.store b { blk with shared_ptr_counter := blk.shared_ptr_counter + 1 + 1 }).pushShared
      ⟨m, some b⟩).sh arg = some x :=
    State.sh_pushShared_old (s1.store b _) _ x arg a1
  -- the parameter object is destroyed
  have e3 := shared_ptr.dtor_not_last _ s.shared.length b ⟨x.ptr, some b⟩ _ p2 rfl d2
    (by show 2 ≤ blk.shared_ptr_counter + 1 + 1; omega)
    (by show blk.shared_ptr_counter + 1 + 1 < _; omega)
  generalize hs2 : (s1.store b
    { blk with shared_ptr_counter := blk.shared_ptr_counter + 1 + 1 }).pushShared ⟨m, some b⟩ = s2
    at e2 e3 p2 d2 r2 a2
  have hblt2 : b < s2.blocks.length := State.deref_lt s2 b _ d2
  have hfin : shared_ptr.ctor_alias arg m s = some (s1.shared.length,
      (s2.store b { blk with shared_ptr_counter := blk.shared_ptr_counter + 1 }).setShared
        s.shared.length none) := by
    unfold shared_ptr.ctor_alias
    simp only [e1, e2, e3]
    rfl
  have hne1 : s.shared.length ≠ s1.shared.length := by omega
  have hne2 : s.shared.length ≠ arg := by omega
  have k1 : ((s2.store b { blk with shared_ptr_counter := blk.shared_ptr_counter + 1 }).setShared
      s.shared.length none).sh s1.shared.length = some ⟨m, some b⟩ := by
    rw [State.sh_setShared_other _ _ _ _ hne1]
    exact r2
  have k2 : ((s2.store b { blk with shared_ptr_counter := blk.shared_ptr_counter + 1 }).setShared
      s.shared.length none).sh arg = some x := by
    rw [State.sh_setShared_other _ _ _ _ hne2]
    exact a2
  have k3 : ((s2.store b { blk with shared_ptr_counter := blk.shared_ptr_counter + 1 }).setShared
      s.shared.length none).deref b =
      some { blk with shared_ptr_counter := blk.shared_ptr_counter + 1 } :=
    State.deref_store_same s2 b _ hblt2 hfr
  have hlong : toLong blk.shared_ptr_counter = (blk.shared_ptr_counter : Int) :=
    toLong_of_lt _ (by omega)
  have hlong' : toLong (blk.shared_ptr_counter + 1) = (blk.shared_ptr_counter : Int) + 1 := by
    rw [toLong_of_lt _ (by omega)]
    push_cast
    rfl
  have htr : ((s2.store b { blk with shared_ptr_counter := blk.shared_ptr_counter + 1 }).setShared
      s.shared.length none).trace = s.trace := by
    rw [← hs2, ← hs1]
    rfl
  refine ⟨blk, s1.shared.length, _, { blk with shared_ptr_counter := blk.shared_ptr_counter + 1 },
    hd, ?_, hfin, by omega, k1, k2, ?_, k3, rfl, rfl, ?_, ?_, htr, ?_⟩
  · simp only [shared_ptr.use_count, harg, hm, hd, hlong]
  · simp only [shared_ptr.get, k1]
  · simp only [shared_ptr.use_count, k2, hm, k3, hlong']
  · simp only [shared_ptr.use_count, k1, k3, hlong']
  · intro ops t hrun ht
    have hstep : step (Op.shared_ctor_alias arg m) s =
        some ((s2.store b { blk with shared_ptr_counter := blk.shared_ptr_counter + 1 }).setShared
          s.shared.length none) := by
      simp only [step, hfin, Option.map_some']
    have hr' := ReachableChecked.step s _ (Op.shared_ctor_alias arg m) hr hcap trivial hstep
    exact ReachableChecked.payload_alive t (ReachableChecked_of_run ops _ t hr' hrun)
      s1.shared.length b ⟨m, some b⟩ ht rfl

/-- Witness for C11: an aliasing handle on member address 8 of the sole owner
of object 7. -/
theorem shared_ptr_alias_contract_witness :
    ∃ blk r s' blk', soleOwner.deref 0 = some blk ∧
      shared_ptr.use_count 0 soleOwner = some (blk.shared_ptr_counter : Int) ∧
      shared_ptr.ctor_alias 0 (Addr.obj 8) soleOwner = some (r, s') ∧ r ≠ 0 ∧
      s'.sh r = some ⟨Addr.obj 8, some 0⟩ ∧ s'.sh 0 = some ⟨Addr.obj 7, some 0⟩ ∧
      shared_ptr.get r s' = some (Addr.obj 8) ∧
      s'.deref 0 = some blk' ∧ blk'.shared_ptr_counter = blk.shared_ptr_counter + 1 ∧
      blk'.weak_ptr_counter = blk.weak_ptr_counter ∧
      shared_ptr.use_count 0 s' = some ((blk.shared_ptr_counter : Int) + 1) ∧
      shared_ptr.use_count r s' = some ((blk.shared_ptr_counter : Int) + 1) ∧
      s'.trace = soleOwner.trace ∧
      (∀ ops t, runChecked ops s' = some t → t.sh r = some ⟨Addr.obj 8, some 0⟩ →
        t.destroyCalls 0 = 0 ∧ t.deleterCalls 0 = [] ∧ t.payloadDtors 0 = 0) :=
  shared_ptr_alias_contract soleOwner
    (ReachableChecked.step State.init soleOwner (Op.shared_ctor_ptr (Addr.obj 7))
      ReachableChecked.init (by decide) trivial rfl)
    (by decide) 0 0 ⟨Addr.obj 7, some 0⟩ (Addr.obj 8) rfl rfl

/-! ## Copy assignment -/

theorem State.sh_of_append_old (s s1 : State) (v : shared_ptr) (i : Nat) (x : shared_ptr)
    (hs1 : s1.shared = s.shared ++ [some v]) (hi : s.sh i = some x) : s1.sh i = some x := by
  rw [State.sh_eq_some] at hi ⊢
  rw [hs1, List.getElem?_append_left (getElem?_lt_of_eq_some _ _ _ hi)]
  exact hi

theorem State.sh_of_append_new (s s1 : State) (v : shared_ptr)
    (hs1 : s1.shared = s.shared ++ [some v]) : s1.sh s.shared.length = some v := by
  rw [State.sh_eq_some, hs1]
  simp

/-- The shape of `a = b` for two distinct live handles, once the temporary copy
of `b` exists: the temporary takes the former value of `a` and is destroyed. -/
theorem shared_ptr.assign_shape (s s1 : State) (self other : Nat) (ha hb hb' : shared_ptr)
    (hne : self ≠ other) (hself : s.sh self = some ha) (hother : s.sh other = some hb)
    (hs1 : s1.shared = s.shared ++ [some hb'])
    (e1 : shared_ptr.ctor_copy other s = some (s.shared.length, s1)) :
    ((s1.setShared self (some hb')).setShared s.shared.length (some ha)).sh s.shared.length =
        some ha ∧
    shared_ptr.assign self other s = shared_ptr.dtor s.shared.length
        ((s1.setShared self (some hb')).setShared s.shared.length (some ha)) ∧
    (∀ td, shared_ptr.dtor s.shared.length
        ((s1.setShared self (some hb')).setShared s.shared.length (some ha)) = some td →
      td.sh self = some hb' ∧ td.sh other = some hb) := by
  have hslt : self < s.shared.length :=
    getElem?_lt_of_eq_some _ _ _ ((State.sh_eq_some s self ha).1 hself)
  have holt : other < s.shared.length :=
    getElem?_lt_of_eq_some _ _ _ ((State.sh_eq_some s other hb).1 hother)
  have hlen1 : s1.shared.length = s.shared.length + 1 := by rw [hs1]; simp
  have hn1 : s.shared.length ≠ self := by omega
  have hn2 : s.shared.length ≠ other := by omega
  have q1 : s1.sh self = some ha := State.sh_of_append_old s s1 hb' self ha hs1 hself
  have q2 : s1.sh other = some hb := State.sh_of_append_old s s1 hb' other hb hs1 hother
  have q3 : s1.sh s.shared.length = some hb' := State.sh_of_append_new s s1 hb' hs1
  have g1 : ((s1.setShared self (some hb')).setShared s.shared.length (some ha)).sh
      s.shared.length = some ha :=
    State.sh_setShared_same _ _ _ (by rw [State.length_setShared, hlen1]; omega)
  have g2 : ((s1.setShared self (some hb')).setShared s.shared.length (some ha)).sh self =
      some hb' := by
    rw [State.sh_setShared_other _ _ _ _ hn1]
    exact State.sh_setShared_same _ _ _ (by rw [hlen1]; omega)
  have g3 : ((s1.setShared self (some hb')).setShared s.shared.length (some ha)).sh other =
      some hb := by
    rw [State.sh_setShared_other _ _ _ _ hn2, State.sh_setShared_other _ _ _ _ hne]
    exact q2
  refine ⟨g1, ?_, ?_⟩
  · unfold shared_ptr.assign
    simp only [hself, hother, hne, if_false, e1]
    have hsw : shared_ptr.swap self s.shared.length s1 =
        some ((s1.setShared self (some hb')).setShared s.shared.length (some ha)) := by
      unfold shared_ptr.swap
      simp only [q1, q3]
    simp only [hsw]
  · intro td htd
    obtain ⟨hsh, _⟩ := shared_ptr.dtor_shared _ td _ htd
    have hview : ∀ j, j ≠ s.shared.length →
        td.sh j = ((s1.setShared self (some hb')).setShared s.shared.length (some ha)).sh j := by
      intro j hj
      unfold State.sh
      rw [hsh]
      simp only [List.getElem?_set, Ne.symm hj, if_false]
    exact ⟨by rw [hview self (Ne.symm hn1)]; exact g2,
      by rw [hview other (Ne.symm hn2)]; exact g3⟩

theorem shared_ptr.eta_of_manager (x : shared_ptr) (m : Option Nat) (h : x.ptr_manager = m) :
    (⟨x.ptr, m⟩ : shared_ptr) = x := by
  cases x
  simp at h
  simp [h]

/-- C14: copy assignment `a = b` (same-type and covariant) in a reachable
state.  Self-assignment leaves the memory as it is.  For two distinct handle
objects, `a` ends with the (observed, block) pair of `b`; when both were
linked to the same block (or both to none) no block and no log entry changes
and `use_count()` is unchanged; otherwise the strong count of `b`'s block is
one higher, and every other block and the log are exactly as after destroying
one `shared_ptr` with `a`'s former value. -/
theorem shared_ptr_assign_contract (s : State) (hr : Reachable s)
    (f : Nat → Nat → State → Option State)
    (hf : f = shared_ptr.assign ∨ f = shared_ptr.assign_cov)
    (self other : Nat) (ha hb : shared_ptr)
    (hself : s.sh self = some ha) (hother : s.sh other = some hb) :
    (self = other → f self other s = some s) ∧
    (self ≠ other →
      ∃ s', f self other s = some s' ∧ s'.sh self = some hb ∧ s'.sh other = some hb ∧
        (ha.ptr_manager = hb.ptr_manager →
          s'.blocks = s.blocks ∧ s'.trace = s.trace ∧
          shared_ptr.use_count self s' = shared_ptr.use_count self s ∧
          shared_ptr.use_count other s' = shared_ptr.use_count other s) ∧
        (ha.ptr_manager ≠ hb.ptr_manager →
          ∃ sd, shared_ptr.dtor self s = some sd ∧ s'.trace = sd.trace ∧
            (∀ b, hb.ptr_manager = some b →
              ∃ blk blk', s.deref b = some blk ∧ s'.deref b = some blk' ∧
                blk'.shared_ptr_counter = blk.shared_ptr_counter + 1 ∧
                blk'.weak_ptr_counter = blk.weak_ptr_counter ∧
                blk'.derived = blk.derived) ∧
            (∀ b, hb.ptr_manager ≠ some b → s'.blocks[b]? = sd.blocks[b]?))) := by
  have hf' : f = shared_ptr.assign := by
    rcases hf with hf | hf
    · exact hf
    · rw [hf]; rfl
  subst hf'
  constructor
  · intro he
    subst he
    unfold shared_ptr.assign
    simp only [hself, if_true]
  · intro hne
    obtain ⟨sd, hsd⟩ := Reachable.dtor_defined s hr self ha hself
    have huse : ∀ t : State, t.blocks = s.blocks → t.sh self = some hb → t.sh other = some hb →
        ha.ptr_manager = hb.ptr_manager →
        shared_ptr.use_count self t = shared_ptr.use_count self s ∧
        shared_ptr.use_count other t = shared_ptr.use_count other s := by
      intro t htb h1 h2 hm
      have e : ∀ b, t.deref b = s.deref b := State.deref_congr s t htb
      unfold shared_ptr.use_count
      simp [h1, h2, hself, hother, hm, e]
    cases hmb : hb.ptr_manager with
    | none =>
      have hx := shared_ptr.eta_of_manager hb none hmb
      have e1 := shared_ptr.ctor_copy_empty s other hb hother hmb
      obtain ⟨g1, hasg, hfin⟩ := shared_ptr.assign_shape s (s.pushShared ⟨hb.ptr, none⟩) self other
        ha hb ⟨hb.ptr, none⟩ hne hself hother rfl e1
      have hcong := shared_ptr.dtor_congr s _ self s.shared.length ha hself g1 rfl rfl
      rw [hsd] at hcong
      cases htd : shared_ptr.dtor s.shared.length
          (((s.pushShared ⟨hb.ptr, none⟩).setShared self (some ⟨hb.ptr, none⟩)).setShared
            s.shared.length (some ha)) with
      | none => simp [htd] at hcong
      | some td =>
        simp [htd] at hcong
        obtain ⟨hbl, htr⟩ := hcong
        obtain ⟨k1, k2⟩ := hfin td htd
        have k1 := k1.trans (congrArg some hx)
        refine ⟨td, by rw [hasg]; exact htd, k1, k2, ?_, ?_⟩
        · intro hma
          have hm : ha.ptr_manager = hb.ptr_manager := hma.trans hmb.symm
          have hsd' := shared_ptr.dtor_empty s self ha hself hma
          rw [hsd] at hsd'
          have hsd' := Option.some.inj hsd'
          have hb1 : td.blocks = s.blocks := by rw [hbl, hsd']; rfl
          have ht1 : td.trace = s.trace := by rw [htr, hsd']; rfl
          exact ⟨hb1, ht1, huse td hb1 k1 k2 hm⟩
        · intro _
          refine ⟨sd, hsd, htr, ?_, ?_⟩
          · intro b hb'
            cases hb'
          · intro b _
            rw [hbl]
    | some bb =>
      have hx := shared_ptr.eta_of_manager hb (some bb) hmb
      obtain ⟨blkb, hdb, _, _, hpos, hle, _⟩ :=
        Reachable.deref_of_shared s hr other bb hb hother hmb
      unfold handleCapacity at hle
      have hblt := State.deref_lt s bb blkb hdb
      have hfr := State.deref_not_freed s bb blkb hdb
      have e1 := shared_ptr.ctor_copy_linked s other bb hb blkb hother hmb hdb (by omega)
      obtain ⟨g1, hasg, hfin⟩ := shared_ptr.assign_shape s
        ((s.store bb { blkb with shared_ptr_counter := blkb.shared_ptr_counter + 1 }).pushShared
          ⟨hb.ptr, some bb⟩) self other
        ha hb ⟨hb.ptr, some bb⟩ hne hself hother rfl e1
      have d2 : ((((s.store bb
          { blkb with shared_ptr_counter := blkb.shared_ptr_counter + 1 }).pushShared
          ⟨hb.ptr, some bb⟩).setShared self (some ⟨hb.ptr, some bb⟩)).setShared
            s.shared.length (some ha)).deref bb =
          some { blkb with shared_ptr_counter := blkb.shared_ptr_counter + 1 } :=
        State.deref_store_same s bb _ hblt hfr
      by_cases hsame : ha.ptr_manager = some bb
      · have e3 := shared_ptr.dtor_not_last _ s.shared.length bb ha _ g1 hsame d2
          (by show 2 ≤ blkb.shared_ptr_counter + 1; omega)
          (by show blkb.shared_ptr_counter + 1 < _; omega)
        obtain ⟨k1, k2⟩ := hfin _ e3
        have k1 := k1.trans (congrArg some hx)
        have hblk : ({ blkb with shared_ptr_counter := blkb.shared_ptr_counter + 1 - 1 } :
            base_control_block_) = blkb := by
          cases blkb
          simp
        refine ⟨_, by rw [hasg]; exact e3, k1, k2, ?_, ?_⟩
        · intro hma
          have hm : ha.ptr_manager = hb.ptr_manager := hma.trans hmb.symm
          have hb1 : ((((((s.store bb
              { blkb with shared_ptr_counter := blkb.shared_ptr_counter + 1 }).pushShared
              ⟨hb.ptr, some bb⟩).setShared self (some ⟨hb.ptr, some bb⟩)).setShared
                s.shared.length (some ha)).store bb
              { blkb with shared_ptr_counter := blkb.shared_ptr_counter + 1 - 1 }).setShared
                s.shared.length none).blocks = s.blocks := by
            show (s.blocks.set bb _).set bb _ = s.blocks
            rw [List.set_set, hblk]
            exact State.store_self s bb blkb ((State.deref_eq_some s bb blkb).1 hdb).1
          exact ⟨hb1, rfl, huse _ hb1 k1 k2 hm⟩
        · intro hdiff
          exact absurd hsame hdiff
      · have hloc := shared_ptr.dtor_local s _ self s.shared.length ha sd hself g1
          (by
            intro b hb'
            have hbne : bb ≠ b := by
              intro hq
              apply hsame
              rw [hb', hq]
            show (s.blocks.set bb _)[b]? = s.blocks[b]?
            simp only [List.getElem?_set, hbne, if_false])
          rfl hsd
        obtain ⟨td, htd, htr, hl1, hl2⟩ := hloc
        obtain ⟨k1, k2⟩ := hfin td htd
        have k1 := k1.trans (congrArg some hx)
        have hbbtd : td.blocks[bb]? =
            some { blkb with shared_ptr_counter := blkb.shared_ptr_counter + 1 } := by
          rw [hl2 bb hsame]
          show (s.blocks.set bb _)[bb]? = _
          exact getElem?_set_self_of_lt _ _ _ hblt
        refine ⟨td, by rw [hasg]; exact htd, k1, k2, ?_, ?_⟩
        · intro hm
          exact absurd hm hsame
        · intro _
          refine ⟨sd, hsd, htr, ?_, ?_⟩
          · intro b hb'
            have hb' := Option.some.inj hb'
            subst hb'
            refine ⟨blkb, { blkb with shared_ptr_counter := blkb.shared_ptr_counter + 1 }, hdb,
              ?_, rfl, rfl, rfl⟩
            exact (State.deref_eq_some td bb _).2 ⟨hbbtd, hfr⟩
          · intro b hbne
            have hbne' : bb ≠ b := fun hq => hbne (by rw [hq])
            by_cases hab : ha.ptr_manager = some b
            · exact hl1 b hab
            · rw [hl2 b hab, shared_ptr.dtor_blocks_other s sd self ha hself hsd b hab]
              show (s.blocks.set bb _)[b]? = s.blocks[b]?
              simp only [List.getElem?_set, hbne', if_false]

/-- Witness for C14: with two owners of two different objects, assigning the
second to the first raises the second block's strong count and releases the
first block as the destruction of its owner would. -/
theorem shared_ptr_assign_contract_witness :
    ∃ s, runChecked twoBlocks State.init = some s ∧
      ∃ s', shared_ptr.assign 0 1 s = some s' ∧ s'.sh 0 = some ⟨Addr.obj 8, some 1⟩ ∧
        s'.sh 1 = some ⟨Addr.obj 8, some 1⟩ ∧
        ((⟨Addr.obj 7, some 0⟩ : shared_ptr).ptr_manager =
            (⟨Addr.obj 8, some 1⟩ : shared_ptr).ptr_manager →
          s'.blocks = s.blocks ∧ s'.trace = s.trace ∧
          shared_ptr.use_count 0 s' = shared_ptr.use_count 0 s ∧
          shared_ptr.use_count 1 s' = shared_ptr.use_count 1 s) ∧
        ((⟨Addr.obj 7, some 0⟩ : shared_ptr).ptr_manager ≠
            (⟨Addr.obj 8, some 1⟩ : shared_ptr).ptr_manager →
          ∃ sd, shared_ptr.dtor 0 s = some sd ∧ s'.trace = sd.trace ∧
            (∀ b, (⟨Addr.obj 8, some 1⟩ : shared_ptr).ptr_manager = some b →
              ∃ blk blk', s.deref b = some blk ∧ s'.deref b = some blk' ∧
                blk'.shared_ptr_counter = blk.shared_ptr_counter + 1 ∧
                blk'.weak_ptr_counter = blk.weak_ptr_counter ∧
                blk'.derived = blk.derived) ∧
            (∀ b, (⟨Addr.obj 8, some 1⟩ : shared_ptr).ptr_manager ≠ some b →
              s'.blocks[b]? = sd.blocks[b]?)) :=
  ⟨_, rfl, (shared_ptr_assign_contract _
    (ReachableChecked.reachable _
      (ReachableChecked_of_run twoBlocks State.init _ ReachableChecked.init rfl))
    shared_ptr.assign (Or.inl rfl) 0 1 ⟨Addr.obj 7, some 0⟩ ⟨Addr.obj 8, some 1⟩ rfl rfl).2
    (by decide)⟩

/-! ## `reset` against destroy-then-construct -/

/-- The destructor run after one more block has been allocated: the same
events, after the allocation instead of before it, and the same blocks. -/
theorem shared_ptr.dtor_after_alloc (s t : State) (i j : Nat) (h : shared_ptr) (sd : State)
    (x : base_control_block_) (ev : Event)
    (hi : s.sh i = some h) (hj : t.sh j = some h) (hb : t.blocks = s.blocks ++ [x])
    (ht : t.trace = s.trace ++ [ev]) (hsd : shared_ptr.dtor i s = some sd) :
    ∃ td evs, shared_ptr.dtor j t = some td ∧ sd.trace = s.trace ++ evs ∧
      td.trace = s.trace ++ [ev] ++ evs ∧ td.blocks = sd.blocks ++ [x] ∧
      sd.blocks.length = s.blocks.length := by
  unfold shared_ptr.dtor at hsd ⊢
  simp only [hi] at hsd
  simp only [hj]
  cases hm : h.ptr_manager with
  | none =>
    simp only [hm] at hsd
    have hsd := Option.some.inj hsd
    subst hsd
    exact ⟨_, [], rfl, by simp [State.setShared], by simp [State.setShared, ht],
      by simp [State.setShared, hb], rfl⟩
  | some b =>
    simp only [hm] at hsd
    simp only
    cases hd : s.deref b with
    | none => simp [hd] at hsd
    | some blk =>
      have hls := State.deref_lt s b blk hd
      have hde : t.deref b = some blk := by
        rw [← hd]
        apply State.deref_of_getElem
        rw [hb, List.getElem?_append_left hls]
      have hset : ∀ v : base_control_block_, t.blocks.set b v = s.blocks.set b v ++ [x] := by
        intro v
        rw [hb, List.set_append_left _ _ hls]
      simp only [hd] at hsd
      simp only [hde]
      by_cases hz : size_t_dec blk.shared_ptr_counter = 0
      · by_cases hw : blk.weak_ptr_counter = 0
        · simp only [hz, hw, if_true] at hsd ⊢
          have hsd := Option.some.inj hsd
          subst hsd
          refine ⟨_, _, rfl, rfl, ?_, ?_, ?_⟩
          · show t.trace ++ _ = _
            rw [ht]
          · show t.blocks.set b _ = s.blocks.set b _ ++ [x]
            exact hset _
          · show (s.blocks.set b _).length = _
            exact List.length_set _ _ _
        · simp only [hz, hw, if_true, if_false] at hsd ⊢
          have hsd := Option.some.inj hsd
          subst hsd
          refine ⟨_, _, rfl, rfl, ?_, ?_, ?_⟩
          · show t.trace ++ _ = _
            rw [ht]
          · show t.blocks.set b _ = s.blocks.set b _ ++ [x]
            exact hset _
          · show (s.blocks.set b _).length = _
            exact List.length_set _ _ _
      · simp only [hz, if_false] at hsd ⊢
        have hsd := Option.some.inj hsd
        subst hsd
        refine ⟨_, [], rfl, ?_, ?_, ?_, ?_⟩
        · show s.trace = s.trace ++ []
          simp
        · show t.trace = s.trace ++ [ev] ++ []
          simp [ht]
        · show t.blocks.set b _ = s.blocks.set b _ ++ [x]
          exact hset _
        · show (s.blocks.set b _).length = _
          exact List.length_set _ _ _

/-- The shape of a `reset`: the temporary `v` takes the former value of the
handle and is destroyed. -/
theorem shared_ptr.reset_shape (s s0 : State) (self : Nat) (h v : shared_ptr)
    (hself : s.sh self = some h) (hs0 : s0.shared = s.shared ++ [some v])
    (hw0 : s0.weak = s.weak) :
    shared_ptr.swap s.shared.length self s0 =
        some ((s0.setShared s.shared.length (some h)).setShared self (some v)) ∧
    ((s0.setShared s.shared.length (some h)).setShared self (some v)).sh s.shared.length =
        some h ∧
    (∀ td, shared_ptr.dtor s.shared.length
        ((s0.setShared s.shared.length (some h)).setShared self (some v)) = some td →
      td.weak = s.weak ∧
      ∀ i, i < s.shared.length → td.sh i = if i = self then some v else s.sh i) := by
  have hslt : self < s.shared.length :=
    getElem?_lt_of_eq_some _ _ _ ((State.sh_eq_some s self h).1 hself)
  have hlen0 : s0.shared.length = s.shared.length + 1 := by rw [hs0]; simp
  have hn1 : s.shared.length ≠ self := by omega
  have q1 : s0.sh self = some h := State.sh_of_append_old s s0 v self h hs0 hself
  have q3 : s0.sh s.shared.length = some v := State.sh_of_append_new s s0 v hs0
  have g1 : ((s0.setShared s.shared.length (some h)).setShared self (some v)).sh
      s.shared.length = some h := by
    rw [State.sh_setShared_other _ _ _ _ (Ne.symm hn1)]
    exact State.sh_setShared_same _ _ _ (by rw [hlen0]; omega)
  refine ⟨?_, g1, ?_⟩
  · unfold shared_ptr.swap
    simp only [q1, q3]
  · intro td htd
    obtain ⟨hsh, hwk⟩ := shared_ptr.dtor_shared _ td _ htd
    refine ⟨by rw [hwk]; exact hw0, ?_⟩
    intro i hi
    have hne : s.shared.length ≠ i := by omega
    have e1 : td.sh i =
        ((s0.setShared s.shared.length (some h)).setShared self (some v)).sh i := by
      unfold State.sh
      rw [hsh]
      simp only [List.getElem?_set, hne, if_false]
    rw [e1]
    by_cases his : i = self
    · subst his
      simp only [if_true]
      exact State.sh_setShared_same _ _ _ (by rw [State.length_setShared, hlen0]; omega)
    · simp only [his, if_false]
      rw [State.sh_setShared_other _ _ _ _ (Ne.symm his), State.sh_setShared_other _ _ _ _ hne]
      unfold State.sh
      rw [hs0, List.getElem?_append_left hi]

/-- The handles after destroy-then-construct. -/
theorem State.sh_after_rebuild (s sd t : State) (self : Nat) (h v : shared_ptr)
    (hself : s.sh self = some h) (hsd : shared_ptr.dtor self s = some sd)
    (ht : t.shared = sd.shared) :
    ((t.setShared self (some v)).weak = t.weak) ∧
    ∀ i, i < s.shared.length →
      (t.setShared self (some v)).sh i = if i = self then some v else s.sh i := by
  obtain ⟨hsh, _⟩ := shared_ptr.dtor_shared s sd self hsd
  have hslt : self < s.shared.length :=
    getElem?_lt_of_eq_some _ _ _ ((State.sh_eq_some s self h).1 hself)
  refine ⟨rfl, ?_⟩
  intro i hi
  by_cases his : i = self
  · subst his
    simp only [if_true]
    exact State.sh_setShared_same _ _ _ (by rw [ht, hsh, List.length_set]; exact hslt)
  · simp only [his, if_false]
    rw [State.sh_setShared_other _ _ _ _ (Ne.symm his)]
    unfold State.sh
    rw [ht, hsh]
    simp only [List.getElem?_set, Ne.symm his, if_false]

theorem sameOutcome_of_perm (n : Nat) (a b : State) (hb : a.blocks = b.blocks)
    (hw : a.weak = b.weak) (hs : ∀ i, i < n → a.sh i = b.sh i) (hp : a.trace.Perm b.trace)
    (hd : ∀ k, a.deleterCalls k = b.deleterCalls k) : State.sameOutcome n a b := by
  refine ⟨hb, hw, hs, hp, ?_⟩
  intro k
  exact ⟨hp.count_eq _, hp.count_eq _, hp.count_eq _, hd k⟩

theorem reset_deleter_refines (s : State) (self : Nat) (h : shared_ptr) (sd : State)
    (val : Addr) (d : Nat) (hself : s.sh self = some h)
    (hsd : shared_ptr.dtor self s = some sd) :
    ∃ s' sr, shared_ptr.reset_deleter self val d s = some s' ∧
      destroy_then_construct_deleter self val d s = some sr ∧
      State.sameOutcome s.shared.length s' sr := by
  obtain ⟨hsw, g1, hfin⟩ := shared_ptr.reset_shape s
    ((s.newBlock (Derived.control_block val d)).pushShared ⟨val, some s.blocks.length⟩)
    self h ⟨val, some s.blocks.length⟩ hself rfl rfl
  obtain ⟨td, evs, htd, hsdt, htdt, htdb, hlen⟩ := shared_ptr.dtor_after_alloc s _ self
    s.shared.length h sd ⟨1, 0, Derived.control_block val d, false⟩
    (Event.alloc s.blocks.length (Derived.control_block val d)) hself g1 rfl rfl hsd
  obtain ⟨hwk, hsh⟩ := hfin td htd
  obtain ⟨_, hsh2⟩ := State.sh_after_rebuild s sd (sd.newBlock (Derived.control_block val d))
    self h ⟨val, some sd.blocks.length⟩ hself hsd rfl
  obtain ⟨_, hsdw⟩ := shared_ptr.dtor_shared s sd self hsd
  refine ⟨td, (sd.newBlock (Derived.control_block val d)).setShared self
    (some ⟨val, some sd.blocks.length⟩), ?_, ?_, ?_⟩
  · have e : shared_ptr.reset_deleter self val d s =
        (match shared_ptr.swap s.shared.length self
          ((s.newBlock (Derived.control_block val d)).pushShared
            ⟨val, some s.blocks.length⟩) with
        | none => none
        | some s1 => shared_ptr.dtor s.shared.length s1) := rfl
    rw [e, hsw]
    exact htd
  · unfold destroy_then_construct_deleter
    simp only [hsd]
  · have htr : ((sd.newBlock (Derived.control_block val d)).setShared self
        (some ⟨val, some sd.blocks.length⟩)).trace =
        s.trace ++ evs ++ [Event.alloc s.blocks.length (Derived.control_block val d)] := by
      show sd.trace ++ [Event.alloc sd.blocks.length _] = _
      rw [hsdt, hlen]
    apply sameOutcome_of_perm
    · rw [htdb]
      rfl
    · rw [hwk]
      exact hsdw.symm
    · intro i hi
      rw [hsh i hi, hsh2 i hi, hlen]
    · rw [htdt, htr, List.append_assoc, List.append_assoc]
      exact List.Perm.append_left _ List.perm_append_comm
    · intro k
      unfold State.deleterCalls
      rw [htdt, htr]
      simp [List.filter_append, isDeleterOf]

/-- C15: for a live handle whose destructor is defined, `reset()`,
`reset(addr)` and `reset(addr, strategy)` end in the same outcome as
destroying the handle and then constructing in its place an empty handle, a
handle from `addr`, and a handle from `addr` with the strategy: the same value
in the handle and in every other handle, the same blocks with the same counts,
the same destroyed payloads and the same deallocated blocks. -/
theorem shared_ptr_reset_refines (s : State) (self : Nat) (h : shared_ptr) (sd : State)
    (val : Addr) (d : Nat) (hself : s.sh self = some h)
    (hsd : shared_ptr.dtor self s = some sd) :
    (∃ s' sr, shared_ptr.reset self s = some s' ∧ destroy_then_construct self s = some sr ∧
      State.sameOutcome s.shared.length s' sr) ∧
    (∃ s' sr, shared_ptr.reset_ptr self val s = some s' ∧
      destroy_then_construct_ptr self val s = some sr ∧
      State.sameOutcome s.shared.length s' sr) ∧
    (∃ s' sr, shared_ptr.reset_deleter self val d s = some s' ∧
      destroy_then_construct_deleter self val d s = some sr ∧
      State.sameOutcome s.shared.length s' sr) := by
  refine ⟨?_, reset_deleter_refines s self h sd val 0 hself hsd,
    reset_deleter_refines s self h sd val d hself hsd⟩
  obtain ⟨hsw, g1, hfin⟩ := shared_ptr.reset_shape s (s.pushShared ⟨Addr.null, none⟩)
    self h ⟨Addr.null, none⟩ hself rfl rfl
  have hcong := shared_ptr.dtor_congr s _ self s.shared.length h hself g1 rfl rfl
  rw [hsd] at hcong
  cases htd : shared_ptr.dtor s.shared.length
      (((s.pushShared ⟨Addr.null, none⟩).setShared s.shared.length (some h)).setShared self
        (some ⟨Addr.null, none⟩)) with
  | none => simp [htd] at hcong
  | some td =>
    simp [htd] at hcong
    obtain ⟨hbl, htr⟩ := hcong
    obtain ⟨hwk, hsh⟩ := hfin td htd
    obtain ⟨_, hsh2⟩ := State.sh_after_rebuild s sd sd self h ⟨Addr.null, none⟩ hself hsd rfl
    obtain ⟨_, hsdw⟩ := shared_ptr.dtor_shared s sd self hsd
    refine ⟨td, sd.setShared self (some ⟨Addr.null, none⟩), ?_, ?_, ?_⟩
    · have e : shared_ptr.reset self s =
          (match shared_ptr.swap s.shared.length self (s.pushShared ⟨Addr.null, none⟩) with
          | none => none
          | some s1 => shared_ptr.dtor s.shared.length s1) := rfl
      rw [e, hsw]
      exact htd
    · unfold destroy_then_construct
      simp only [hsd]
    · apply sameOutcome_of_perm
      · exact hbl
      · rw [hwk]
        exact hsdw.symm
      · intro i hi
        rw [hsh i hi, hsh2 i hi]
      · show td.trace.Perm sd.trace
        rw [htr]
      · intro k
        unfold State.deleterCalls
        show List.filter _ td.trace = List.filter _ sd.trace
        rw [htr]

/-- Witness for C15: the three forms of `reset` on the sole owner of object 7,
with new address 8 and deleter 3. -/
theorem shared_ptr_reset_refines_witness :
    (∃ s' sr, shared_ptr.reset 0 soleOwner = some s' ∧
      destroy_then_construct 0 soleOwner = some sr ∧
      State.sameOutcome soleOwner.shared.length s' sr) ∧
    (∃ s' sr, shared_ptr.reset_ptr 0 (Addr.obj 8) soleOwner = some s' ∧
      destroy_then_construct_ptr 0 (Addr.obj 8) soleOwner = some sr ∧
      State.sameOutcome soleOwner.shared.length s' sr) ∧
    (∃ s' sr, shared_ptr.reset_deleter 0 (Addr.obj 8) 3 soleOwner = some s' ∧
      destroy_then_construct_deleter 0 (Addr.obj 8) 3 soleOwner = some sr ∧
      State.sameOutcome soleOwner.shared.length s' sr) :=
  shared_ptr_reset_refines soleOwner 0 ⟨Addr.obj 7, some 0⟩ _ (Addr.obj 8) 3 rfl rfl

/-! ## The destructor of `shared_ptr` for any payload -/

theorem delete_count_dealloc (b : Nat) (blk : base_control_block_) :
    (base_control_block_.delete b blk).2.count (Event.dealloc b) = 1 := by
  unfold base_control_block_.delete
  split
  · split <;> simp [List.count_cons]
  · simp [List.count_cons]

theorem delete_count_destroy (b k : Nat) (blk : base_control_block_) :
    (base_control_block_.delete b blk).2.count (Event.destroy k) = 0 := by
  unfold base_control_block_.delete
  split
  · split <;> simp [List.count_cons]
  · simp [List.count_cons]

theorem State.sh_setShared_gone (s : State) (i : Nat) : (s.setShared i none).sh i = none := by
  unfold State.sh State.setShared
  by_cases h : i < s.shared.length
  · simp [List.getElem?_set, h]
  · simp [List.getElem?_set, h]

/-- The last owner's destructor, once the payload's teardown has returned with
the block still allocated: the block is deallocated exactly when the weak
count the teardown has left is zero. -/
theorem shared_ptr.dtor_reentrant_last (s : State) (teardown : State → Option State)
    (self b : Nat) (h : shared_ptr) (blk blk1 : base_control_block_) (st : State)
    (hlive : s.sh self = some h) (hm : h.ptr_manager = some b) (hd : s.deref b = some blk)
    (hz : size_t_dec blk.shared_ptr_counter = 0)
    (ht : teardown (((s.store b { blk with shared_ptr_counter := 0 }).setShared self
        (some ⟨Addr.null, some b⟩)).emit
        (base_control_block_.destroy b { blk with shared_ptr_counter := 0 }).2) = some st)
    (h1 : st.deref b = some blk1) :
    ∃ s' blk', shared_ptr.dtor_reentrant teardown self s = some s' ∧
      s'.blocks[b]? = some blk' ∧
      blk'.shared_ptr_counter = blk1.shared_ptr_counter ∧
      blk'.weak_ptr_counter = blk1.weak_ptr_counter ∧
      (blk'.freed = true ↔ blk1.weak_ptr_counter = 0) ∧
      s'.deallocs b = st.deallocs b + (if blk1.weak_ptr_counter = 0 then 1 else 0) ∧
      s'.destroyCalls b = st.destroyCalls b ∧
      (∀ b', b' ≠ b → s'.blocks[b']? = st.blocks[b']?) ∧ s'.weak = st.weak ∧
      s'.sh self = none := by
  have hlt := State.deref_lt s b blk hd
  have hfr := State.deref_not_freed s b blk hd
  have hlt1 := State.deref_lt st b blk1 h1
  have hfr1 := State.deref_not_freed st b blk1 h1
  have hd0 : ((s.store b { blk with shared_ptr_counter := 0 }).setShared self
      (some ⟨Addr.null, some b⟩)).deref b = some { blk with shared_ptr_counter := 0 } :=
    State.deref_store_same s b _ hlt hfr
  -- the block as `destroy()` leaves it
  have hdes : ∃ s1 blk2, base_control_block_.destroy_reentrant teardown b
        ((s.store b { blk with shared_ptr_counter := 0 }).setShared self
          (some ⟨Addr.null, some b⟩)) = some s1 ∧
      s1.deref b = some blk2 ∧ blk2.shared_ptr_counter = blk1.shared_ptr_counter ∧
      blk2.weak_ptr_counter = blk1.weak_ptr_counter ∧ s1.trace = st.trace ∧
      s1.weak = st.weak ∧ s1.shared = st.shared ∧
      (∀ b', b' ≠ b → s1.blocks[b']? = st.blocks[b']?) := by
    unfold base_control_block_.destroy_reentrant
    simp only [hd0, ht]
    cases hder : blk.derived with
    | control_block p d =>
      simp only [hder, h1]
      refine ⟨_, _, rfl, State.deref_store_same st b _ hlt1 (by simp [hfr1]), by simp, by simp,
        rfl, rfl, rfl, ?_⟩
      intro b' hb'
      simp [State.store, List.getElem?_set, Ne.symm hb']
    | inplace_control_block a =>
      simp only [hder]
      exact ⟨_, _, rfl, h1, rfl, rfl, rfl, rfl, rfl, fun _ _ => rfl⟩
  obtain ⟨s1, blk2, hdr, hd2, hc2, hw2, htr, hwk, hsh, hoth⟩ := hdes
  have hlt2 := State.deref_lt s1 b blk2 hd2
  have hfr2 := State.deref_not_freed s1 b blk2 hd2
  unfold shared_ptr.dtor_reentrant
  simp only [hlive, hm, hd, hz, if_true, hdr, hd2, hw2]
  by_cases hw : blk1.weak_ptr_counter = 0
  · simp only [hw, if_true]
    refine ⟨_, (base_control_block_.delete b blk2).1, rfl, ?_, by simp [hc2], by simp [hw2, hw],
      by simp, ?_, ?_, ?_, hwk, State.sh_setShared_gone _ _⟩
    · simp [State.setShared, State.emit, State.store, List.getElem?_set, hlt2]
    · simp [State.deallocs, State.setShared, State.emit, State.store, List.count_append, htr,
        delete_count_dealloc]
    · simp [State.destroyCalls, State.setShared, State.emit, State.store, List.count_append, htr,
        delete_count_destroy]
    · intro b' hb'
      rw [← hoth b' hb']
      simp [State.setShared, State.emit, State.store, List.getElem?_set, Ne.symm hb']
  · simp only [hw, if_false]
    refine ⟨_, blk2, rfl, ?_, hc2, hw2, by simp [hfr2, hw], ?_, ?_, ?_, hwk,
      State.sh_setShared_gone _ _⟩
    · exact ((State.deref_eq_some s1 b blk2).1 hd2).1
    · simp [State.deallocs, State.setShared, htr]
    · simp [State.destroyCalls, State.setShared, htr]
    · intro b' hb'
      exact hoth b' hb'

theorem base_control_block_.destroy_events (b : Nat) (blk : base_control_block_) (c : Nat) :
    (base_control_block_.destroy b { blk with shared_ptr_counter := c }).2 =
      (base_control_block_.destroy b blk).2 := by
  unfold base_control_block_.destroy
  cases hd : blk.derived <;> simp [hd]

/-- Unless the strong count drops to zero, the payload is not touched and the
destructor is the one for a payload without handle operations. -/
theorem shared_ptr.dtor_reentrant_not_last (s : State) (teardown : State → Option State)
    (self : Nat) (h : shared_ptr) (hlive : s.sh self = some h)
    (hnz : ∀ b blk, h.ptr_manager = some b → s.deref b = some blk →
      size_t_dec blk.shared_ptr_counter ≠ 0) :
    shared_ptr.dtor_reentrant teardown self s = shared_ptr.dtor self s := by
  cases hm : h.ptr_manager with
  | none => simp only [shared_ptr.dtor_reentrant, shared_ptr.dtor, hlive, hm]
  | some b =>
    cases hd : s.deref b with
    | none => simp only [shared_ptr.dtor_reentrant, shared_ptr.dtor, hlive, hm, hd]
    | some blk =>
      simp only [shared_ptr.dtor_reentrant, shared_ptr.dtor, hlive, hm, hd, hnz b blk hm hd,
        if_false]

theorem base_control_block_.destroy_reentrant_pure (s : State) (b : Nat)
    (blk : base_control_block_) (hd : s.deref b = some blk) :
    base_control_block_.destroy_reentrant (fun t => some t) b s =
      some ((s.emit (base_control_block_.destroy b blk).2).store b
        (base_control_block_.destroy b blk).1) := by
  have hde : (s.emit (base_control_block_.destroy b blk).2).deref b = some blk := hd
  have hget := ((State.deref_eq_some s b blk).1 hd).1
  unfold base_control_block_.destroy_reentrant
  simp only [hd]
  cases hder : blk.derived with
  | control_block p d => simp only [hde]
  | inplace_control_block a =>
    have h1 : (base_control_block_.destroy b blk).1 = blk := by
      simp [base_control_block_.destroy, hder]
    simp only [h1, State.store, State.emit, State.store_self s b blk hget]

/-- With a teardown that does nothing to the memory, the destructor is the one
for a payload without handle operations. -/
theorem shared_ptr.dtor_reentrant_pure (s : State) (self : Nat) :
    shared_ptr.dtor_reentrant (fun t => some t) self s = shared_ptr.dtor self s := by
  cases hlive : s.sh self with
  | none => simp [shared_ptr.dtor_reentrant, shared_ptr.dtor, hlive]
  | some h =>
    cases hm : h.ptr_manager with
    | none => simp [shared_ptr.dtor_reentrant, shared_ptr.dtor, hlive, hm]
    | some b =>
      cases hd : s.deref b with
      | none => simp [shared_ptr.dtor_reentrant, shared_ptr.dtor, hlive, hm, hd]
      | some blk =>
        by_cases hz : size_t_dec blk.shared_ptr_counter = 0
        · have hlt := State.deref_lt s b blk hd
          have hfr := State.deref_not_freed s b blk hd
          have hd0 : ((s.store b { blk with shared_ptr_counter := 0 }).setShared self
              (some ⟨Addr.null, some b⟩)).deref b = some { blk with shared_ptr_counter := 0 } :=
            State.deref_store_same s b _ hlt hfr
          have hd1 : (((((s.store b { blk with shared_ptr_counter := 0 }).setShared self
                (some ⟨Addr.null, some b⟩)).emit
                (base_control_block_.destroy b { blk with shared_ptr_counter := 0 }).2).store b
                (base_control_block_.destroy b { blk with shared_ptr_counter := 0 }).1).deref b) =
              some (base_control_block_.destroy b { blk with shared_ptr_counter := 0 }).1 := by
            apply State.deref_store_same _ b _ _ (by simp [hfr])
            simpa [State.emit, State.setShared, State.store] using hlt
          unfold shared_ptr.dtor_reentrant shared_ptr.dtor
          simp only [hlive, hm, hd, hz, if_true,
            base_control_block_.destroy_reentrant_pure _ b _ hd0, hd1,
            base_control_block_.destroy_weak]
          by_cases hw : blk.weak_ptr_counter = 0
          · simp [hw, State.store, State.emit, State.setShared, List.set_set]
          · simp [hw, State.store, State.emit, State.setShared, List.set_set]
        · rw [shared_ptr.dtor_reentrant_not_last s _ self h hlive]
          intro b' blk' hb' hd'
          rw [hm] at hb'
          have hb' := (Option.some.inj hb').symm
          subst hb'
          rw [hd] at hd'
          have hd' := (Option.some.inj hd').symm
          subst hd'
          exact hz

/-- C1 as stated fails.  Object 7 holds a `weak_ptr` to itself as a member
(`weak_ptr` object 0) and has one owner (`shared_ptr` object 0): the block has
strong count 1 and weak count 1.  Destroying the owner runs the deleter, which
destroys the member, so the weak count read after `destroy()` is 0 and the
block is deallocated, although the weak count was 1 when the destructor
started. -/
theorem dtor_frees_block_observed_by_payload :
    run ownerAndObserver State.init = some ownerObserved ∧
    ownerObserved.sh 0 = some ⟨Addr.obj 7, some 0⟩ ∧
    ownerObserved.wk 0 = some ⟨Addr.obj 7, some 0⟩ ∧
    ownerObserved.deref 0 = some ⟨1, 1, Derived.control_block (Addr.obj 7) 0, false⟩ ∧
    shared_ptr.dtor_reentrant (weak_ptr.dtor 0) 0 ownerObserved =
      some ⟨[⟨0, 0, Derived.control_block Addr.null 0, true⟩], [none], [none],
        [Event.alloc 0 (Derived.control_block (Addr.obj 7) 0), Event.destroy 0,
          Event.deleter 0 0 (Addr.obj 7), Event.dealloc 0]⟩ := by
  decide

/-- C1 (amended): destroying a `shared_ptr`, whatever the payload's teardown
does.  Without a block nothing changes and nothing is called.  With a block of
strong count `n ≥ 1` and weak count `w`: when `n ≠ 1` the strong count is left
at `n - 1`, the weak count at `w`, nothing is called and the block stays
allocated; when `n = 1` the strong count is set to 0 and `destroy()` is called
once, and when the teardown it runs has returned with the block still
allocated, the block is deallocated exactly when the weak count is then 0.
For a payload whose teardown performs no handle operation this is: strong
count `n - 1`, weak count `w`, `destroy()` called exactly when `n = 1`, block
deallocated exactly when `n = 1` and `w = 0`. -/
theorem shared_ptr_dtor_contract (s : State) (teardown : State → Option State) (self : Nat)
    (h : shared_ptr) (hlive : s.sh self = some h) :
    (h.ptr_manager = none →
      ∃ s', shared_ptr.dtor_reentrant teardown self s = some s' ∧ s'.blocks = s.blocks ∧
        s'.trace = s.trace ∧ s'.sh self = none) ∧
    (∀ (b n w : Nat) (blk : base_control_block_), h.ptr_manager = some b →
      s.deref b = some blk → blk.shared_ptr_counter = n → blk.weak_ptr_counter = w →
      1 ≤ n → n < 18446744073709551616 →
      (n ≠ 1 →
        ∃ s' blk', shared_ptr.dtor_reentrant teardown self s = some s' ∧
          s'.blocks[b]? = some blk' ∧ blk'.shared_ptr_counter = n - 1 ∧
          blk'.weak_ptr_counter = w ∧ blk'.freed = false ∧ s'.trace = s.trace ∧
          s'.sh self = none) ∧
      (n = 1 →
        (shared_ptr.dtor_entered self b blk s).deref b =
          some { blk with shared_ptr_counter := 0 } ∧
        (shared_ptr.dtor_entered self b blk s).destroyCalls b = s.destroyCalls b + 1 ∧
        (shared_ptr.dtor_entered self b blk s).deallocs b = s.deallocs b ∧
        ∀ st blk1, teardown (shared_ptr.dtor_entered self b blk s) = some st →
          st.deref b = some blk1 →
          ∃ s' blk', shared_ptr.dtor_reentrant teardown self s = some s' ∧
            s'.blocks[b]? = some blk' ∧
            blk'.shared_ptr_counter = blk1.shared_ptr_counter ∧
            blk'.weak_ptr_counter = blk1.weak_ptr_counter ∧
            (blk'.freed = true ↔ blk1.weak_ptr_counter = 0) ∧
            s'.deallocs b = st.deallocs b + (if blk1.weak_ptr_counter = 0 then 1 else 0) ∧
            s'.destroyCalls b = st.destroyCalls b ∧
            (∀ b', b' ≠ b → s'.blocks[b']? = st.blocks[b']?) ∧ s'.weak = st.weak ∧
            s'.sh self = none) ∧
      (∃ s' blk', shared_ptr.dtor_reentrant (fun t => some t) self s = some s' ∧
        s'.blocks[b]? = some blk' ∧
        blk'.shared_ptr_counter = n - 1 ∧ blk'.weak_ptr_counter = w ∧
        s'.destroyCalls b = s.destroyCalls b + (if n = 1 then 1 else 0) ∧
        s'.deallocs b = s.deallocs b + (if n = 1 ∧ w = 0 then 1 else 0) ∧
        (blk'.freed = true ↔ (n = 1 ∧ w = 0)) ∧
        s'.sh self = none)) := by
  refine ⟨?_, ?_⟩
  · intro hnone
    refine ⟨s.setShared self none, ?_, rfl, rfl, State.sh_setShared_gone s self⟩
    simp only [shared_ptr.dtor_reentrant, hlive, hnone]
  · intro b n w blk hb hblk hn hw h1 hmax
    have hlt := State.deref_lt s b blk hblk
    have hfr := State.deref_not_freed s b blk hblk
    have hdec : size_t_dec blk.shared_ptr_counter = n - 1 := by
      rw [hn]; exact size_t_dec_of_pos n h1 hmax
    refine ⟨?_, ?_, ?_⟩
    · intro hn1
      have hne : n - 1 ≠ 0 := by omega
      refine ⟨(s.store b { blk with shared_ptr_counter := n - 1 }).setShared self none,
        { blk with shared_ptr_counter := n - 1 }, ?_, ?_, rfl, hw, hfr, rfl,
        State.sh_setShared_gone _ self⟩
      · simp only [shared_ptr.dtor_reentrant, hlive, hb, hblk, hdec, hne, if_false]
      · simp [State.setShared, State.store, List.getElem?_set, hlt]
    · intro hn1
      subst hn1
      have hz : size_t_dec blk.shared_ptr_counter = 0 := hdec
      have hent : shared_ptr.dtor_entered self b blk s =
          ((s.store b { blk with shared_ptr_counter := 0 }).setShared self
            (some ⟨Addr.null, some b⟩)).emit
            (base_control_block_.destroy b { blk with shared_ptr_counter := 0 }).2 := by
        unfold shared_ptr.dtor_entered
        rw [base_control_block_.destroy_events b blk 0]
      refine ⟨?_, ?_, ?_, ?_⟩
      · exact State.deref_store_same s b _ hlt hfr
      · unfold shared_ptr.dtor_entered State.destroyCalls
        simp only [State.emit, State.setShared, State.store, List.count_append,
          base_control_block_.destroy_count]
      · unfold shared_ptr.dtor_entered State.deallocs
        simp only [State.emit, State.setShared, State.store, List.count_append]
        unfold base_control_block_.destroy
        cases blk.derived <;> simp [List.count_cons]
      · intro st blk1 ht hd1
        rw [hent] at ht
        exact shared_ptr.dtor_reentrant_last s teardown self b h blk blk1 st hlive hb hblk hz ht
          hd1
    · rw [shared_ptr.dtor_reentrant_pure]
      exact (shared_ptr.dtor_spec s self h hlive).1 b n w blk hb hblk hn hw h1 hmax

/-- Witness for C1 (amended): object 7 holds a `weak_ptr` to itself and has
one owner; when the owner is destroyed, the teardown (the destructor of the
member) returns with weak count 0, and the block is deallocated. -/
theorem shared_ptr_dtor_contract_witness :
    ∃ s' blk', shared_ptr.dtor_reentrant (weak_ptr.dtor 0) 0 ownerObserved = some s' ∧
      s'.blocks[0]? = some blk' ∧
      blk'.shared_ptr_counter = 0 ∧ blk'.weak_ptr_counter = 0 ∧
      (blk'.freed = true ↔ (0 : Nat) = 0) ∧
      s'.deallocs 0 = 0 + (if (0 : Nat) = 0 then 1 else 0) ∧
      s'.destroyCalls 0 = 1 ∧
      (∀ b', b' ≠ 0 → s'.blocks[b']? =
        [(⟨0, 0, Derived.control_block (Addr.obj 7) 0, false⟩ : base_control_block_)][b']?) ∧
      s'.weak = [none] ∧ s'.sh 0 = none :=
  ((shared_ptr_dtor_contract ownerObserved (weak_ptr.dtor 0) 0 ⟨Addr.obj 7, some 0⟩ rfl).2 0 1 1
    ⟨1, 1, Derived.control_block (Addr.obj 7) 0, false⟩ rfl rfl rfl rfl (by decide)
    (by decide)).2.1 rfl |>.2.2.2
    ⟨[⟨0, 0, Derived.control_block (Addr.obj 7) 0, false⟩], [some ⟨Addr.null, some 0⟩], [none],
      [Event.alloc 0 (Derived.control_block (Addr.obj 7) 0), Event.destroy 0,
        Event.deleter 0 0 (Addr.obj 7)]⟩
    ⟨0, 0, Derived.control_block (Addr.obj 7) 0, false⟩ rfl rfl
